import Mathlib

/-
  Verification development for the nablo_ui core: the layout/dirty-tracking
  engine (src/layout/mod.rs), the rectangle algebra (src/math/rect.rs), the
  shape IR (src/render/shape.rs) and the shape-to-GPU-bytecode compiler
  (src/render/painter.rs).

  Shallow embedding conventions:
  * `f32` is modelled by `Nablo.F`: a rational with IEEE-style `+inf`, `-inf`
    and `nan`; arithmetic on finite values is exact rational arithmetic
    (the source only relies on order/min/max/add/sub structure in the
    properties proved here), while infinity/NaN propagation follows IEEE
    and Rust `f32::min`/`f32::max` semantics.
  * transcendental functions (`exp`, used only by the `Sigmoid` operator)
    are abstracted as an explicit function argument.
  * `HashMap`/`IndexMap` state is modelled by association lists with
    HashMap-style insert/remove/lookup; recursive/worklist procedures that
    the source runs on those maps take an explicit fuel argument (the
    source terminates because the maps describe finite trees; theorems
    supply enough fuel through their hypotheses).
  * trait-object widgets are an opaque type parameter `W`; the widget
    callbacks the layout engine invokes (`size`, `handle_child_layout`,
    `continuous_event_handling`) are oracle functions, and `draw` side
    effects are recorded as the list of node ids whose draw callback ran.
-/

namespace Nablo

/-- IEEE-style `f32` surrogate: `nan`, `-inf`, finite rational, `+inf`. -/
inductive F where
  | nan : F
  | negInf : F
  | fin : ℚ → F
  | posInf : F
deriving DecidableEq, Repr

namespace F

def isNaN : F → Bool
  | .nan => true
  | _ => false

def isFinite : F → Bool
  | .fin _ => true
  | _ => false

/-- IEEE `==` on `f32`: `nan` is not equal to anything (itself included). -/
def beq : F → F → Bool
  | .fin a, .fin b => a == b
  | .negInf, .negInf => true
  | .posInf, .posInf => true
  | _, _ => false

/-- IEEE `<` on `f32`: any comparison involving `nan` is false. -/
def flt : F → F → Bool
  | .nan, _ => false
  | _, .nan => false
  | .negInf, .negInf => false
  | .negInf, _ => true
  | _, .negInf => false
  | .fin a, .fin b => decide (a < b)
  | .fin _, .posInf => true
  | .posInf, _ => false

/-- IEEE `<=` on `f32`. -/
def fle (a b : F) : Bool := flt a b || beq a b

def neg : F → F
  | .nan => .nan
  | .negInf => .posInf
  | .fin a => .fin (-a)
  | .posInf => .negInf

def add : F → F → F
  | .nan, _ => .nan
  | _, .nan => .nan
  | .posInf, .negInf => .nan
  | .negInf, .posInf => .nan
  | .posInf, _ => .posInf
  | _, .posInf => .posInf
  | .negInf, _ => .negInf
  | _, .negInf => .negInf
  | .fin a, .fin b => .fin (a + b)

def sub (a b : F) : F := add a (neg b)

def mul : F → F → F
  | .nan, _ => .nan
  | _, .nan => .nan
  | .fin a, .fin b => .fin (a * b)
  | .posInf, .posInf => .posInf
  | .posInf, .negInf => .negInf
  | .negInf, .posInf => .negInf
  | .negInf, .negInf => .posInf
  | .posInf, .fin b => if 0 < b then .posInf else if b < 0 then .negInf else .nan
  | .negInf, .fin b => if 0 < b then .negInf else if b < 0 then .posInf else .nan
  | .fin a, .posInf => if 0 < a then .posInf else if a < 0 then .negInf else .nan
  | .fin a, .negInf => if 0 < a then .negInf else if a < 0 then .posInf else .nan

def fdiv : F → F → F
  | .nan, _ => .nan
  | _, .nan => .nan
  | .fin a, .fin b =>
      if b = 0 then (if a = 0 then .nan else if 0 < a then .posInf else .negInf)
      else .fin (a / b)
  | .fin _, .posInf => .fin 0
  | .fin _, .negInf => .fin 0
  | .posInf, .fin b => if 0 ≤ b then .posInf else .negInf
  | .negInf, .fin b => if 0 ≤ b then .negInf else .posInf
  | _, _ => .nan

/-- Rust `f32::min`: if one argument is `nan` the other is returned. -/
def fmin (a b : F) : F :=
  if a.isNaN then b else if b.isNaN then a else if fle a b then a else b

/-- Rust `f32::max`: if one argument is `nan` the other is returned. -/
def fmax (a b : F) : F :=
  if a.isNaN then b else if b.isNaN then a else if fle a b then b else a

end F

/-- `src/math/vec2.rs`: a 2D vector of `f32`. -/
structure Vec2 where
  x : F
  y : F
deriving DecidableEq, Repr

namespace Vec2

def mk' (x y : ℚ) : Vec2 := ⟨.fin x, .fin y⟩

def ZERO : Vec2 := mk' 0 0

def same (v : F) : Vec2 := ⟨v, v⟩

def add (a b : Vec2) : Vec2 := ⟨a.x.add b.x, a.y.add b.y⟩

def sub (a b : Vec2) : Vec2 := ⟨a.x.sub b.x, a.y.sub b.y⟩

def neg (a : Vec2) : Vec2 := ⟨a.x.neg, a.y.neg⟩

/-- `impl Div<f32> for Vec2` (componentwise). -/
def divF (a : Vec2) (s : F) : Vec2 := ⟨a.x.fdiv s, a.y.fdiv s⟩

def isFinite (a : Vec2) : Bool := a.x.isFinite && a.y.isFinite

end Vec2

/-- Four `f32` components (`Vec4` from `src/math/color.rs`), used for corner
    rounding payloads. -/
structure Vec4 where
  x : F
  y : F
  z : F
  w : F
deriving DecidableEq, Repr

/-- `src/math/color.rs`: an unpremultiplied RGBA color. -/
structure Color where
  r : F
  g : F
  b : F
  a : F
deriving DecidableEq, Repr

namespace Color

/-- `Color::premultiply`. -/
def premultiply (c : Color) : Color :=
  ⟨c.r.mul c.a, c.g.mul c.a, c.b.mul c.a, c.a⟩

end Color

/-- `src/math/transform2d.rs`: a 3x3 projective matrix stored column major;
    field `cIJ` is the source's `self.0[I][J]` (column `I`, row `J`). -/
structure Transform2D where
  c00 : F
  c01 : F
  c02 : F
  c10 : F
  c11 : F
  c12 : F
  c20 : F
  c21 : F
  c22 : F
deriving DecidableEq, Repr

namespace Transform2D

/-- `Transform2D::column_major`. -/
def column_major (a b c d e f : ℚ) : Transform2D :=
  ⟨.fin a, .fin d, .fin 0, .fin b, .fin e, .fin 0, .fin c, .fin f, .fin 1⟩

/-- `Transform2D::IDENTITY`. -/
def IDENTITY : Transform2D := column_major 1 0 0 0 1 0

/-- derived `PartialEq` on `[[f32; 3]; 3]` (IEEE componentwise equality). -/
def beq (a b : Transform2D) : Bool :=
  a.c00.beq b.c00 && a.c01.beq b.c01 && a.c02.beq b.c02 &&
  a.c10.beq b.c10 && a.c11.beq b.c11 && a.c12.beq b.c12 &&
  a.c20.beq b.c20 && a.c21.beq b.c21 && a.c22.beq b.c22

/-- `Transform2D::apply` (the `A >> v` operator). -/
def apply (m : Transform2D) (v : Vec2) : Vec2 :=
  let new_x := ((m.c00.mul v.x).add (m.c10.mul v.y)).add m.c20
  let new_y := ((m.c01.mul v.x).add (m.c11.mul v.y)).add m.c21
  let new_w := ((m.c02.mul v.x).add (m.c12.mul v.y)).add m.c22
  Vec2.divF ⟨new_x, new_y⟩ new_w

end Transform2D

/-- `src/math/rect.rs`: an axis-aligned rectangle `{x, y, w, h}`. -/
structure Rect where
  x : F
  y : F
  w : F
  h : F
deriving DecidableEq, Repr

namespace Rect

def mk' (x y w h : ℚ) : Rect := ⟨.fin x, .fin y, .fin w, .fin h⟩

/-- `Rect::WINDOW = (0, 0, +inf, +inf)`. -/
def WINDOW : Rect := ⟨.fin 0, .fin 0, .posInf, .posInf⟩

/-- `Rect::ZERO`. -/
def ZERO : Rect := mk' 0 0 0 0

/-- `Rect::from_size`. -/
def from_size (size : Vec2) : Rect := ⟨.fin 0, .fin 0, size.x, size.y⟩

/-- `Rect::from_ltrb`. -/
def from_ltrb (lt rb : Vec2) : Rect := ⟨lt.x, lt.y, rb.x.sub lt.x, rb.y.sub lt.y⟩

/-- `Rect::from_lt_size`. -/
def from_lt_size (lt size : Vec2) : Rect := ⟨lt.x, lt.y, size.x, size.y⟩

/-- `Rect::from_center_size`. -/
def from_center_size (center size : Vec2) : Rect :=
  let half_size := size.divF (.fin 2)
  ⟨center.x.sub half_size.x, center.y.sub half_size.y, size.x, size.y⟩

/-- `Rect::lt`. -/
def lt (r : Rect) : Vec2 := ⟨r.x, r.y⟩

/-- `Rect::rt`. -/
def rt (r : Rect) : Vec2 := ⟨r.x.add r.w, r.y⟩

/-- `Rect::rb`. -/
def rb (r : Rect) : Vec2 := ⟨r.x.add r.w, r.y.add r.h⟩

/-- `Rect::lb`. -/
def lb (r : Rect) : Vec2 := ⟨r.x, r.y.add r.h⟩

/-- `Rect::size`. -/
def size (r : Rect) : Vec2 := ⟨r.w, r.h⟩

/-- `Rect::is_empty`: `self.w < 0.0 || self.h < 0.0`. -/
def is_empty (r : Rect) : Bool := r.w.flt (.fin 0) || r.h.flt (.fin 0)

/-- `Rect::is_positive`. -/
def is_positive (r : Rect) : Bool := !r.is_empty

/-- `Rect::intersection` (the `&` operator). -/
def intersection (a b : Rect) : Rect :=
  let x := a.x.fmax b.x
  let y := a.y.fmax b.y
  let w := ((a.x.add a.w).fmin (b.x.add b.w)).sub x
  let h := ((a.y.add a.h).fmin (b.y.add b.h)).sub y
  ⟨x, y, w, h⟩

/-- `Rect::union` (the `|` operator). -/
def union (a b : Rect) : Rect :=
  let x := a.x.fmin b.x
  let y := a.y.fmin b.y
  let w := ((a.x.add a.w).fmax (b.x.add b.w)).sub x
  let h := ((a.y.add a.h).fmax (b.y.add b.h)).sub y
  ⟨x, y, w, h⟩

/-- `Rect::move_by`. -/
def move_by (r : Rect) (offset : Vec2) : Rect :=
  ⟨r.x.add offset.x, r.y.add offset.y, r.w, r.h⟩

/-- `Rect::shrink`. -/
def shrink (r : Rect) (amount : Vec2) : Rect :=
  ⟨r.x.add amount.x, r.y.add amount.y,
   r.w.sub (amount.x.mul (.fin 2)), r.h.sub (amount.y.mul (.fin 2))⟩

/-- `Rect::transformed`: bounding box of the four transformed corners. -/
def transformed (r : Rect) (mat : Transform2D) : Rect :=
  let ltc := mat.apply r.lt
  let rbc := mat.apply r.rb
  let lbc := mat.apply r.lb
  let rtc := mat.apply r.rt
  let lt_x := ((ltc.x.fmin rbc.x).fmin lbc.x).fmin rtc.x
  let lt_y := ((ltc.y.fmin rbc.y).fmin lbc.y).fmin rtc.y
  let rb_x := ((ltc.x.fmax rbc.x).fmax lbc.x).fmax rtc.x
  let rb_y := ((ltc.y.fmax rbc.y).fmax lbc.y).fmax rtc.y
  from_ltrb ⟨lt_x, lt_y⟩ ⟨rb_x, rb_y⟩

/-- `Rect::lerp`. -/
def lerp (a b : Rect) (t : F) : Rect :=
  ⟨a.x.add ((b.x.sub a.x).mul t),
   a.y.add ((b.y.sub a.y).mul t),
   a.w.add ((b.w.sub a.w).mul t),
   a.h.add ((b.h.sub a.h).mul t)⟩

/-- derived `PartialEq` on `Rect` (IEEE componentwise equality). -/
def beq (a b : Rect) : Bool :=
  a.x.beq b.x && a.y.beq b.y && a.w.beq b.w && a.h.beq b.h

def isFiniteRect (r : Rect) : Bool :=
  r.x.isFinite && r.y.isFinite && r.w.isFinite && r.h.isFinite

end Rect

/-! ## Shape IR (`src/render/shape.rs`) -/

/-- `Operator`: the boolean/blend operators of the postfix shape programs. -/
inductive Operator where
  | And : Operator
  | Or : Operator
  | Minus : Operator
  | Xor : Operator
  | Not : Operator
  | Lerp : F → Operator
  | SmoothStep : F → Operator
  | Sigmoid : F → Operator
deriving DecidableEq, Repr

/-- `BasicShapeData`: the SDF primitives. -/
inductive BasicShapeData where
  | Circle : Vec2 → F → BasicShapeData
  | Triangle : Vec2 → Vec2 → Vec2 → BasicShapeData
  | Rectangle : Vec2 → Vec2 → Vec4 → BasicShapeData
  | HalfPlane : Vec2 → Vec2 → BasicShapeData
  | QuadBezierPlane : Vec2 → Vec2 → Vec2 → BasicShapeData
  | SDFTexture : Vec2 → Vec2 → Nat → BasicShapeData
  | Text : Vec2 → Nat → F → Char → BasicShapeData
deriving DecidableEq, Repr

/-- `BasicShape`: a primitive with its transform and optional stroke width. -/
structure BasicShape where
  data : BasicShapeData
  transform : Transform2D
  stroke : Option F
deriving DecidableEq, Repr

/-- `BasicShapeData::bounded_rect`. -/
def BasicShapeData.bounded_rect : BasicShapeData → Rect
  | .Circle center radius =>
      Rect.from_center_size center (Vec2.same (radius.mul (.fin 2)))
  | .Triangle p1 p2 p3 =>
      let min_x := (p1.x.fmin p2.x).fmin p3.x
      let min_y := (p1.y.fmin p2.y).fmin p3.y
      let max_x := (p1.x.fmax p2.x).fmax p3.x
      let max_y := (p1.y.fmax p2.y).fmax p3.y
      Rect.from_ltrb ⟨min_x, min_y⟩ ⟨max_x, max_y⟩
  | .Rectangle ltc rbc _ => Rect.from_ltrb ltc rbc
  | .HalfPlane _ _ => Rect.WINDOW
  | .QuadBezierPlane p1 p2 p3 =>
      let min_x := (p1.x.fmin p2.x).fmin p3.x
      let min_y := (p1.y.fmin p2.y).fmin p3.y
      let max_x := (p1.x.fmax p2.x).fmax p3.x
      let max_y := (p1.y.fmax p2.y).fmax p3.y
      Rect.from_ltrb ⟨min_x, min_y⟩ ⟨max_x, max_y⟩
  | .SDFTexture top_left right_bottom _ => Rect.from_ltrb top_left right_bottom
  | .Text pos _ size _ => Rect.from_lt_size pos (Vec2.same size)

/-- `BasicShape::bounded_rect`: primitive bound, transformed, grown by half
    the stroke width. -/
def BasicShape.bounded_rect (s : BasicShape) : Rect :=
  (s.data.bounded_rect.transformed s.transform).shrink
    (match s.stroke with
     | some width => (Vec2.same (width.fdiv (.fin 2))).neg
     | none => Vec2.ZERO)

/-- `ShapeOrOp`: one token of a postfix shape program. -/
inductive ShapeOrOp where
  | shape : BasicShape → ShapeOrOp
  | op : Operator → ShapeOrOp
deriving DecidableEq, Repr

/-- `Shape`: a postfix (RPN) token stream. -/
abbrev Shape := List ShapeOrOp

namespace Shape

/-- `Shape::union` (`|`). -/
def union (s rhs : Shape) : Shape := s ++ rhs ++ [.op .Or]

/-- `Shape::difference` (`-`). -/
def difference (s rhs : Shape) : Shape := s ++ rhs ++ [.op .Minus]

/-- `Shape::symmetric_difference` (`^`). -/
def symmetric_difference (s rhs : Shape) : Shape := s ++ rhs ++ [.op .Xor]

/-- `Shape::intersection` (`&`). -/
def intersection (s rhs : Shape) : Shape := s ++ rhs ++ [.op .And]

/-- `Shape::complement` (`!`). -/
def complement (s : Shape) : Shape := s ++ [.op .Not]

/-- the binary-operator arm of the `Shape::bounded_rect` stack loop;
    `none` is the source's `unreachable!()` for `Not`. `texp` abstracts
    `f32::exp` (used only by the `Sigmoid` arm). -/
def bounded_rect_op (texp : F → F) (o : Operator) (lhs rhs : Rect) : Option Rect :=
  match o with
  | .Or => some (lhs.union rhs)
  | .Minus => some rhs
  | .And => some (lhs.intersection rhs)
  | .Xor => some (lhs.union rhs)
  | .Lerp t => some (lhs.lerp rhs t)
  | .SmoothStep t => some (lhs.lerp rhs t)
  | .Sigmoid t =>
      let sigmoid := (F.fin 1).fdiv ((F.fin 1).add (texp t))
      some (lhs.lerp rhs sigmoid)
  | .Not => none

/-- one step of the `Shape::bounded_rect` stack loop; `none` models the
    mid-loop `unwrap` panics on an ill-formed program. -/
def bounded_rect_go (texp : F → F) : List ShapeOrOp → List Rect → Option Rect
  | [], stack => some ((stack.head?).getD Rect.ZERO)
  | .shape sh :: rest, stack => bounded_rect_go texp rest (sh.bounded_rect :: stack)
  | .op o :: rest, stack =>
    if o = .Not then bounded_rect_go texp rest (Rect.WINDOW :: stack.tail)
    else
      match stack with
      | rhs :: lhs :: stack' =>
        match bounded_rect_op texp o lhs rhs with
        | some r => bounded_rect_go texp rest (r :: stack')
        | none => none
      | _ => none

/-- `Shape::bounded_rect`. -/
def bounded_rect (texp : F → F) (s : Shape) : Option Rect :=
  bounded_rect_go texp s []

end Shape

/-! ## GPU command layer (`src/render/commands.rs`) -/

/-- `CommandGpu` opcodes. -/
inductive CommandGpu where
  | None | DrawCircle | DrawTriangle | DrawRectangle | DrawHalfPlane
  | DrawQuadPlane | DrawSDFTexture | DrawChar | Fill | FillLinearGradient
  | FillRadialGradient | FillTexture | SetMat3x3 | SetBlendMode | Load
deriving DecidableEq, Repr

/-- the `repr(u32)` discriminants of `CommandGpu` (used by `as u32`). -/
def CommandGpu.code : CommandGpu → Nat
  | .None => 0
  | .DrawCircle => 1
  | .DrawTriangle => 2
  | .DrawRectangle => 3
  | .DrawHalfPlane => 4
  | .DrawQuadPlane => 5
  | .DrawSDFTexture => 6
  | .DrawChar => 7
  | .Fill => 8
  | .FillLinearGradient => 9
  | .FillRadialGradient => 10
  | .FillTexture => 11
  | .SetMat3x3 => 12
  | .SetBlendMode => 13
  | .Load => 14

/-- `OperationGpu` field combinators. -/
inductive OperationGpu where
  | None | Replace | ReplaceWhenInside | ReplaceWhenOutside
  | And | Or | Xor | Sub | Neg | Lerp | SmoothStep | Sigmoid
deriving DecidableEq, Repr

/-- the `repr(u16)` discriminants of `OperationGpu` (used by `as u32`). -/
def OperationGpu.code : OperationGpu → Nat
  | .None => 0
  | .Replace => 1
  | .ReplaceWhenInside => 2
  | .ReplaceWhenOutside => 3
  | .And => 4
  | .Or => 5
  | .Xor => 6
  | .Sub => 7
  | .Neg => 8
  | .Lerp => 9
  | .SmoothStep => 10
  | .Sigmoid => 11

/-- `BlendMode`. -/
inductive BlendMode where
  | Replace | Add | Multiply | Subtract | Divide | Min | Max | AlphaAdd
deriving DecidableEq, Repr

/-- the `repr(u32)` discriminants of `BlendMode`. -/
def BlendMode.code : BlendMode → Nat
  | .Replace => 0
  | .Add => 1
  | .Multiply => 2
  | .Subtract => 3
  | .Divide => 4
  | .Min => 5
  | .Max => 6
  | .AlphaAdd => 7

/-- numeric literal shorthand. -/
def f0 : F := F.fin 0

def natToF (n : Nat) : F := F.fin n

/-- the all-zero `[[f32; 4]; 4]` slot block. -/
def zeroSlots : List (List F) := [[f0, f0, f0, f0], [f0, f0, f0, f0], [f0, f0, f0, f0], [f0, f0, f0, f0]]

/-- `DrawCommandGpu` (the `__padding` bytes, which are always zero and
    exist only for GPU alignment, are not modelled). -/
structure DrawCommandGpu where
  command : Nat
  stroke_width : F
  parameter : F
  smooth_function : Nat
  slots : List (List F)
  operation : Nat
  smooth_parameter : F
  lhs : Nat
deriving DecidableEq, Repr

/-- derived `Default` (all fields zero). -/
def DrawCommandGpu.default : DrawCommandGpu :=
  { command := 0, stroke_width := f0, parameter := f0, smooth_function := 0,
    slots := zeroSlots, operation := 0, smooth_parameter := f0, lhs := 0 }

/-- `FillMode` from `src/render/shape.rs`. -/
inductive FillMode where
  | Color : Color → FillMode
  | Texture : Nat → Vec2 → Vec2 → Vec2 → Vec2 → FillMode
  | LinearGradient : Color → Color → Vec2 → Vec2 → FillMode
  | RadialGradient : Color → Color → Vec2 → F → FillMode
deriving DecidableEq, Repr

/-- `FillMode::is_invisible`. -/
def FillMode.is_invisible : FillMode → Bool
  | .Color c => c.a.fle f0
  | .Texture _ _ _ _ _ => false
  | .LinearGradient cf ct _ _ => cf.a.fle f0 && ct.a.fle f0
  | .RadialGradient cf ct _ _ => cf.a.fle f0 && ct.a.fle f0

/-- `FillMode::compile` from `src/render/painter.rs`. -/
def FillMode.compile : FillMode → CommandGpu × List (List F)
  | .Color color =>
      let color := color.premultiply
      (.Fill, [[color.r, color.g, color.b, color.a],
               [f0, f0, f0, f0], [f0, f0, f0, f0], [f0, f0, f0, f0]])
  | .LinearGradient from_color to_color start stop =>
      let from_color := from_color.premultiply
      let to_color := to_color.premultiply
      (.FillLinearGradient,
       [[from_color.r, from_color.g, from_color.b, from_color.a],
        [to_color.r, to_color.g, to_color.b, to_color.a],
        [start.x, start.y, stop.x, stop.y], [f0, f0, f0, f0]])
  | .RadialGradient inner_color outer_color center radius =>
      let inner_color := inner_color.premultiply
      let outer_color := outer_color.premultiply
      (.FillRadialGradient,
       [[inner_color.r, inner_color.g, inner_color.b, inner_color.a],
        [outer_color.r, outer_color.g, outer_color.b, outer_color.a],
        [center.x, center.y, radius, f0], [f0, f0, f0, f0]])
  | .Texture texture_id ltc rbc tlt trb =>
      (.FillTexture,
       [[ltc.x, ltc.y, rbc.x, rbc.y],
        [tlt.x, tlt.y, trb.x, trb.y],
        [natToF texture_id, f0, f0, f0], [f0, f0, f0, f0]])

/-- `BasicShapeData::compile`. `charMap` abstracts the
    `font_render.char_texture_map` lookup of `(char, font_id)`. -/
def BasicShapeData.compile (charMap : Char → Nat → Option Nat) :
    BasicShapeData → Option (CommandGpu × List (List F))
  | .Circle center radius =>
      some (.DrawCircle, [[center.x, center.y, radius, f0],
        [f0, f0, f0, f0], [f0, f0, f0, f0], [f0, f0, f0, f0]])
  | .Triangle a b c =>
      some (.DrawTriangle, [[a.x, a.y, b.x, b.y],
        [c.x, c.y, f0, f0], [f0, f0, f0, f0], [f0, f0, f0, f0]])
  | .Rectangle a b rounding =>
      some (.DrawRectangle, [[a.x, a.y, b.x, b.y],
        [rounding.x, rounding.y, rounding.z, rounding.w],
        [f0, f0, f0, f0], [f0, f0, f0, f0]])
  | .HalfPlane a b =>
      some (.DrawHalfPlane, [[a.x, a.y, b.x, b.y],
        [f0, f0, f0, f0], [f0, f0, f0, f0], [f0, f0, f0, f0]])
  | .QuadBezierPlane a b c =>
      some (.DrawQuadPlane, [[a.x, a.y, b.x, b.y],
        [c.x, c.y, f0, f0], [f0, f0, f0, f0], [f0, f0, f0, f0]])
  | .SDFTexture a b texture_id =>
      some (.DrawSDFTexture, [[a.x, a.y, b.x, b.y],
        [natToF texture_id, f0, f0, f0], [f0, f0, f0, f0], [f0, f0, f0, f0]])
  | .Text pos font_id font_size chr =>
      match charMap chr font_id with
      | none => none
      | some char_id =>
          some (.DrawChar, [[pos.x, pos.y, font_size, natToF char_id],
            [f0, f0, f0, f0], [f0, f0, f0, f0], [f0, f0, f0, f0]])

/-! ## Shape compiler (`src/render/painter.rs`) -/

/-- `ShapeToDraw`: the unit the compiler consumes. -/
structure ShapeToDraw where
  shape : Shape
  fill_mode : FillMode
  blend_mode : BlendMode
  clip_rect : Rect
deriving Repr

/-- `ShapeToDraw::is_visible_in_rect`; `none` models a panic inside
    `Shape::bounded_rect` (ill-formed token stream). -/
def ShapeToDraw.is_visible_in_rect (texp : F → F) (s : ShapeToDraw) (rect : Rect) :
    Option Bool :=
  if s.shape.isEmpty then some false
  else if (s.clip_rect.intersection rect).is_empty then some false
  else if s.fill_mode.is_invisible then some false
  else
    match s.shape.bounded_rect texp with
    | none => none
    | some br => some (!(br.intersection rect).is_empty)

/-- the compiler's evaluation-stack entries. -/
inductive ShapeOrStack where
  | shape : BasicShape → ShapeOrStack
  | stack : Nat → ShapeOrStack

/-- `get_stack`: a zero-geometry `Load` command. -/
def get_stack (stack_index : Nat) (op : OperationGpu) (parameter : F) : DrawCommandGpu :=
  { command := CommandGpu.Load.code,
    slots := [[natToF stack_index, f0, f0, f0],
              [f0, f0, f0, f0], [f0, f0, f0, f0], [f0, f0, f0, f0]],
    stroke_width := F.fin (-1),
    operation := op.code,
    lhs := 0,
    parameter := parameter,
    smooth_function := 0,
    smooth_parameter := f0 }

/-- `get_transform`: a `SetMat3x3` command carrying the matrix entries in
    the source's `transform[i][j]` order. -/
def get_transform (t : Transform2D) : DrawCommandGpu :=
  { command := CommandGpu.SetMat3x3.code,
    slots := [[t.c00, t.c10, t.c20, t.c01],
              [t.c11, t.c21, t.c02, t.c12],
              [t.c22, f0, f0, f0], [f0, f0, f0, f0]],
    stroke_width := F.fin (-1),
    operation := OperationGpu.None.code,
    lhs := 0,
    parameter := f0,
    smooth_function := 0,
    smooth_parameter := f0 }

/-- the `(op, parameter)` table at the top of `hanle_binary_op`.
    `Operator::Not` is unreachable there (the caller filters it out first). -/
def binaryOpCode : Operator → Option (OperationGpu × F)
  | .And => some (.And, f0)
  | .Or => some (.Or, f0)
  | .Xor => some (.Xor, f0)
  | .Minus => some (.Sub, f0)
  | .Lerp t => some (.Lerp, t)
  | .SmoothStep t => some (.SmoothStep, t)
  | .Sigmoid t => some (.Sigmoid, t)
  | .Not => none

/-- `hanle_binary_op` (source spelling kept). The `&mut` parameters
    `current_transform` and `stack_index` are returned explicitly — note
    that the source's early-`?` exits keep the mutations made before the
    failing `compile`, so the updated values are returned even when the
    result is `none`. -/
def hanle_binary_op (op : Operator) (lhse rhse : ShapeOrStack)
    (current_transform : Transform2D) (charMap : Char → Nat → Option Nat)
    (stack_index : Nat) :
    Transform2D × Nat × Option (List DrawCommandGpu × ShapeOrStack) :=
  match binaryOpCode op with
  | none => (current_transform, stack_index, none)
  | some (gop, parameter) =>
    match lhse, rhse with
    | .shape sh, .shape sh2 =>
      let stack_index := stack_index + 1
      let (ct, out) :=
        if !(current_transform.beq sh.transform) then
          (sh.transform, [get_transform sh.transform])
        else (current_transform, [])
      match sh.data.compile charMap with
      | none => (ct, stack_index, none)
      | some (command, slots) =>
        let stroke_width := sh.stroke.getD (F.fin (-1))
        let cmd1 : DrawCommandGpu :=
          { command := command.code, stroke_width := stroke_width, slots := slots,
            operation := OperationGpu.Replace.code, lhs := stack_index,
            parameter := f0, smooth_function := 0, smooth_parameter := f0 }
        let (ct2, out2) :=
          if !(ct.beq sh2.transform) then
            (sh2.transform, [get_transform sh2.transform])
          else (ct, [])
        match sh2.data.compile charMap with
        | none => (ct2, stack_index, none)
        | some (command2, slots2) =>
          let stroke_width2 := sh2.stroke.getD (F.fin (-1))
          let cmd2 : DrawCommandGpu :=
            { command := command2.code, slots := slots2,
              stroke_width := stroke_width2, operation := gop.code,
              lhs := stack_index, parameter := parameter,
              smooth_function := 0, smooth_parameter := f0 }
          (ct2, stack_index,
           some (out ++ [cmd1] ++ out2 ++ [cmd2], .stack stack_index))
    | .stack index, .shape sh | .shape sh, .stack index =>
      match sh.data.compile charMap with
      | none => (current_transform, stack_index, none)
      | some (command, slots) =>
        let stroke_width := sh.stroke.getD (F.fin (-1))
        let cmdA : DrawCommandGpu :=
          { command := command.code, slots := slots,
            stroke_width := stroke_width, operation := OperationGpu.Replace.code,
            lhs := stack_index, parameter := f0,
            smooth_function := 0, smooth_parameter := f0 }
        let cmdB : DrawCommandGpu :=
          { command := CommandGpu.Load.code,
            slots := [[natToF stack_index, f0, f0, f0],
                      [f0, f0, f0, f0], [f0, f0, f0, f0], [f0, f0, f0, f0]],
            stroke_width := stroke_width, operation := gop.code,
            lhs := index, parameter := parameter,
            smooth_function := 0, smooth_parameter := f0 }
        (current_transform, stack_index, some ([cmdA, cmdB], .stack index))
    | .stack l_index, .stack r_index =>
      let stack_index := stack_index - 1
      (current_transform, stack_index,
       some ([{ get_stack r_index gop parameter with lhs := l_index }],
             .stack l_index))

/-- the mutable state of the `ShapeToDraw::parse` token loop. -/
structure ParseState where
  stack : List ShapeOrStack
  max_stack_size : Nat
  used_stack_amount : Nat
  out : List DrawCommandGpu
  current_transform : Transform2D

/-- the token loop of `ShapeToDraw::parse`; `none` models the
    `unwrap`/panic paths. -/
def parse_go (charMap : Char → Nat → Option Nat) :
    List ShapeOrOp → ParseState → Option ParseState
  | [], st => some st
  | tok :: rest, st =>
    match tok with
    | .shape sh =>
        parse_go charMap rest { st with stack := .shape sh :: st.stack }
    | .op o =>
      if o = .Not then
        match st.stack with
        | [] => none
        | lhse :: stack' =>
          match lhse with
          | .shape sh =>
            let used := st.used_stack_amount + 1
            let maxs := max st.max_stack_size used
            let (ct, out1) :=
              if !(st.current_transform.beq sh.transform) then
                (sh.transform, st.out ++ [get_transform sh.transform])
              else (st.current_transform, st.out)
            match sh.data.compile charMap with
            | none => none
            | some (command, slots) =>
              let cmd : DrawCommandGpu :=
                { command := command.code, slots := slots,
                  stroke_width := sh.stroke.getD (F.fin (-1)),
                  operation := OperationGpu.Neg.code, lhs := used,
                  parameter := f0, smooth_function := 0, smooth_parameter := f0 }
              parse_go charMap rest
                { stack := stack', max_stack_size := maxs,
                  used_stack_amount := used, out := out1 ++ [cmd],
                  current_transform := ct }
          | .stack stack_index =>
              parse_go charMap rest
                { st with stack := stack',
                          out := st.out ++ [get_stack stack_index .Neg f0] }
      else
        match st.stack with
        | rhse :: lhse :: stack' =>
          let (ct, used, res) :=
            hanle_binary_op o lhse rhse st.current_transform charMap
              st.used_stack_amount
          match res with
          | some (commands, elem) =>
              parse_go charMap rest
                { stack := elem :: stack',
                  max_stack_size := max st.max_stack_size used,
                  used_stack_amount := used, out := st.out ++ commands,
                  current_transform := ct }
          | none =>
              parse_go charMap rest
                { stack := stack', max_stack_size := st.max_stack_size,
                  used_stack_amount := used, out := st.out,
                  current_transform := ct }
        | _ => none

/-- the epilogue of `ShapeToDraw::parse`, shared by both final-stack cases:
    reset transform if needed, AND with the clip rect, OR into register 0,
    set the blend mode, emit the fill. -/
def parse_finish (s : ShapeToDraw) (ct : Transform2D) (out : List DrawCommandGpu)
    (max_stack_size : Nat) : List DrawCommandGpu × Nat :=
  let out :=
    if !(ct.beq Transform2D.IDENTITY) then out ++ [get_transform Transform2D.IDENTITY]
    else out
  let clipCmd : DrawCommandGpu :=
    { command := CommandGpu.DrawRectangle.code,
      slots := [[s.clip_rect.lt.x, s.clip_rect.lt.y, s.clip_rect.rb.x, s.clip_rect.rb.y],
                [f0, f0, f0, f0], [f0, f0, f0, f0], [f0, f0, f0, f0]],
      stroke_width := F.fin (-1), operation := OperationGpu.And.code,
      smooth_function := 0, smooth_parameter := f0, lhs := 1, parameter := f0 }
  let loadCmd : DrawCommandGpu :=
    { command := CommandGpu.Load.code,
      slots := [[F.fin 1, f0, f0, f0],
                [f0, f0, f0, f0], [f0, f0, f0, f0], [f0, f0, f0, f0]],
      stroke_width := F.fin (-1), operation := OperationGpu.Or.code,
      smooth_function := 0, smooth_parameter := f0, lhs := 0, parameter := f0 }
  let blendCmd : DrawCommandGpu :=
    { command := CommandGpu.SetBlendMode.code,
      slots := [[natToF s.blend_mode.code, f0, f0, f0],
                [f0, f0, f0, f0], [f0, f0, f0, f0], [f0, f0, f0, f0]],
      stroke_width := F.fin (-1), operation := OperationGpu.None.code,
      smooth_function := 0, smooth_parameter := f0, lhs := 0, parameter := f0 }
  let fillPair := s.fill_mode.compile
  let fillCmd : DrawCommandGpu :=
    { command := fillPair.1.code, slots := fillPair.2,
      stroke_width := F.fin (-1), operation := OperationGpu.None.code,
      smooth_function := 0, smooth_parameter := f0, lhs := 0, parameter := f0 }
  (out ++ [clipCmd, loadCmd, blendCmd, fillCmd], max_stack_size + 1)

/-- `ShapeToDraw::parse`: compile one shape's postfix program. `none`
    models the assert/unwrap panics; the source's early `return (vec!(), 0)`
    paths yield `some ([], 0)`. -/
def ShapeToDraw.parse (charMap : Char → Nat → Option Nat) (s : ShapeToDraw) :
    Option (List DrawCommandGpu × Nat) :=
  if s.fill_mode.is_invisible then some ([], 0)
  else
    match parse_go charMap s.shape
      { stack := [], max_stack_size := 0, used_stack_amount := 0,
        out := [], current_transform := Transform2D.IDENTITY } with
    | none => none
    | some st =>
      if st.stack.length ≠ 1 then none
      else
        match st.stack with
        | [] => none
        | top :: _ =>
          match top with
          | .shape sh =>
            let (ct, out1) :=
              if !(st.current_transform.beq sh.transform) then
                (sh.transform, st.out ++ [get_transform sh.transform])
              else (st.current_transform, st.out)
            match sh.data.compile charMap with
            | none => some ([], 0)
            | some (command, slots) =>
              let cmd : DrawCommandGpu :=
                { command := command.code, slots := slots,
                  stroke_width := sh.stroke.getD (F.fin (-1)),
                  operation := OperationGpu.Replace.code, lhs := 1,
                  parameter := f0, smooth_function := 0, smooth_parameter := f0 }
              some (parse_finish s ct (out1 ++ [cmd]) st.max_stack_size)
          | .stack stack_index =>
            if stack_index ≠ 1 then none
            else some (parse_finish s st.current_transform st.out st.max_stack_size)

/-- the visibility-filter + per-shape-compile stage of `Painter::parse`
    (the rayon `filter_map` + ordered `collect`); `none` models a panic in
    any shape's visibility check or compile. -/
def painter_collect (texp : F → F) (charMap : Char → Nat → Option Nat)
    (dirty_rect : Rect) : List ShapeToDraw → Option (List (List DrawCommandGpu × Nat))
  | [] => some []
  | s :: rest =>
    match s.is_visible_in_rect texp dirty_rect with
    | none => none
    | some vis =>
      match painter_collect texp charMap dirty_rect rest with
      | none => none
      | some tail =>
        if vis then
          match s.parse charMap with
          | none => none
          | some p => some (p :: tail)
        else some tail

/-- `Painter::parse`: reverse draw-call order, filter invisible shapes,
    compile each shape, join in that (stable) order and fold the
    register high-water mark. -/
def Painter.parse (texp : F → F) (charMap : Char → Nat → Option Nat)
    (shapes : List ShapeToDraw) (dirty_rect : Rect) :
    Option (List DrawCommandGpu × Nat) :=
  match painter_collect texp charMap dirty_rect shapes.reverse with
  | none => none
  | some out =>
    let expect_stack_size := out.foldl (fun acc p => max p.2 acc) 0
    some ((out.map Prod.fst).flatten, expect_stack_size)

/-! ## Association-list maps

`HashMap`/`IndexMap` state is modelled by association lists; all operations
are keyed lookups, so only lookup behaviour matters. -/

def lookupA {α : Type} (l : List (Nat × α)) (k : Nat) : Option α :=
  (l.find? (fun p => p.1 == k)).map Prod.snd

def containsA {α : Type} (l : List (Nat × α)) (k : Nat) : Bool :=
  (lookupA l k).isSome

/-- `HashMap::insert` (replaces an existing binding). -/
def insertA {α : Type} (l : List (Nat × α)) (k : Nat) (v : α) : List (Nat × α) :=
  if containsA l k then l.map (fun p => if p.1 == k then (p.1, v) else p)
  else l ++ [(k, v)]

/-- `HashMap::remove`. -/
def eraseA {α : Type} (l : List (Nat × α)) (k : Nat) : List (Nat × α) :=
  l.filter (fun p => p.1 != k)

/-- `get_mut`-style in-place update: a no-op when the key is absent. -/
def modifyA {α : Type} (l : List (Nat × α)) (k : Nat) (f : α → α) : List (Nat × α) :=
  l.map (fun p => if p.1 == k then (p.1, f p.2) else p)

/-- `map.entry(k).or_default()` followed by a mutation of the entry. -/
def entryModify (l : List (Nat × List Nat)) (k : Nat) (f : List Nat → List Nat) :
    List (Nat × List Nat) :=
  if containsA l k then modifyA l k f else l ++ [(k, f [])]

/-! ## Layout engine (`src/layout/mod.rs`) -/

/-- `ROOT_LAYOUT_ID`. -/
def ROOT_LAYOUT_ID : Nat := 0

/-- `LayoutElement`: a node record. `W` is the opaque boxed widget. -/
structure LayoutElement (W : Type) where
  id : Nat
  area_and_pos : Option (Rect × Vec2)
  widget : W
  redraw_request : Bool
deriving Repr

/-- `Layout`: widgets, adjacency, inverse adjacency, alias tables. -/
structure LayoutState (W : Type) where
  widgets : List (Nat × LayoutElement W)
  tree : List (Nat × List Nat)
  inverse_tree : List (Nat × Nat)
  next_id : Nat
  alias_map : List (String × Nat)
  inversed_alias_map : List (Nat × String)
  continous_widgets : List Nat
deriving Repr

/-- the widget trait callbacks the layout engine invokes, as oracles.
    `size` abstracts `Widget::size(id, painter, layout)`;
    `handle_child_layout` abstracts the widget's child-layout response
    (the source's `HashMap` return value, as an association list). -/
structure WidgetOps (W : Type) where
  continuous_event_handling : W → Bool
  size : Nat → W → Vec2
  handle_child_layout : W → List (Nat × Vec2) → Rect → Nat → List (Nat × Option Rect)

namespace LayoutState

variable {W : Type}

/-- `Layout::new`. -/
def new : LayoutState W :=
  { widgets := [], tree := [], inverse_tree := [], next_id := 1,
    alias_map := [], inversed_alias_map := [], continous_widgets := [] }

def set_redraw (st : LayoutState W) (id : Nat) (b : Bool) : LayoutState W :=
  { st with widgets := modifyA st.widgets id (fun e => { e with redraw_request := b }) }

def set_area (st : LayoutState W) (id : Nat) (a : Option (Rect × Vec2)) :
    LayoutState W :=
  { st with widgets := modifyA st.widgets id (fun e => { e with area_and_pos := a }) }

/-- `Layout::insert_root_widget`. -/
def insert_root_widget (st : LayoutState W) (widget : W) : LayoutState W × Bool :=
  match lookupA st.widgets ROOT_LAYOUT_ID with
  | some _ =>
      let widgets' := modifyA st.widgets ROOT_LAYOUT_ID
        (fun root => { root with widget := widget, redraw_request := true })
      ({ st with widgets := widgets' }, true)
  | none =>
      let rootElem : LayoutElement W :=
        { id := ROOT_LAYOUT_ID, area_and_pos := some (Rect.WINDOW, Vec2.ZERO),
          widget := widget, redraw_request := true }
      let widgets' := insertA st.widgets ROOT_LAYOUT_ID rootElem
      let tree' := insertA st.tree ROOT_LAYOUT_ID []
      let inv' := insertA st.inverse_tree ROOT_LAYOUT_ID ROOT_LAYOUT_ID
      ({ st with widgets := widgets', tree := tree', inverse_tree := inv' }, false)

/-- `Layout::add_widget`. -/
def add_widget (ops : WidgetOps W) (st : LayoutState W) (parent_id : Nat)
    (widget : W) : LayoutState W × Option Nat :=
  if containsA st.widgets parent_id then
    let id := st.next_id
    let st :=
      if ops.continuous_event_handling widget then
        { st with continous_widgets := st.continous_widgets ++ [id] }
      else st
    let st := { st with next_id := st.next_id + 1 }
    let newElem : LayoutElement W :=
      { id := id, area_and_pos := none, widget := widget, redraw_request := true }
    let st := { st with widgets := insertA st.widgets id newElem }
    let st := st.set_redraw parent_id true
    let tree' := entryModify st.tree parent_id (fun l => l ++ [id])
    let inv' := insertA st.inverse_tree id parent_id
    let st := { st with tree := tree', inverse_tree := inv' }
    (st, some id)
  else (st, none)

end LayoutState

mutual

/-- `Layout::remove_widget` (fuelled; the source recursion terminates
    because the maps describe a finite tree). -/
def remove_widget {W : Type} (fuel : Nat) (st : LayoutState W) (id : Nat) :
    LayoutState W × List W :=
  match fuel with
  | 0 => (st, [])
  | fuel + 1 =>
    match lookupA st.widgets id with
    | none => (st, [])
    | some element =>
      let st := { st with widgets := eraseA st.widgets id }
      let (st, out) :=
        match lookupA st.tree id with
        | none => (st, [])
        | some children =>
          let st := { st with tree := eraseA st.tree id }
          remove_children_loop fuel st children
      let st :=
        match lookupA st.inverse_tree id with
        | none => st
        | some parent_id =>
          let st := { st with inverse_tree := eraseA st.inverse_tree id }
          let tree' := entryModify st.tree parent_id
            (List.filter (fun x => x != id))
          let st := { st with tree := tree' }
          st.set_redraw parent_id true
      (st, out ++ [element.widget])

def remove_children_loop {W : Type} (fuel : Nat) (st : LayoutState W) :
    List Nat → LayoutState W × List W
  | [] => (st, [])
  | c :: cs =>
    let p1 := remove_widget fuel st c
    let p2 := remove_children_loop fuel p1.1 cs
    (p2.1, p1.2 ++ p2.2)

end

/-- `Layout::remove_widget_children`. -/
def remove_widget_children {W : Type} (fuel : Nat) (st : LayoutState W) (id : Nat) :
    LayoutState W × List W :=
  match lookupA st.tree id with
  | none => (st, [])
  | some children =>
    let st := { st with tree := eraseA st.tree id }
    remove_children_loop fuel st children

/-- the worklist loop of `Layout::sperate_dirty_widgets` (source spelling
    kept). The source uses a `Vec` as a LIFO stack; the worklist is
    modelled with head-push/head-pop, which only permutes the visit order
    and not the final (idempotent) markings. -/
def sperate_loop {W : Type} (fuel : Nat) (st : LayoutState W)
    (dirty_widgets : List Nat) (traversed : List Nat) : LayoutState W :=
  match fuel with
  | 0 => st
  | fuel + 1 =>
    match dirty_widgets with
    | [] => st
    | id :: rest =>
      if traversed.contains id then sperate_loop fuel st rest traversed
      else
        let traversed := id :: traversed
        let pushed := (lookupA st.tree id).getD []
        let st := st.set_redraw id true
        sperate_loop fuel st (pushed ++ rest) traversed

/-- `Layout::sperate_dirty_widgets`: seed with every dirty node, walk the
    children map marking every visited node dirty. -/
def sperate_dirty_widgets {W : Type} (fuel : Nat) (st : LayoutState W) :
    LayoutState W :=
  let dirty_widgets := st.widgets.filterMap
    (fun p => if p.2.redraw_request then some p.2.id else none)
  sperate_loop fuel st dirty_widgets []

/-- `IndexSet::insert` (append if absent, keeping insertion order). -/
def insertAbsent (l : List Nat) (x : Nat) : List Nat :=
  if l.contains x then l else l ++ [x]

/-- the trailing `while let Some(id) = children_set.pop()` sweep of
    `Layout::reanrrage_widgets`: hide every unresolved child and its whole
    subtree. (`IndexSet::pop` takes the last element; the pop order only
    permutes idempotent `area := none` writes, so head-pop is used.) -/
def sweep_hidden {W : Type} (fuel : Nat) (st : LayoutState W)
    (children_set : List Nat) : LayoutState W :=
  match fuel with
  | 0 => st
  | fuel + 1 =>
    match children_set with
    | [] => st
    | id :: rest =>
      let st := st.set_area id none
      let pushed := (lookupA st.tree id).getD []
      sweep_hidden fuel st (pushed.foldl insertAbsent rest)

mutual

/-- `Layout::reanrrage_widgets` (source spelling kept): query child sizes,
    ask the parent to place its children, clip each placed child against
    the (possibly self-overridden) parent window, recurse, and hide the
    unresolved rest. The painter threading (`set_relative_to`) only feeds
    the widget callbacks and is absorbed into the `size` oracle. -/
def reanrrage_widgets {W : Type} (ops : WidgetOps W) (fuel : Nat)
    (st : LayoutState W) (parent_window : Rect) (parent_pos : Vec2)
    (layout_id : Nat) (widget_to_remove : List Nat) :
    LayoutState W × List Nat :=
  match fuel with
  | 0 => (st, widget_to_remove)
  | fuel + 1 =>
    match lookupA st.tree layout_id with
    | none => (st, widget_to_remove)
    | some children =>
      let children_set := children.foldl insertAbsent []
      let children_size_map := children.filterMap
        (fun cid => (lookupA st.widgets cid).map
          (fun c => (cid, ops.size cid c.widget)))
      match lookupA st.widgets layout_id with
      | none => (st, widget_to_remove)
      | some parent =>
        match parent.area_and_pos with
        | none => (st, widget_to_remove)
        | some (rect, _) =>
          let resp := ops.handle_child_layout parent.widget children_size_map
            rect layout_id
          let selfEntry := lookupA resp layout_id
          let resp := resp.filter (fun p => p.1 != layout_id)
          let parent_window :=
            match selfEntry with
            | some (some r) => r.move_by parent_pos
            | _ => parent_window
          let res := reanrrage_children ops fuel st parent_window parent_pos
            widget_to_remove children_set resp
          let st := sweep_hidden fuel res.1 res.2.2
          (st, res.2.1)
termination_by (fuel, 0, 0)

def reanrrage_children {W : Type} (ops : WidgetOps W) (fuel : Nat)
    (st : LayoutState W) (parent_window : Rect) (parent_pos : Vec2)
    (widget_to_remove : List Nat) (children_set : List Nat) :
    List (Nat × Option Rect) → LayoutState W × List Nat × List Nat
  | [] => (st, widget_to_remove, children_set)
  | (child_id, entry) :: rest =>
    match entry with
    | some child_window =>
      if containsA st.widgets child_id then
        let child_pos := parent_pos.add child_window.lt
        let child_window := (child_window.move_by parent_pos).intersection
          parent_window
        let st := st.set_area child_id (some (child_window, child_pos))
        let res := reanrrage_widgets ops fuel st child_window child_pos child_id
          widget_to_remove
        let children_set := children_set.filter (fun x => x ≠ child_id)
        reanrrage_children ops fuel res.1 parent_window parent_pos res.2
          children_set rest
      else
        reanrrage_children ops fuel st parent_window parent_pos widget_to_remove
          children_set rest
    | none =>
      reanrrage_children ops fuel st parent_window parent_pos
        (widget_to_remove ++ [child_id]) children_set rest
termination_by entries => (fuel, 1, entries.length)

end

/-- the queue loop of `Layout::handle_paint`. Besides the final layout and
    the accumulated refresh area it returns the list of node ids whose
    `draw` callback ran (the painter side effects themselves are outside
    this model). -/
def handle_paint_loop {W : Type} (fuel : Nat) (st : LayoutState W)
    (child_ids : List Nat) (refresh_area : Option Rect) (drawn : List Nat) :
    LayoutState W × Option Rect × List Nat :=
  match fuel with
  | 0 => (st, refresh_area, drawn)
  | fuel + 1 =>
    match child_ids with
    | [] => (st, refresh_area, drawn)
    | id :: rest =>
      match lookupA st.widgets id with
      | some element =>
        match element.area_and_pos with
        | some (area, _) =>
          let refresh_area :=
            if element.redraw_request then
              match refresh_area with
              | some refresh => some (refresh.union area)
              | none => some area
            else refresh_area
          if area.is_empty then
            handle_paint_loop fuel st rest refresh_area drawn
          else
            let drawn := drawn ++ [id]
            let st := st.set_redraw id false
            handle_paint_loop fuel st (rest ++ (lookupA st.tree id).getD [])
              refresh_area drawn
        | none =>
          let st := st.set_redraw id false
          handle_paint_loop fuel st (rest ++ (lookupA st.tree id).getD [])
            refresh_area drawn
      | none =>
        handle_paint_loop fuel st (rest ++ (lookupA st.tree id).getD [])
          refresh_area drawn

/-- `Layout::handle_paint`. -/
def handle_paint {W : Type} (fuel : Nat) (st : LayoutState W) :
    LayoutState W × Option Rect × List Nat :=
  handle_paint_loop fuel st [ROOT_LAYOUT_ID] none []

/-- `Layout::handle_draw`: propagate dirt, re-arrange from the window
    rect, delete the widgets flagged for removal, then paint. -/
def handle_draw {W : Type} (ops : WidgetOps W) (fuel : Nat) (st : LayoutState W)
    (window_size : Vec2) : LayoutState W × Option Rect × List Nat :=
  let st := sperate_dirty_widgets fuel st
  let res := reanrrage_widgets ops fuel st (Rect.from_size window_size) Vec2.ZERO
    ROOT_LAYOUT_ID []
  let st := res.2.foldl (fun s id => (remove_widget fuel s id).1) res.1
  handle_paint fuel st

/-- `Layout::any_widget_dirty`. -/
def any_widget_dirty {W : Type} (st : LayoutState W) : Bool :=
  st.widgets.any (fun p => p.2.redraw_request)

/-- `Layout::make_all_dirty`. -/
def make_all_dirty {W : Type} (st : LayoutState W) : LayoutState W :=
  let widgets' := st.widgets.map (fun p => (p.1, { p.2 with redraw_request := true }))
  { st with widgets := widgets' }

/-- the refresh-area decision in `WindowManager::draw`
    (`src/window/manager.rs`): under `force_redraw_per_frame` the whole
    window is redrawn; otherwise a `None` paint result makes the function
    return before any GPU command is produced or submitted. -/
def manager_refresh_area (force_redraw_per_frame : Bool)
    (refresh_area : Option Rect) : Option Rect :=
  if force_redraw_per_frame then some Rect.WINDOW
  else
    match refresh_area with
    | some area => some area
    | none => none

/-- a solid axis-aligned square, used as a concrete basic shape. -/
def solidRect (p q : ℚ) : BasicShape :=
  { data := .Rectangle (Vec2.mk' p p) (Vec2.mk' q q) ⟨f0, f0, f0, f0⟩,
    transform := Transform2D.IDENTITY, stroke := none }

/-- an opaque black solid fill. -/
def solidFill : FillMode := .Color ⟨F.fin 0, F.fin 0, F.fin 0, F.fin 1⟩

/-- the strictly left-folded chain of five `And` operators over six basic
    shapes, in postfix form. -/
def andChainShape : Shape :=
  [.shape (solidRect 0 1), .shape (solidRect 2 3), .op .And,
   .shape (solidRect 4 5), .op .And, .shape (solidRect 6 7), .op .And,
   .shape (solidRect 8 9), .op .And, .shape (solidRect 10 11), .op .And]

def andChainSd : ShapeToDraw :=
  { shape := andChainShape, fill_mode := solidFill, blend_mode := .AlphaAdd,
    clip_rect := Rect.mk' 0 0 100 100 }

/-- expression trees over basic shapes, used to state what the postfix
    `bounded_rect` evaluator computes. -/
inductive SExpr where
  | leaf : BasicShape → SExpr
  | binop : Operator → SExpr → SExpr → SExpr
  | negE : SExpr → SExpr
deriving Repr

/-- flatten an expression tree into the postfix token stream that
    `Shape` stores. -/
def flattenE : SExpr → Shape
  | .leaf b => [.shape b]
  | .binop o l r => flattenE l ++ flattenE r ++ [.op o]
  | .negE e => flattenE e ++ [.op .Not]

/-- no `Not` is used as a binary operator (the caller contract). -/
def noNotBinop : SExpr → Bool
  | .leaf _ => true
  | .binop o l r => o ≠ Operator.Not && noNotBinop l && noNotBinop r
  | .negE e => noNotBinop e

/-- the bottom-up bound evaluation as C7 describes it, amended: `Or` and
    `Xor` take the union of the operand bounds, `And` their intersection,
    `Minus` the right operand's bound, `Not` the full window, and the blend
    operators interpolate the operand bounds. -/
def boundSpec (texp : F → F) : SExpr → Rect
  | .leaf b => b.bounded_rect
  | .negE _ => Rect.WINDOW
  | .binop .Or l r => (boundSpec texp l).union (boundSpec texp r)
  | .binop .Xor l r => (boundSpec texp l).union (boundSpec texp r)
  | .binop .And l r => (boundSpec texp l).intersection (boundSpec texp r)
  | .binop .Minus _ r => boundSpec texp r
  | .binop (.Lerp t) l r => (boundSpec texp l).lerp (boundSpec texp r) t
  | .binop (.SmoothStep t) l r => (boundSpec texp l).lerp (boundSpec texp r) t
  | .binop (.Sigmoid t) l r =>
      (boundSpec texp l).lerp (boundSpec texp r)
        ((F.fin 1).fdiv ((F.fin 1).add (texp t)))
  | .binop .Not _ _ => Rect.ZERO

/-- two opaque solid rectangles used as painter draw calls. -/
def sdA6 : ShapeToDraw :=
  { shape := [.shape (solidRect 0 10)], fill_mode := solidFill,
    blend_mode := .AlphaAdd, clip_rect := Rect.mk' 0 0 50 50 }

def sdB6 : ShapeToDraw :=
  { shape := [.shape (solidRect 5 15)], fill_mode := solidFill,
    blend_mode := .AlphaAdd, clip_rect := Rect.mk' 0 0 50 50 }

/-- the children list of a node as the dirty-propagation loop reads it. -/
def childrenOf {W : Type} (st : LayoutState W) (v : Nat) : List Nat :=
  (lookupA st.tree v).getD []

/-- one parent-to-child step through the children map. -/
def childStep {W : Type} (st : LayoutState W) (a b : Nat) : Prop :=
  b ∈ childrenOf st a

/-- a node whose `redraw_request` flag is set (a propagation seed). -/
def Seed {W : Type} (st : LayoutState W) (d : Nat) : Prop :=
  ∃ e, lookupA st.widgets d = some e ∧ e.redraw_request = true

/-- a node reachable from some dirty node through the children map. -/
def DirtyReach {W : Type} (st : LayoutState W) (n : Nat) : Prop :=
  ∃ d, Seed st d ∧ Relation.ReflTransGen (childStep st) d n

/-- potential of one worklist entry: popping an unvisited node costs its
    own visit plus pushing all its children. -/
def stepWeight {W : Type} (st : LayoutState W) (n : Nat) : Nat :=
  1 + ((lookupA st.tree n).getD []).length

/-- every id the dirty-propagation worklist can ever contain. -/
def sperateUniverse {W : Type} (st : LayoutState W) : Finset Nat :=
  (st.widgets.map Prod.fst).toFinset ∪ ((st.tree.map Prod.snd).flatten).toFinset

/-- the decreasing potential of the dirty-propagation loop. -/
def speratePhi {W : Type} (st : LayoutState W)
    (worklist traversed : List Nat) : Nat :=
  (∑ x ∈ (sperateUniverse st) \ traversed.toFinset, stepWeight st x) +
    worklist.length

/-- fuel sufficient for `sperate_dirty_widgets` to run to completion. -/
def sperateFuelBound {W : Type} (st : LayoutState W) : Nat :=
  (∑ x ∈ sperateUniverse st, stepWeight st x) + st.widgets.length

/-- a tiny two-node layout with a dirty root, used as a concrete witness. -/
def stC5 : LayoutState Unit :=
  { widgets := [(0, { id := 0, area_and_pos := none, widget := (),
                      redraw_request := true }),
                (1, { id := 1, area_and_pos := none, widget := (),
                      redraw_request := false })],
    tree := [(0, [1])], inverse_tree := [(1, 0)], next_id := 2,
    alias_map := [], inversed_alias_map := [], continous_widgets := [] }

/-- rose trees of node ids, used to state that the association-list maps
    describe a finite widget tree. -/
inductive NTree where
  | node : Nat → List NTree → NTree
deriving Repr

def NTree.rootId : NTree → Nat
  | .node i _ => i

mutual

def NTree.sizeT : NTree → Nat
  | .node _ cs => 1 + NTree.sizeF cs

def NTree.sizeF : List NTree → Nat
  | [] => 0
  | t :: ts => NTree.sizeT t + NTree.sizeF ts

end

mutual

def NTree.nodesT : NTree → List Nat
  | .node i cs => i :: NTree.nodesF cs

def NTree.nodesF : List NTree → List Nat
  | [] => []
  | t :: ts => NTree.nodesT t ++ NTree.nodesF ts

end

mutual

/-- the maps of `st` describe the tree `t`: every node's widget record is
    present, its children list is exactly its children's root ids (or the
    node has no children-list entry and no children), and each child's
    parent-map entry points back at it. -/
def RepTree {W : Type} (st : LayoutState W) : NTree → Prop
  | .node i cs =>
    containsA st.widgets i = true ∧
    (lookupA st.tree i = some (cs.map NTree.rootId) ∨
      (cs = [] ∧ lookupA st.tree i = none)) ∧
    (∀ c ∈ cs, lookupA st.inverse_tree c.rootId = some i) ∧
    RepForest st cs

def RepForest {W : Type} (st : LayoutState W) : List NTree → Prop
  | [] => True
  | t :: ts => RepTree st t ∧ RepForest st ts

end

mutual

/-- the node ids whose dirty flag `handle_paint` clears: a node with an
    absent placement or a non-empty placement rect is cleared and its
    children are walked; a node with an empty placement rect is skipped
    together with its whole subtree. -/
def clearedT {W : Type} (st : LayoutState W) : NTree → List Nat
  | .node i cs =>
    match lookupA st.widgets i with
    | some e =>
      match e.area_and_pos with
      | some (area, _) =>
          if area.is_empty then [] else i :: clearedF st cs
      | none => i :: clearedF st cs
    | none => clearedF st cs

def clearedF {W : Type} (st : LayoutState W) : List NTree → List Nat
  | [] => []
  | t :: ts => clearedT st t ++ clearedF st ts

end

/-- a node eligible for the widget `draw` callback: present, placed, and
    with a non-empty placement rect. -/
def GoodDrawn {W : Type} (st : LayoutState W) (m : Nat) : Prop :=
  ∃ e a p, lookupA st.widgets m = some e ∧ e.area_and_pos = some (a, p) ∧
    a.is_empty = false

/-- a layout whose root holds an empty (negative-size) placement rect and
    a dirty child, used to refute C3 as stated. -/
def stC3 : LayoutState Unit :=
  { widgets := [(0, { id := 0,
                      area_and_pos := some (Rect.mk' 0 0 (-1) (-1), Vec2.ZERO),
                      widget := (), redraw_request := true }),
                (1, { id := 1, area_and_pos := none, widget := (),
                      redraw_request := true })],
    tree := [(0, [1])], inverse_tree := [(1, 0)], next_id := 2,
    alias_map := [], inversed_alias_map := [], continous_widgets := [] }

mutual

/-- post-order listing of a tree's node ids (children before their parent),
    the order in which `remove_widget` collects removed widgets. -/
def NTree.postT : NTree → List Nat
  | .node i cs => NTree.postF cs ++ [i]

def NTree.postF : List NTree → List Nat
  | [] => []
  | t :: ts => NTree.postT t ++ NTree.postF ts

end

mutual

/-- the ids of the nodes that have at least one child. -/
def NTree.innerT : NTree → List Nat
  | .node i cs => (if cs.isEmpty then [] else [i]) ++ NTree.innerF cs

def NTree.innerF : List NTree → List Nat
  | [] => []
  | t :: ts => NTree.innerT t ++ NTree.innerF ts

end

/-- a three-node chain 0 → 1 → 2 used for C4: removing the middle node 1
    leaves a recreated, empty children-list entry for 1 behind. -/
def stC4 : LayoutState Unit :=
  { widgets := [(0, { id := 0, area_and_pos := none, widget := (),
                      redraw_request := false }),
                (1, { id := 1, area_and_pos := none, widget := (),
                      redraw_request := false }),
                (2, { id := 2, area_and_pos := none, widget := (),
                      redraw_request := false })],
    tree := [(0, [1]), (1, [2])], inverse_tree := [(1, 0), (2, 1)],
    next_id := 3, alias_map := [], inversed_alias_map := [],
    continous_widgets := [] }

/-- the full effect of `remove_widget` on a represented subtree `t`:
    the returned widgets, and the final widgets / parent-map /
    children-list maps at every key. -/
def RemovedTreeSpec {W : Type} (fuel : Nat) (st : LayoutState W)
    (t : NTree) : Prop :=
  ((remove_widget fuel st t.rootId).2 =
    (NTree.postT t).filterMap
      (fun j => (lookupA st.widgets j).map (fun e => e.widget))) ∧
  (∀ n, lookupA (remove_widget fuel st t.rootId).1.widgets n =
    if n ∈ NTree.nodesT t then none
    else if lookupA st.inverse_tree t.rootId = some n then
      (lookupA st.widgets n).map (fun e => { e with redraw_request := true })
    else lookupA st.widgets n) ∧
  (∀ n, lookupA (remove_widget fuel st t.rootId).1.inverse_tree n =
    if n ∈ NTree.nodesT t then none else lookupA st.inverse_tree n) ∧
  (∀ n, lookupA (remove_widget fuel st t.rootId).1.tree n =
    if n ∈ NTree.innerT t then some []
    else if n ∈ NTree.nodesT t then none
    else if lookupA st.inverse_tree t.rootId = some n then
      some (((lookupA st.tree n).getD []).filter (fun y => y != t.rootId))
    else lookupA st.tree n)

/-- the effect of `remove_children_loop` on a represented sibling forest
    whose members all have the (already removed) parent `q`. -/
def RemovedForestSpec {W : Type} (fuel : Nat) (st : LayoutState W)
    (ts : List NTree) (q : Nat) : Prop :=
  ((remove_children_loop fuel st (ts.map NTree.rootId)).2 =
    (NTree.postF ts).filterMap
      (fun j => (lookupA st.widgets j).map (fun e => e.widget))) ∧
  (∀ n, lookupA (remove_children_loop fuel st (ts.map NTree.rootId)).1.widgets n =
    if n ∈ NTree.nodesF ts then none else lookupA st.widgets n) ∧
  (∀ n, lookupA
      (remove_children_loop fuel st (ts.map NTree.rootId)).1.inverse_tree n =
    if n ∈ NTree.nodesF ts then none else lookupA st.inverse_tree n) ∧
  (∀ n, lookupA (remove_children_loop fuel st (ts.map NTree.rootId)).1.tree n =
    if n ∈ NTree.innerF ts then some []
    else if n ∈ NTree.nodesF ts then none
    else if n = q ∧ ts.isEmpty = false then some []
    else lookupA st.tree n)

/-- every widget's dirty flag is clear. -/
def AllClean {W : Type} (st : LayoutState W) : Prop :=
  ∀ p ∈ st.widgets, p.2.redraw_request = false

/-- an all-clean two-node layout whose parent drops its child during
    layout, used to refute C8 as stated. -/
def stC8 : LayoutState Unit :=
  { widgets := [(0, { id := 0,
                      area_and_pos := some (Rect.WINDOW, Vec2.ZERO),
                      widget := (), redraw_request := false }),
                (1, { id := 1, area_and_pos := none, widget := (),
                      redraw_request := false })],
    tree := [(0, [1])], inverse_tree := [(1, 0)], next_id := 2,
    alias_map := [], inversed_alias_map := [], continous_widgets := [] }

/-- widget callbacks whose child-layout response drops child 1 (a `None`
    placement entry), triggering a mid-frame removal. -/
def opsC8 : WidgetOps Unit :=
  { continuous_event_handling := fun _ => false,
    size := fun _ _ => Vec2.ZERO,
    handle_child_layout := fun _ _ _ _ => [(1, none)] }

/-- an all-clean single-node layout. -/
def stC8b : LayoutState Unit :=
  { widgets := [(0, { id := 0,
                      area_and_pos := some (Rect.WINDOW, Vec2.ZERO),
                      widget := (), redraw_request := false })],
    tree := [(0, [])], inverse_tree := [(0, 0)], next_id := 1,
    alias_map := [], inversed_alias_map := [], continous_widgets := [] }

/-- widget callbacks whose child-layout response is always empty. -/
def opsC8b : WidgetOps Unit :=
  { continuous_event_handling := fun _ => false,
    size := fun _ _ => Vec2.ZERO,
    handle_child_layout := fun _ _ _ _ => [] }

/-- the stored placement of node `n` (rect and position), if any. -/
def areaOf {W : Type} (st : LayoutState W) (n : Nat) : Option (Rect × Vec2) :=
  match lookupA st.widgets n with
  | some e => e.area_and_pos
  | none => none

/-- both components finite. -/
def Vec2.isFiniteV (v : Vec2) : Bool := v.x.isFinite && v.y.isFinite

mutual

/-- the clip-cascade property on a subtree: for every tree edge, if both
    ends hold placement rects then the child's rect is contained in the
    parent's (its intersection with the parent's rect is itself). -/
def ClipT {W : Type} (st : LayoutState W) : NTree → Prop
  | .node i cs =>
    (∀ c ∈ cs, ∀ Rc pc Ri pi,
      areaOf st c.rootId = some (Rc, pc) →
      areaOf st i = some (Ri, pi) →
      (Rc.intersection Ri).beq Rc = true) ∧
    ClipF st cs

def ClipF {W : Type} (st : LayoutState W) : List NTree → Prop
  | [] => True
  | t :: ts => ClipT st t ∧ ClipF st ts

end

/-- a three-node chain 0 → 1 → 2 whose middle widget resizes itself via a
    self-entry in its child-layout response, used to refute C2 as stated. -/
def stC2 : LayoutState Unit :=
  { widgets := [(0, { id := 0,
                      area_and_pos := some (Rect.WINDOW, Vec2.ZERO),
                      widget := (), redraw_request := false }),
                (1, { id := 1, area_and_pos := none, widget := (),
                      redraw_request := false }),
                (2, { id := 2, area_and_pos := none, widget := (),
                      redraw_request := false })],
    tree := [(0, [1]), (1, [2])], inverse_tree := [(1, 0), (2, 1)],
    next_id := 3, alias_map := [], inversed_alias_map := [],
    continous_widgets := [] }

/-- widget callbacks for the C2 counterexample: the root places child 1 in
    a 10×10 box; widget 1 then claims a 50×50 box for itself via a
    self-entry and places child 2 in a 40×40 box. -/
def opsC2 : WidgetOps Unit :=
  { continuous_event_handling := fun _ => false,
    size := fun _ _ => Vec2.ZERO,
    handle_child_layout := fun _ _ _ lid =>
      if lid = 0 then [(1, some (Rect.mk' 0 0 10 10))]
      else if lid = 1 then
        [(1, some (Rect.mk' 0 0 50 50)), (2, some (Rect.mk' 0 0 40 40))]
      else [] }

/-- a subtree fully processed by the layout pass: internally
    clip-consistent, and its root's rect (if any) is some finite rect
    clipped against the parent window `pw`. -/
def TreeDone {W : Type} (st : LayoutState W) (c : NTree) (pw : Rect) : Prop :=
  ClipT st c ∧ ∀ Rc pc, areaOf st c.rootId = some (Rc, pc) →
    ∃ X : Rect, X.isFiniteRect = true ∧ Rc = X.intersection pw

/-- the effect of one `reanrrage_widgets` call on the subtree below the
    processed node: adjacency maps and widget presence untouched, widgets
    outside the strict subtree untouched, and each child subtree done. -/
def ReanrrageOut {W : Type} (st res : LayoutState W) (cs : List NTree)
    (pw : Rect) : Prop :=
  res.tree = st.tree ∧
  res.inverse_tree = st.inverse_tree ∧
  (∀ n, containsA res.widgets n = containsA st.widgets n) ∧
  (∀ n, n ∉ NTree.nodesF cs → lookupA res.widgets n = lookupA st.widgets n) ∧
  (∀ c ∈ cs, TreeDone res c pw)

/-- a clean two-node layout for the C2 witness. -/
def stC2b : LayoutState Unit :=
  { widgets := [(0, { id := 0,
                      area_and_pos := some (Rect.WINDOW, Vec2.ZERO),
                      widget := (), redraw_request := false }),
                (1, { id := 1, area_and_pos := none, widget := (),
                      redraw_request := false })],
    tree := [(0, [1])], inverse_tree := [(1, 0)], next_id := 2,
    alias_map := [], inversed_alias_map := [], continous_widgets := [] }

/-- well-behaved widget callbacks for the C2 witness: place the first
    non-self child reported in the size map in a fixed 5×5 box. -/
def opsC2b : WidgetOps Unit :=
  { continuous_event_handling := fun _ => false,
    size := fun _ _ => Vec2.ZERO,
    handle_child_layout := fun _ sizes _ lid =>
      match sizes.find? (fun p => p.1 != lid) with
      | some p => [(p.1, some (Rect.mk' 0 0 5 5))]
      | none => [] }

/-! ## Lookup lemmas for the association-list maps -/

theorem lookupA_nil {α : Type} (k : Nat) : lookupA ([] : List (Nat × α)) k = none := rfl

theorem lookupA_cons {α : Type} (p : Nat × α) (l : List (Nat × α)) (k : Nat) :
    lookupA (p :: l) k = if p.1 = k then some p.2 else lookupA l k := by
  cases h : (p.1 == k) <;>
    simp [lookupA, List.find?_cons, h] <;>
    simp [Nat.beq_eq] at h <;> simp [h]

theorem modifyA_nil {α : Type} (k : Nat) (f : α → α) :
    modifyA ([] : List (Nat × α)) k f = [] := rfl

theorem modifyA_cons {α : Type} (p : Nat × α) (l : List (Nat × α)) (k : Nat)
    (f : α → α) :
    modifyA (p :: l) k f =
      (if p.1 = k then (p.1, f p.2) else p) :: modifyA l k f := by
  by_cases hp : p.1 = k <;> simp [modifyA, hp]

theorem eraseA_nil {α : Type} (k : Nat) : eraseA ([] : List (Nat × α)) k = [] := rfl

theorem eraseA_cons {α : Type} (p : Nat × α) (l : List (Nat × α)) (k : Nat) :
    eraseA (p :: l) k = if p.1 = k then eraseA l k else p :: eraseA l k := by
  by_cases hp : p.1 = k <;> simp [eraseA, List.filter_cons, hp]

theorem lookupA_modifyA {α : Type} (l : List (Nat × α)) (k : Nat) (f : α → α)
    (k' : Nat) :
    lookupA (modifyA l k f) k' =
      if k' = k then (lookupA l k).map f else lookupA l k' := by
  induction l with
  | nil => simp [modifyA_nil, lookupA_nil]
  | cons p l ih =>
    by_cases hk : k' = k
    · subst hk
      by_cases hp : p.1 = k' <;>
        simp [modifyA_cons, lookupA_cons, hp, ih]
    · have hkk : ¬k = k' := fun h => hk h.symm
      by_cases hp : p.1 = k
      · have hp' : ¬p.1 = k' := hp ▸ hkk
        simp [modifyA_cons, lookupA_cons, hp, hp', hk, hkk, ih]
      · by_cases hp' : p.1 = k' <;>
          simp [modifyA_cons, lookupA_cons, hp, hp', hk, hkk, ih]

theorem lookupA_eraseA {α : Type} (l : List (Nat × α)) (k k' : Nat) :
    lookupA (eraseA l k) k' = if k' = k then none else lookupA l k' := by
  induction l with
  | nil => simp [eraseA_nil, lookupA_nil]
  | cons p l ih =>
    by_cases hk : k' = k
    · subst hk
      by_cases hp : p.1 = k' <;> simp [eraseA_cons, lookupA_cons, hp, ih]
    · have hkk : ¬k = k' := fun h => hk h.symm
      by_cases hp : p.1 = k
      · have hp' : ¬p.1 = k' := hp ▸ hkk
        simp [eraseA_cons, lookupA_cons, hp, hp', hk, hkk, ih]
      · by_cases hp' : p.1 = k' <;>
          simp [eraseA_cons, lookupA_cons, hp, hp', hk, hkk, ih]

theorem lookupA_append {α : Type} (l₁ l₂ : List (Nat × α)) (k : Nat) :
    lookupA (l₁ ++ l₂) k =
      match lookupA l₁ k with
      | some v => some v
      | none => lookupA l₂ k := by
  induction l₁ with
  | nil => simp [lookupA_nil]
  | cons p l ih => by_cases hp : p.1 = k <;> simp [lookupA_cons, hp, ih]

theorem lookupA_none_of_not_containsA {α : Type} {l : List (Nat × α)} {k : Nat}
    (hc : ¬containsA l k = true) : lookupA l k = none := by
  cases h : lookupA l k with
  | none => rfl
  | some v => simp [containsA, h] at hc

theorem insertA_eq_modifyA_of_contains {α : Type} (l : List (Nat × α)) (k : Nat)
    (v : α) (hc : containsA l k = true) :
    insertA l k v = modifyA l k (fun _ => v) := by
  simp [insertA, modifyA, hc]

theorem lookupA_insertA {α : Type} (l : List (Nat × α)) (k : Nat) (v : α)
    (k' : Nat) :
    lookupA (insertA l k v) k' = if k' = k then some v else lookupA l k' := by
  by_cases hc : containsA l k
  · obtain ⟨w, hw⟩ : ∃ w, lookupA l k = some w := by
      cases h : lookupA l k with
      | none => simp [containsA, h] at hc
      | some w => exact ⟨w, rfl⟩
    rw [insertA_eq_modifyA_of_contains l k v hc, lookupA_modifyA]
    by_cases hk : k' = k <;> simp [hk, hw]
  · have hnone := lookupA_none_of_not_containsA hc
    unfold insertA
    simp only [hc, Bool.false_eq_true, if_false]
    rw [lookupA_append]
    by_cases hk : k' = k
    · subst hk; simp [hnone, lookupA_cons]
    · have hkk : ¬k = k' := fun h => hk h.symm
      cases h : lookupA l k' <;> simp [h, lookupA_cons, lookupA_nil, hk, hkk]

theorem lookupA_entryModify (l : List (Nat × List Nat)) (k : Nat)
    (f : List Nat → List Nat) (k' : Nat) :
    lookupA (entryModify l k f) k' =
      if k' = k then some (f ((lookupA l k).getD [])) else lookupA l k' := by
  unfold entryModify
  by_cases hc : containsA l k
  · obtain ⟨v, hv⟩ : ∃ v, lookupA l k = some v := by
      cases h : lookupA l k with
      | none => simp [containsA, h] at hc
      | some v => exact ⟨v, rfl⟩
    simp [hc, lookupA_modifyA, hv]
  · have hnone := lookupA_none_of_not_containsA hc
    simp only [hc, Bool.false_eq_true, if_false]
    rw [lookupA_append]
    by_cases hk : k' = k
    · subst hk; simp [hnone, lookupA_cons]
    · have hkk : ¬k = k' := fun h => hk h.symm
      cases h : lookupA l k' <;> simp [h, lookupA_cons, lookupA_nil, hk, hkk]

/-! ## C10 — `Rect::is_empty` is a strict-negativity test -/

/-- C10: `Rect::is_empty` returns true iff the width or the height is
    strictly negative; a zero width or height therefore still counts as
    positive, and a zero-area clip rectangle passes the emptiness-based
    visibility filter untouched. -/
theorem claim_C10 :
    (∀ x y w h : ℚ, (Rect.mk' x y w h).is_empty = true ↔ (w < 0 ∨ h < 0)) ∧
    (∀ x y q : ℚ, 0 ≤ q →
      (Rect.mk' x y 0 q).is_positive = true ∧
      (Rect.mk' x y q 0).is_positive = true) ∧
    (ShapeToDraw.is_visible_in_rect (fun _ => F.nan)
      { shape := [.shape { data := .Rectangle (Vec2.mk' 0 0) (Vec2.mk' 10 10)
                             ⟨f0, f0, f0, f0⟩,
                           transform := Transform2D.IDENTITY, stroke := none }],
        fill_mode := .Color ⟨F.fin 1, F.fin 1, F.fin 1, F.fin 1⟩,
        blend_mode := .AlphaAdd,
        clip_rect := Rect.mk' 0 0 0 100 }
      (Rect.mk' 0 0 50 50) = some true) := by
  refine ⟨?_, ?_, ?_⟩
  · intro x y w h
    simp only [Rect.mk', Rect.is_empty, F.flt]
    constructor
    · intro hor
      rcases Bool.or_eq_true_iff.1 hor with h1 | h1 <;> simp_all
    · intro hor
      rcases hor with h1 | h1 <;> simp [h1]
  · intro x y q hq
    constructor <;>
      simp [Rect.mk', Rect.is_positive, Rect.is_empty, F.flt, hq, not_lt.2 hq]
  · norm_num [ShapeToDraw.is_visible_in_rect, Shape.bounded_rect,
      Shape.bounded_rect_go, BasicShape.bounded_rect, BasicShapeData.bounded_rect,
      Rect.intersection, Rect.is_empty, Rect.transformed, Rect.shrink,
      Rect.from_ltrb, Rect.lt, Rect.rb, Rect.lb, Rect.rt, Rect.mk',
      Transform2D.apply, Transform2D.IDENTITY, Transform2D.column_major,
      Vec2.mk', Vec2.ZERO, Vec2.divF, Vec2.same, Vec2.add, Vec2.neg,
      FillMode.is_invisible, F.add, F.sub, F.neg, F.mul, F.fdiv, F.fmin, F.fmax,
      F.fle, F.flt, F.beq, F.isNaN, f0, List.isEmpty]

/-- witness for C10 at concrete inputs. -/
theorem claim_C10_witness :
    (Rect.mk' 1 2 (-3) 4).is_empty = true ∧ (Rect.mk' 1 2 0 4).is_positive = true := by
  constructor
  · exact (claim_C10.1 1 2 (-3) 4).2 (Or.inl (by norm_num))
  · exact ((claim_C10.2.1 1 2 4 (by norm_num)).1)

/-! ## C9 — `Layout::insert_root_widget` -/

/-- C9: when a root already exists `insert_root_widget` replaces only the
    root's widget, marks the root dirty and returns `true`, with the
    placement, the tree maps, the alias tables and every other node
    untouched; when no root exists it creates node 0 placed at
    `(Rect::WINDOW, Vec2::ZERO)` with the root's parent set to itself and
    returns `false`. -/
theorem claim_C9 {W : Type} (st : LayoutState W) (w : W) :
    (∀ e, lookupA st.widgets ROOT_LAYOUT_ID = some e →
      (st.insert_root_widget w).2 = true ∧
      lookupA (st.insert_root_widget w).1.widgets ROOT_LAYOUT_ID =
        some { e with widget := w, redraw_request := true } ∧
      (∀ i, i ≠ ROOT_LAYOUT_ID →
        lookupA (st.insert_root_widget w).1.widgets i = lookupA st.widgets i) ∧
      (st.insert_root_widget w).1.tree = st.tree ∧
      (st.insert_root_widget w).1.inverse_tree = st.inverse_tree ∧
      (st.insert_root_widget w).1.alias_map = st.alias_map ∧
      (st.insert_root_widget w).1.inversed_alias_map = st.inversed_alias_map ∧
      (st.insert_root_widget w).1.next_id = st.next_id) ∧
    (lookupA st.widgets ROOT_LAYOUT_ID = none →
      (st.insert_root_widget w).2 = false ∧
      lookupA (st.insert_root_widget w).1.widgets ROOT_LAYOUT_ID =
        some { id := ROOT_LAYOUT_ID,
               area_and_pos := some (Rect.WINDOW, Vec2.ZERO),
               widget := w, redraw_request := true } ∧
      lookupA (st.insert_root_widget w).1.inverse_tree ROOT_LAYOUT_ID =
        some ROOT_LAYOUT_ID ∧
      lookupA (st.insert_root_widget w).1.tree ROOT_LAYOUT_ID = some []) := by
  constructor
  · intro e he
    simp only [LayoutState.insert_root_widget, he]
    refine ⟨trivial, ?_, ?_, trivial, trivial, trivial, trivial, trivial⟩
    · simp [lookupA_modifyA, he]
    · intro i hi
      simp [lookupA_modifyA, hi]
  · intro he
    simp only [LayoutState.insert_root_widget, he]
    refine ⟨trivial, ?_, ?_, ?_⟩ <;> simp [lookupA_insertA]

/-- witness for C9: a fresh layout gets a root, inserting again replaces it. -/
theorem claim_C9_witness :
    (((LayoutState.new : LayoutState Nat).insert_root_widget 7).2 = false ∧
      lookupA ((LayoutState.new : LayoutState Nat).insert_root_widget 7).1.widgets
        ROOT_LAYOUT_ID =
        some { id := ROOT_LAYOUT_ID,
               area_and_pos := some (Rect.WINDOW, Vec2.ZERO),
               widget := 7, redraw_request := true }) ∧
    ((((LayoutState.new : LayoutState Nat).insert_root_widget 7).1.insert_root_widget
        9).2 = true) := by
  have h1 := (claim_C9 (LayoutState.new : LayoutState Nat) 7).2 rfl
  have hroot : lookupA ((LayoutState.new : LayoutState Nat).insert_root_widget
      7).1.widgets ROOT_LAYOUT_ID =
      some { id := ROOT_LAYOUT_ID,
             area_and_pos := some (Rect.WINDOW, Vec2.ZERO),
             widget := 7, redraw_request := true } := h1.2.1
  have h2 := (claim_C9 ((LayoutState.new : LayoutState Nat).insert_root_widget 7).1
      9).1 _ hroot
  exact ⟨⟨h1.1, h1.2.1⟩, h2.1⟩

/-! ## C1 — register depth of `ShapeToDraw::parse` -/

theorem parse_finish_snd (s : ShapeToDraw) (ct : Transform2D)
    (out : List DrawCommandGpu) (m : Nat) : (parse_finish s ct out m).2 = m + 1 :=
  rfl

/-- counterexample to C1: the left-folded chain of 5 `And`s over solid
    rectangles compiles to a reported register/stack depth of 2, not 1 —
    `ShapeToDraw::parse` returns `max_stack_size + 1`, and one scratch
    register is allocated by the first `And`. -/
theorem claim_C1_counterexample :
    (andChainSd.parse (fun _ _ => none)).map Prod.snd = some 2 ∧
    (andChainSd.parse (fun _ _ => none)).map Prod.snd ≠ some 1 := by
  constructor <;> decide

/-- C1 (amended): for any two basic shapes whose geometry compiles and any
    visible fill, compiling `A | B` reports register depth 2; the strictly
    left-folded chain of 5 `And`s over six such shapes also reports 2 (the
    `And` chain accumulates in place, allocating just one scratch register,
    and the reported depth is the scratch high-water mark plus one). -/
theorem claim_C1 (charMap : Char → Nat → Option Nat)
    (sh1 sh2 sh3 sh4 sh5 sh6 : BasicShape)
    (fill : FillMode) (blend : BlendMode) (clip : Rect)
    (hfill : fill.is_invisible = false)
    (p1 p2 p3 p4 p5 p6 : CommandGpu × List (List F))
    (h1 : sh1.data.compile charMap = some p1)
    (h2 : sh2.data.compile charMap = some p2)
    (h3 : sh3.data.compile charMap = some p3)
    (h4 : sh4.data.compile charMap = some p4)
    (h5 : sh5.data.compile charMap = some p5)
    (h6 : sh6.data.compile charMap = some p6) :
    (ShapeToDraw.parse charMap
      { shape := [.shape sh1, .shape sh2, .op .Or], fill_mode := fill,
        blend_mode := blend, clip_rect := clip }).map Prod.snd = some 2 ∧
    (ShapeToDraw.parse charMap
      { shape := [.shape sh1, .shape sh2, .op .And, .shape sh3, .op .And,
                  .shape sh4, .op .And, .shape sh5, .op .And,
                  .shape sh6, .op .And],
        fill_mode := fill, blend_mode := blend, clip_rect := clip }).map
      Prod.snd = some 2 := by
  obtain ⟨c1, s1⟩ := p1
  obtain ⟨c2, s2⟩ := p2
  obtain ⟨c3, s3⟩ := p3
  obtain ⟨c4, s4⟩ := p4
  obtain ⟨c5, s5⟩ := p5
  obtain ⟨c6, s6⟩ := p6
  constructor <;>
  · cases hb1 : Transform2D.beq Transform2D.IDENTITY sh1.transform <;>
      cases hb2 : Transform2D.beq sh1.transform sh2.transform <;>
        cases hb3 : Transform2D.beq Transform2D.IDENTITY sh2.transform <;>
          simp [ShapeToDraw.parse, parse_go, hanle_binary_op, binaryOpCode,
            parse_finish_snd, hfill, h1, h2, h3, h4, h5, h6, hb1, hb2, hb3]

/-- witness for C1 at concrete solid rectangles. -/
theorem claim_C1_witness :
    (ShapeToDraw.parse (fun _ _ => none)
      { shape := [.shape (solidRect 0 1), .shape (solidRect 2 3), .op .Or],
        fill_mode := solidFill, blend_mode := .AlphaAdd,
        clip_rect := Rect.mk' 0 0 100 100 }).map Prod.snd = some 2 :=
  (claim_C1 (fun _ _ => none) (solidRect 0 1) (solidRect 2 3) (solidRect 4 5)
    (solidRect 6 7) (solidRect 8 9) (solidRect 10 11) solidFill .AlphaAdd
    (Rect.mk' 0 0 100 100) (by decide) _ _ _ _ _ _ rfl rfl rfl rfl rfl rfl).1

/-! ## C7 — `Shape::bounded_rect` operator table -/

theorem bounded_rect_op_of_ne_not (texp : F → F) (o : Operator)
    (ho : o ≠ .Not) (a b : Rect) :
    ∃ r, Shape.bounded_rect_op texp o a b = some r := by
  cases o <;> simp [Shape.bounded_rect_op] at ho ⊢

theorem bounded_rect_go_flatten (texp : F → F) (e : SExpr)
    (he : noNotBinop e = true) (rest : List ShapeOrOp) (stack : List Rect) :
    Shape.bounded_rect_go texp (flattenE e ++ rest) stack =
      Shape.bounded_rect_go texp rest (boundSpec texp e :: stack) := by
  induction e generalizing rest stack with
  | leaf b => simp [flattenE, Shape.bounded_rect_go, boundSpec]
  | binop o l r ihl ihr =>
    have ho : o ≠ Operator.Not := by
      simp [noNotBinop] at he; exact he.1.1
    have hl : noNotBinop l = true := by
      simp [noNotBinop] at he; exact he.1.2
    have hr : noNotBinop r = true := by
      simp [noNotBinop] at he; exact he.2
    rw [flattenE, List.append_assoc, List.append_assoc, ihl hl,
      ihr hr]
    obtain ⟨v, hv⟩ := bounded_rect_op_of_ne_not texp o ho (boundSpec texp l)
      (boundSpec texp r)
    simp only [List.cons_append, List.nil_append, Shape.bounded_rect_go, ho,
      if_false, hv]
    cases o <;> simp_all [Shape.bounded_rect_op, boundSpec]
  | negE e ih =>
    rw [flattenE, List.append_assoc, ih he]
    simp [Shape.bounded_rect_go, boundSpec]

/-- C7 (amended): for every well-formed postfix program, `bounded_rect`
    evaluates it bottom-up with `Or` = union of the operand bounds,
    `Not` = the full window, `Lerp(t)` = linear interpolation of the operand
    bounds, `Minus` = exactly the right operand's bound, `Xor` = the union —
    and `And` = the *intersection* of the two operand bounds (not a union
    nor a single operand's bound). -/
theorem claim_C7 (texp : F → F) (e : SExpr) (he : noNotBinop e = true) :
    Shape.bounded_rect texp (flattenE e) = some (boundSpec texp e) := by
  have h := bounded_rect_go_flatten texp e he [] []
  simpa [Shape.bounded_rect, Shape.bounded_rect_go] using h

/-- witness for C7: the `Minus` bound really is the right operand's. -/
theorem claim_C7_witness :
    Shape.bounded_rect (fun _ => F.nan)
      (flattenE (.binop .Minus (.leaf (solidRect 0 1)) (.leaf (solidRect 10 11))))
      = some ((solidRect 10 11).bounded_rect) :=
  claim_C7 (fun _ => F.nan)
    (.binop .Minus (.leaf (solidRect 0 1)) (.leaf (solidRect 10 11))) (by decide)

/-- counterexample to C7 as stated: on two disjoint solid rectangles the
    `And` bound is the (empty) intersection `(10, 10, -9, -9)` — it is not
    the Or-style union and not either operand's bound. -/
theorem claim_C7_counterexample :
    Shape.bounded_rect (fun _ => F.nan)
      [.shape (solidRect 0 1), .shape (solidRect 10 11), .op .And] =
        some (Rect.mk' 10 10 (-9) (-9)) ∧
    some (Rect.mk' 10 10 (-9) (-9)) ≠
      some ((solidRect 0 1).bounded_rect.union (solidRect 10 11).bounded_rect) ∧
    some (Rect.mk' 10 10 (-9) (-9)) ≠ some ((solidRect 0 1).bounded_rect) ∧
    some (Rect.mk' 10 10 (-9) (-9)) ≠ some ((solidRect 10 11).bounded_rect) := by
  refine ⟨?_, ?_, ?_, ?_⟩ <;>
    (try constructor) <;>
    norm_num [Shape.bounded_rect, Shape.bounded_rect_go, Shape.bounded_rect_op,
      BasicShape.bounded_rect, BasicShapeData.bounded_rect, solidRect,
      Rect.intersection, Rect.union, Rect.transformed, Rect.shrink,
      Rect.from_ltrb, Rect.lt, Rect.rb, Rect.lb, Rect.rt, Rect.mk',
      Transform2D.apply, Transform2D.IDENTITY, Transform2D.column_major,
      Vec2.mk', Vec2.ZERO, Vec2.divF, Vec2.same, Vec2.neg,
      F.add, F.sub, F.neg, F.mul, F.fdiv, F.fmin, F.fmax, F.fle, F.flt,
      F.beq, F.isNaN, f0] <;>
    (intro h; exact Operator.noConfusion h)

/-! ## C6 — `Painter::parse` compiles in reverse draw order -/

theorem painter_collect_append (texp : F → F) (charMap : Char → Nat → Option Nat)
    (R : Rect) (xs ys : List ShapeToDraw) :
    painter_collect texp charMap R (xs ++ ys) =
      (painter_collect texp charMap R xs).bind
        (fun a => (painter_collect texp charMap R ys).map (fun b => a ++ b)) := by
  induction xs with
  | nil =>
    cases h : painter_collect texp charMap R ys <;>
      simp [painter_collect, h]
  | cons s xs ih =>
    simp only [List.cons_append, painter_collect, List.append_eq]
    rw [ih]
    cases hv : s.is_visible_in_rect texp R with
    | none => simp
    | some vis =>
      cases hxs : painter_collect texp charMap R xs with
      | none => simp
      | some a =>
        cases hys : painter_collect texp charMap R ys with
        | none => cases vis <;> cases hp : s.parse charMap <;> simp [hp]
        | some b => cases vis <;> cases hp : s.parse charMap <;> simp [hp]

theorem painter_collect_cons_visible (texp : F → F)
    (charMap : Char → Nat → Option Nat) (R : Rect) (s : ShapeToDraw)
    (rest : List ShapeToDraw) (hv : s.is_visible_in_rect texp R = some true) :
    painter_collect texp charMap R (s :: rest) =
      (painter_collect texp charMap R rest).bind
        (fun tail => (s.parse charMap).map (fun p => p :: tail)) := by
  simp only [painter_collect, hv]
  cases hrest : painter_collect texp charMap R rest <;>
    cases hp : s.parse charMap <;> simp [hp]

/-- C6: `Painter::parse` processes shapes in reverse draw-call order and
    joins per-shape command sequences in that same stable order: if
    `draw_shape(A)` came before `draw_shape(B)` and both are visible, then
    in any successfully compiled buffer all of B's commands (its `Fill`
    included) form a contiguous block that appears before all of A's. -/
theorem claim_C6 (texp : F → F) (charMap : Char → Nat → Option Nat)
    (l1 l2 l3 : List ShapeToDraw) (A B : ShapeToDraw) (R : Rect)
    (hA : A.is_visible_in_rect texp R = some true)
    (hB : B.is_visible_in_rect texp R = some true)
    (hok : (Painter.parse texp charMap (l1 ++ A :: l2 ++ B :: l3) R).isSome = true) :
    ∃ pa pb X Y Z,
      ShapeToDraw.parse charMap A = some pa ∧
      ShapeToDraw.parse charMap B = some pb ∧
      (Painter.parse texp charMap (l1 ++ A :: l2 ++ B :: l3) R).map Prod.fst =
        some (X ++ pb.1 ++ Y ++ pa.1 ++ Z) := by
  obtain ⟨⟨buf, d⟩, hres⟩ := Option.isSome_iff_exists.mp hok
  have hrev : (l1 ++ A :: l2 ++ B :: l3).reverse =
      l3.reverse ++ B :: (l2.reverse ++ A :: l1.reverse) := by simp
  rw [Painter.parse, hrev, painter_collect_append] at hres
  cases h3 : painter_collect texp charMap R l3.reverse with
  | none => rw [h3] at hres; simp at hres
  | some c3 =>
  rw [h3, painter_collect_cons_visible texp charMap R B _ hB,
    painter_collect_append] at hres
  cases h2 : painter_collect texp charMap R l2.reverse with
  | none => rw [h2] at hres; simp at hres
  | some c2 =>
  rw [h2, painter_collect_cons_visible texp charMap R A _ hA] at hres
  cases h1 : painter_collect texp charMap R l1.reverse with
  | none => rw [h1] at hres; simp at hres
  | some c1 =>
  rw [h1] at hres
  cases hpa : A.parse charMap with
  | none => rw [hpa] at hres; simp at hres
  | some pa =>
  rw [hpa] at hres
  cases hpb : B.parse charMap with
  | none => rw [hpb] at hres; simp at hres
  | some pb =>
  refine ⟨pa, pb, (c3.map Prod.fst).flatten, (c2.map Prod.fst).flatten,
    (c1.map Prod.fst).flatten, rfl, rfl, ?_⟩
  rw [Painter.parse, hrev, painter_collect_append, h3,
    painter_collect_cons_visible texp charMap R B _ hB, painter_collect_append,
    h2, painter_collect_cons_visible texp charMap R A _ hA, h1, hpa, hpb]
  simp [List.map_append, List.flatten_append]

/-- witness for C6: two opaque solid rectangles drawn into a painter; the
    later one's commands come first in the compiled buffer. -/
theorem claim_C6_witness :
    ∃ pa pb X Y Z,
      ShapeToDraw.parse (fun _ _ => none) sdA6 = some pa ∧
      ShapeToDraw.parse (fun _ _ => none) sdB6 = some pb ∧
      (Painter.parse (fun _ => F.nan) (fun _ _ => none) [sdA6, sdB6]
        (Rect.mk' 0 0 100 100)).map Prod.fst =
        some (X ++ pb.1 ++ Y ++ pa.1 ++ Z) := by
  have h := claim_C6 (fun _ => F.nan) (fun _ _ => none) [] [] [] sdA6 sdB6
    (Rect.mk' 0 0 100 100) ?_ ?_ ?_
  · simpa using h
  · norm_num [ShapeToDraw.is_visible_in_rect, sdA6, solidFill, Shape.bounded_rect,
      Shape.bounded_rect_go, Shape.bounded_rect_op, BasicShape.bounded_rect,
      BasicShapeData.bounded_rect, solidRect, Rect.intersection, Rect.is_empty,
      Rect.transformed, Rect.shrink, Rect.from_ltrb, Rect.lt, Rect.rb, Rect.lb,
      Rect.rt, Rect.mk', Transform2D.apply, Transform2D.IDENTITY,
      Transform2D.column_major, Vec2.mk', Vec2.ZERO, Vec2.divF, Vec2.same,
      Vec2.neg, FillMode.is_invisible, F.add, F.sub, F.neg, F.mul, F.fdiv,
      F.fmin, F.fmax, F.fle, F.flt, F.beq, F.isNaN, f0, List.isEmpty]
  · norm_num [ShapeToDraw.is_visible_in_rect, sdB6, solidFill, Shape.bounded_rect,
      Shape.bounded_rect_go, Shape.bounded_rect_op, BasicShape.bounded_rect,
      BasicShapeData.bounded_rect, solidRect, Rect.intersection, Rect.is_empty,
      Rect.transformed, Rect.shrink, Rect.from_ltrb, Rect.lt, Rect.rb, Rect.lb,
      Rect.rt, Rect.mk', Transform2D.apply, Transform2D.IDENTITY,
      Transform2D.column_major, Vec2.mk', Vec2.ZERO, Vec2.divF, Vec2.same,
      Vec2.neg, FillMode.is_invisible, F.add, F.sub, F.neg, F.mul, F.fdiv,
      F.fmin, F.fmax, F.fle, F.flt, F.beq, F.isNaN, f0, List.isEmpty]
  · norm_num [Painter.parse, painter_collect, ShapeToDraw.parse, parse_go,
      parse_finish, hanle_binary_op, binaryOpCode, sdA6, sdB6, solidFill,
      ShapeToDraw.is_visible_in_rect, Shape.bounded_rect, Shape.bounded_rect_go,
      Shape.bounded_rect_op, BasicShape.bounded_rect, BasicShapeData.bounded_rect,
      BasicShapeData.compile, solidRect, Rect.intersection, Rect.is_empty,
      Rect.transformed, Rect.shrink, Rect.from_ltrb, Rect.lt, Rect.rb, Rect.lb,
      Rect.rt, Rect.mk', Transform2D.apply, Transform2D.IDENTITY,
      Transform2D.beq, Transform2D.column_major, Vec2.mk', Vec2.ZERO, Vec2.divF,
      Vec2.same, Vec2.neg, FillMode.is_invisible, F.add, F.sub, F.neg, F.mul,
      F.fdiv, F.fmin, F.fmax, F.fle, F.flt, F.beq, F.isNaN, f0, List.isEmpty]

/-! ## C5 — `sperate_dirty_widgets` marks exactly the seed-reachable set -/

theorem mem_of_lookupA {α : Type} {l : List (Nat × α)} {k : Nat} {v : α}
    (h : lookupA l k = some v) : (k, v) ∈ l := by
  induction l with
  | nil => simp [lookupA_nil] at h
  | cons p l ih =>
    rw [lookupA_cons] at h
    by_cases hp : p.1 = k
    · simp only [hp, if_true, Option.some.injEq] at h
      obtain ⟨pk, pv⟩ := p
      simp only at hp h
      subst hp
      subst h
      exact List.mem_cons_self _ _
    · simp only [hp, if_false] at h
      exact List.mem_cons_of_mem _ (ih h)

theorem lookupA_of_mem_nodup {α : Type} {l : List (Nat × α)} {k : Nat} {v : α}
    (hmem : (k, v) ∈ l) (hnd : (l.map Prod.fst).Nodup) : lookupA l k = some v := by
  induction l with
  | nil => simp at hmem
  | cons p l ih =>
    rw [lookupA_cons]
    rcases List.mem_cons.mp hmem with h | h
    · simp [← h]
    · by_cases hp : p.1 = k
      · exfalso
        have hk : k ∈ l.map Prod.fst := List.mem_map.mpr ⟨(k, v), h, rfl⟩
        have := (List.nodup_cons.mp hnd).1
        exact this (hp ▸ hk)
      · simp only [hp, if_false]
        exact ih h (List.nodup_cons.mp hnd).2

theorem valMem_of_lookupA {α : Type} {l : List (Nat × α)} {k : Nat} {v : α}
    (h : lookupA l k = some v) : v ∈ l.map Prod.snd :=
  List.mem_map.mpr ⟨(k, v), mem_of_lookupA h, rfl⟩

theorem childrenOf_subset_universe {W : Type} (st : LayoutState W) (id c : Nat)
    (hc : c ∈ childrenOf st id) : c ∈ sperateUniverse st := by
  unfold childrenOf at hc
  cases h : lookupA st.tree id with
  | none => rw [h] at hc; simp at hc
  | some v =>
    rw [h] at hc
    simp only [Option.getD_some] at hc
    have hv : v ∈ st.tree.map Prod.snd := valMem_of_lookupA h
    have : c ∈ (st.tree.map Prod.snd).flatten := List.mem_flatten.mpr ⟨v, hv, hc⟩
    simp [sperateUniverse, this]

theorem speratePhi_pop_unvisited {W : Type} (st0 : LayoutState W) (id : Nat)
    (rest tr : List Nat) (hidU : id ∈ sperateUniverse st0) (hidtr : id ∉ tr) :
    speratePhi st0 (childrenOf st0 id ++ rest) (id :: tr) + 2 =
      speratePhi st0 (id :: rest) tr := by
  unfold speratePhi
  have hid' : id ∈ sperateUniverse st0 \ tr.toFinset := by
    simp [hidU, hidtr]
  have hset : sperateUniverse st0 \ (id :: tr).toFinset =
      (sperateUniverse st0 \ tr.toFinset).erase id := by
    ext x
    simp only [Finset.mem_sdiff, List.toFinset_cons, Finset.mem_insert,
      Finset.mem_erase, List.mem_toFinset]
    constructor
    · rintro ⟨hx, hne⟩
      push_neg at hne
      exact ⟨hne.1, hx, hne.2⟩
    · rintro ⟨hne, hx, htr⟩
      exact ⟨hx, by push_neg; exact ⟨hne, htr⟩⟩
  rw [hset]
  have hsum : stepWeight st0 id +
      ∑ x ∈ (sperateUniverse st0 \ tr.toFinset).erase id, stepWeight st0 x =
      ∑ x ∈ sperateUniverse st0 \ tr.toFinset, stepWeight st0 x :=
    Finset.add_sum_erase _ (stepWeight st0) hid'
  have hw : stepWeight st0 id = 1 + (childrenOf st0 id).length := by
    simp [stepWeight, childrenOf]
  simp only [List.length_append, List.length_cons]
  omega

theorem speratePhi_pop_visited {W : Type} (st0 : LayoutState W) (id : Nat)
    (rest tr : List Nat) :
    speratePhi st0 rest tr + 1 = speratePhi st0 (id :: rest) tr := by
  simp [speratePhi, List.length_cons]
  omega

theorem sperate_closed_spec {W : Type} (st0 cur : LayoutState W) (tr : List Nat)
    (hcur : ∀ n, lookupA cur.widgets n = (lookupA st0.widgets n).map
      (fun e => if n ∈ tr then { e with redraw_request := true } else e))
    (hv : ∀ v ∈ tr, DirtyReach st0 v)
    (hseed : ∀ d, Seed st0 d → d ∈ tr)
    (hclosed : ∀ v ∈ tr, ∀ c ∈ childrenOf st0 v, c ∈ tr) :
    ∀ n, (DirtyReach st0 n → lookupA cur.widgets n =
        (lookupA st0.widgets n).map (fun e => { e with redraw_request := true })) ∧
      (¬DirtyReach st0 n → lookupA cur.widgets n = lookupA st0.widgets n) := by
  intro n
  constructor
  · rintro ⟨d, hd, hreach⟩
    have hmem : n ∈ tr := by
      induction hreach with
      | refl => exact hseed d hd
      | tail _ step ih => exact hclosed _ ih _ step
    rw [hcur n]
    cases lookupA st0.widgets n <;> simp [hmem]
  · intro hn
    have hmem : n ∉ tr := fun hmem => hn (hv n hmem)
    rw [hcur n]
    cases lookupA st0.widgets n <;> simp [hmem]

theorem sperate_loop_spec {W : Type} (st0 : LayoutState W) :
    ∀ (fuel : Nat) (cur : LayoutState W) (worklist traversed : List Nat),
    (∀ n, lookupA cur.widgets n = (lookupA st0.widgets n).map
      (fun e => if n ∈ traversed then { e with redraw_request := true } else e)) →
    cur.tree = st0.tree →
    (∀ v ∈ traversed, DirtyReach st0 v) →
    (∀ w ∈ worklist, DirtyReach st0 w) →
    (∀ d, Seed st0 d → d ∈ traversed ∨ d ∈ worklist) →
    (∀ v ∈ traversed, ∀ c ∈ childrenOf st0 v, c ∈ traversed ∨ c ∈ worklist) →
    (∀ w ∈ worklist, w ∈ sperateUniverse st0) →
    speratePhi st0 worklist traversed ≤ fuel →
    ∀ n, (DirtyReach st0 n →
        lookupA (sperate_loop fuel cur worklist traversed).widgets n =
          (lookupA st0.widgets n).map
            (fun e => { e with redraw_request := true })) ∧
      (¬DirtyReach st0 n →
        lookupA (sperate_loop fuel cur worklist traversed).widgets n =
          lookupA st0.widgets n) := by
  intro fuel
  induction fuel with
  | zero =>
    intro cur wl tr hcur htree hv hw hseed hclosed hwU hphi
    have hwl : wl = [] := by
      have hlen : wl.length = 0 := by
        unfold speratePhi at hphi
        omega
      exact List.eq_nil_of_length_eq_zero hlen
    subst hwl
    simpa [sperate_loop] using sperate_closed_spec st0 cur tr hcur hv
      (fun d hd => (hseed d hd).resolve_right (by simp))
      (fun v hvm c hc => (hclosed v hvm c hc).resolve_right (by simp))
  | succ fuel ih =>
    intro cur wl tr hcur htree hv hw hseed hclosed hwU hphi
    cases wl with
    | nil =>
      simpa [sperate_loop] using sperate_closed_spec st0 cur tr hcur hv
        (fun d hd => (hseed d hd).resolve_right (by simp))
        (fun v hvm c hc => (hclosed v hvm c hc).resolve_right (by simp))
    | cons id rest =>
      by_cases hidtr : id ∈ tr
      · have hstep : sperate_loop (fuel + 1) cur (id :: rest) tr =
            sperate_loop fuel cur rest tr := by
          simp [sperate_loop, hidtr]
        rw [hstep]
        apply ih cur rest tr hcur htree hv
          (fun w hwm => hw w (List.mem_cons_of_mem _ hwm))
          (fun d hd => by
            rcases hseed d hd with h | h
            · exact Or.inl h
            · rcases List.mem_cons.mp h with h | h
              · exact Or.inl (h ▸ hidtr)
              · exact Or.inr h)
          (fun v hvm c hc => by
            rcases hclosed v hvm c hc with h | h
            · exact Or.inl h
            · rcases List.mem_cons.mp h with h | h
              · exact Or.inl (h ▸ hidtr)
              · exact Or.inr h)
          (fun w hwm => hwU w (List.mem_cons_of_mem _ hwm))
          (by have := speratePhi_pop_visited st0 id rest tr; omega)
      · have hstep : sperate_loop (fuel + 1) cur (id :: rest) tr =
            sperate_loop fuel (cur.set_redraw id true)
              (((lookupA cur.tree id).getD []) ++ rest) (id :: tr) := by
          simp [sperate_loop, hidtr]
        rw [hstep, htree]
        have hchildren : ((lookupA st0.tree id).getD []) = childrenOf st0 id := rfl
        rw [hchildren]
        apply ih (cur.set_redraw id true) (childrenOf st0 id ++ rest) (id :: tr)
        · intro n
          unfold LayoutState.set_redraw
          rw [lookupA_modifyA]
          by_cases hn : n = id
          · subst hn
            rw [if_pos rfl, hcur n]
            cases lookupA st0.widgets n <;> simp [hidtr]
          · rw [if_neg hn, hcur n]
            cases lookupA st0.widgets n <;> simp [List.mem_cons, hn]
        · simp [LayoutState.set_redraw]; exact htree
        · intro v hvm
          rcases List.mem_cons.mp hvm with h | h
          · exact h ▸ hw id (List.mem_cons_self _ _)
          · exact hv v h
        · intro w hwm
          rcases List.mem_append.mp hwm with h | h
          · obtain ⟨d, hd, hreach⟩ := hw id (List.mem_cons_self _ _)
            exact ⟨d, hd, hreach.tail h⟩
          · exact hw w (List.mem_cons_of_mem _ h)
        · intro d hd
          rcases hseed d hd with h | h
          · exact Or.inl (List.mem_cons_of_mem _ h)
          · rcases List.mem_cons.mp h with h | h
            · exact Or.inl (h ▸ List.mem_cons_self _ _)
            · exact Or.inr (List.mem_append_right _ h)
        · intro v hvm c hc
          rcases List.mem_cons.mp hvm with h | h
          · subst h
            exact Or.inr (List.mem_append_left _ hc)
          · rcases hclosed v h c hc with h2 | h2
            · exact Or.inl (List.mem_cons_of_mem _ h2)
            · rcases List.mem_cons.mp h2 with h2 | h2
              · exact Or.inl (h2 ▸ List.mem_cons_self _ _)
              · exact Or.inr (List.mem_append_right _ h2)
        · intro w hwm
          rcases List.mem_append.mp hwm with h | h
          · exact childrenOf_subset_universe st0 id w h
          · exact hwU w (List.mem_cons_of_mem _ h)
        · have := speratePhi_pop_unvisited st0 id rest tr
            (hwU id (List.mem_cons_self _ _)) hidtr
          omega

/-- C5: after the propagate-down phase, every descendant (through the
    children map) of every initially dirty node is dirty, and any node not
    reachable from a dirty node keeps its record unchanged. -/
theorem claim_C5 {W : Type} (st : LayoutState W) (fuel : Nat)
    (hid : ∀ k e, lookupA st.widgets k = some e → e.id = k)
    (hnodup : (st.widgets.map Prod.fst).Nodup)
    (hfuel : sperateFuelBound st ≤ fuel) :
    (∀ d n, Seed st d → Relation.ReflTransGen (childStep st) d n →
      lookupA (sperate_dirty_widgets fuel st).widgets n =
        (lookupA st.widgets n).map
          (fun e => { e with redraw_request := true })) ∧
    (∀ n, ¬DirtyReach st n →
      lookupA (sperate_dirty_widgets fuel st).widgets n =
        lookupA st.widgets n) := by
  have hspec := sperate_loop_spec st fuel st
    (st.widgets.filterMap
      (fun p => if p.2.redraw_request then some p.2.id else none)) []
    (by intro n; cases lookupA st.widgets n <;> simp)
    rfl
    (by simp)
    (by
      intro w hwm
      obtain ⟨p, hp, hcond⟩ := List.mem_filterMap.mp hwm
      by_cases hr : p.2.redraw_request
      · simp only [hr, if_true, Option.some.injEq] at hcond
        have hlk : lookupA st.widgets p.1 = some p.2 := by
          obtain ⟨k, v⟩ := p
          exact lookupA_of_mem_nodup hp hnodup
        have hidp := hid _ _ hlk
        refine ⟨w, ⟨p.2, ?_, hr⟩, Relation.ReflTransGen.refl⟩
        rw [← hcond, hidp]
        exact hlk
      · simp [hr] at hcond)
    (by
      intro d hd
      right
      obtain ⟨e, hlk, hre⟩ := hd
      have hmem : (d, e) ∈ st.widgets := mem_of_lookupA hlk
      refine List.mem_filterMap.mpr ⟨(d, e), hmem, ?_⟩
      simp [hre, hid d e hlk])
    (by simp)
    (by
      intro w hwm
      obtain ⟨p, hp, hcond⟩ := List.mem_filterMap.mp hwm
      by_cases hr : p.2.redraw_request
      · simp only [hr, if_true, Option.some.injEq] at hcond
        have hlk : lookupA st.widgets p.1 = some p.2 := by
          obtain ⟨k, v⟩ := p
          exact lookupA_of_mem_nodup hp hnodup
        have hidp := hid _ _ hlk
        have : w ∈ st.widgets.map Prod.fst :=
          List.mem_map.mpr ⟨p, hp, by rw [← hcond, hidp]⟩
        simp [sperateUniverse, this]
      · simp [hr] at hcond)
    (by
      have hlen : (st.widgets.filterMap
          (fun p => if p.2.redraw_request then some p.2.id else none)).length ≤
          st.widgets.length := List.length_filterMap_le _ _
      have : speratePhi st
          (st.widgets.filterMap
            (fun p => if p.2.redraw_request then some p.2.id else none)) [] ≤
          sperateFuelBound st := by
        simp only [speratePhi, sperateFuelBound, List.toFinset_nil,
          Finset.sdiff_empty]
        omega
      omega)
  constructor
  · intro d n hd hreach
    exact (hspec n).1 ⟨d, hd, hreach⟩
  · intro n hn
    exact (hspec n).2 hn

/-- witness for C5: in a two-node layout with a dirty root, the child is
    marked dirty by the propagate-down phase. -/
theorem claim_C5_witness :
    lookupA (sperate_dirty_widgets 20 stC5).widgets 1 =
      some { id := 1, area_and_pos := none, widget := (),
             redraw_request := true } := by
  have hid : ∀ (k : Nat) (e : LayoutElement Unit),
      lookupA stC5.widgets k = some e → e.id = k := by
    intro k e h
    simp only [stC5, lookupA_cons, lookupA_nil] at h
    by_cases h0 : (0 : Nat) = k
    · rw [if_pos h0] at h
      injection h with h2
      subst h2
      exact h0
    · rw [if_neg h0] at h
      by_cases h1 : (1 : Nat) = k
      · rw [if_pos h1] at h
        injection h with h2
        subst h2
        exact h1
      · rw [if_neg h1] at h
        exact absurd h (by simp)
  have h := (claim_C5 stC5 20 hid (by decide) (by decide)).1 0 1
    ⟨{ id := 0, area_and_pos := none, widget := (), redraw_request := true },
      rfl, rfl⟩
    (Relation.ReflTransGen.single
      (show (1 : Nat) ∈ childrenOf stC5 0 by decide))
  simpa using h


/-! ## C3 — what `handle_paint` clears, walks and draws -/

theorem sizeT_pos (t : NTree) : 1 ≤ t.sizeT := by
  cases t with
  | node i cs => simp [NTree.sizeT]

theorem sizeF_append (a b : List NTree) :
    NTree.sizeF (a ++ b) = NTree.sizeF a + NTree.sizeF b := by
  induction a with
  | nil => simp [NTree.sizeF]
  | cons t a' ih => simp [NTree.sizeF, ih]; omega

theorem RepForest_append {W : Type} (st : LayoutState W) (a b : List NTree)
    (ha : RepForest st a) (hb : RepForest st b) : RepForest st (a ++ b) := by
  induction a with
  | nil => simpa [RepForest] using hb
  | cons t a' ih =>
    rw [List.cons_append, RepForest]
    exact ⟨ha.1, ih ha.2⟩

theorem clearedF_append {W : Type} (st : LayoutState W) (a b : List NTree) :
    clearedF st (a ++ b) = clearedF st a ++ clearedF st b := by
  induction a with
  | nil => simp [clearedF]
  | cons t a' ih => simp [clearedF, ih]

theorem handle_paint_loop_clears {W : Type} (st : LayoutState W) :
    ∀ (fuel : Nat) (cur : LayoutState W) (ts : List NTree)
      (already : List Nat) (refresh : Option Rect) (drawn : List Nat),
    (∀ n, lookupA cur.widgets n =
      if n ∈ already then
        (lookupA st.widgets n).map (fun e => { e with redraw_request := false })
      else lookupA st.widgets n) →
    cur.tree = st.tree →
    RepForest st ts →
    NTree.sizeF ts ≤ fuel →
    ∀ n, lookupA
        (handle_paint_loop fuel cur (ts.map NTree.rootId) refresh drawn).1.widgets
        n =
      if n ∈ already ∨ n ∈ clearedF st ts then
        (lookupA st.widgets n).map (fun e => { e with redraw_request := false })
      else lookupA st.widgets n := by
  intro fuel
  induction fuel with
  | zero =>
    intro cur ts already refresh drawn hcur htree hrep hfuel n
    have hts : ts = [] := by
      cases ts with
      | nil => rfl
      | cons t ts' =>
        exfalso
        have h1 := sizeT_pos t
        simp [NTree.sizeF] at hfuel
        omega
    subst hts
    simpa [handle_paint_loop, clearedF] using hcur n
  | succ fuel ih =>
    intro cur ts already refresh drawn hcur htree hrep hfuel n
    cases ts with
    | nil => simpa [handle_paint_loop, clearedF] using hcur n
    | cons t rest =>
      cases t with
      | node i cs =>
        obtain ⟨hwid, htreei, _hinv, hcs⟩ := hrep.1
        obtain ⟨e0, he0⟩ := Option.isSome_iff_exists.mp (by
          simpa [containsA] using hwid)
        have hchild : (lookupA (cur.set_redraw i false).tree i).getD [] =
            cs.map NTree.rootId := by
          have htr2 : (cur.set_redraw i false).tree = st.tree := htree
          rw [htr2]
          rcases htreei with h | ⟨hcse, h⟩
          · simp [h]
          · simp [h, hcse]
        obtain ⟨elem, hcuri, harea⟩ : ∃ elem, lookupA cur.widgets i = some elem ∧
            elem.area_and_pos = e0.area_and_pos := by
          refine ⟨if i ∈ already then { e0 with redraw_request := false }
            else e0, ?_, ?_⟩
          · rw [hcur i]
            by_cases hi : i ∈ already <;> simp [hi, he0]
          · by_cases hi : i ∈ already <;> simp [hi]
        have hqueue : (NTree.node i cs :: rest).map NTree.rootId =
            i :: rest.map NTree.rootId := by simp [NTree.rootId]
        rw [hqueue]
        have hsize : 1 + NTree.sizeF cs + NTree.sizeF rest ≤ fuel + 1 := by
          simp [NTree.sizeF, NTree.sizeT] at hfuel
          omega
        rw [handle_paint_loop]
        simp only [hcuri]
        cases ha : elem.area_and_pos with
        | some ap =>
          obtain ⟨area, pos⟩ := ap
          have e0area : e0.area_and_pos = some (area, pos) := by
            rw [← harea, ha]
          simp only []
          cases hemp : area.is_empty with
          | true =>
            rw [if_pos rfl]
            rw [ih cur rest already _ drawn hcur htree hrep.2 (by omega) n]
            have hclr : clearedT st (NTree.node i cs) = [] := by
              simp [clearedT, he0, e0area, hemp]
            simp [clearedF, hclr]
          | false =>
            rw [if_neg Bool.false_ne_true]
            rw [hchild]
            have hmap : rest.map NTree.rootId ++ cs.map NTree.rootId =
                (rest ++ cs).map NTree.rootId := by simp
            rw [hmap]
            rw [ih (cur.set_redraw i false) (rest ++ cs)
              (already ++ [i]) _ (drawn ++ [i])
              (by
                intro m
                unfold LayoutState.set_redraw
                rw [lookupA_modifyA]
                by_cases hm : m = i
                · subst hm
                  rw [if_pos rfl, hcur m]
                  by_cases hi : m ∈ already <;> simp [hi, he0]
                · rw [if_neg hm, hcur m]
                  by_cases hi : m ∈ already <;>
                    simp [hi, List.mem_append, hm])
              htree
              (RepForest_append st rest cs hrep.2 hcs)
              (by rw [sizeF_append]; omega) n]
            have hclr : clearedT st (NTree.node i cs) = i :: clearedF st cs := by
              simp [clearedT, he0, e0area, hemp]
            have hiff : (n ∈ already ++ [i] ∨ n ∈ clearedF st (rest ++ cs)) ↔
                (n ∈ already ∨ n ∈ clearedF st (NTree.node i cs :: rest)) := by
              simp [clearedF, hclr, clearedF_append, List.mem_append]
              tauto
            by_cases hc : n ∈ already ++ [i] ∨ n ∈ clearedF st (rest ++ cs)
            · rw [if_pos hc, if_pos (hiff.mp hc)]
            · rw [if_neg hc, if_neg (fun h => hc (hiff.mpr h))]
        | none =>
          have e0area : e0.area_and_pos = none := by rw [← harea, ha]
          simp only []
          rw [hchild]
          have hmap : rest.map NTree.rootId ++ cs.map NTree.rootId =
              (rest ++ cs).map NTree.rootId := by simp
          rw [hmap]
          rw [ih (cur.set_redraw i false) (rest ++ cs)
            (already ++ [i]) refresh drawn
            (by
              intro m
              unfold LayoutState.set_redraw
              rw [lookupA_modifyA]
              by_cases hm : m = i
              · subst hm
                rw [if_pos rfl, hcur m]
                by_cases hi : m ∈ already <;> simp [hi, he0]
              · rw [if_neg hm, hcur m]
                by_cases hi : m ∈ already <;>
                  simp [hi, List.mem_append, hm])
            htree
            (RepForest_append st rest cs hrep.2 hcs)
            (by rw [sizeF_append]; omega) n]
          have hclr : clearedT st (NTree.node i cs) = i :: clearedF st cs := by
            simp [clearedT, he0, e0area]
          have hiff : (n ∈ already ++ [i] ∨ n ∈ clearedF st (rest ++ cs)) ↔
              (n ∈ already ∨ n ∈ clearedF st (NTree.node i cs :: rest)) := by
            simp [clearedF, hclr, clearedF_append, List.mem_append]
            tauto
          by_cases hc : n ∈ already ++ [i] ∨ n ∈ clearedF st (rest ++ cs)
          · rw [if_pos hc, if_pos (hiff.mp hc)]
          · rw [if_neg hc, if_neg (fun h => hc (hiff.mpr h))]

theorem handle_paint_loop_drawn {W : Type} (st : LayoutState W) :
    ∀ (fuel : Nat) (cur : LayoutState W) (queue : List Nat)
      (refresh : Option Rect) (drawn : List Nat),
    (∀ n, (lookupA cur.widgets n).map (fun e => e.area_and_pos) =
      (lookupA st.widgets n).map (fun e => e.area_and_pos)) →
    (∀ m ∈ drawn, GoodDrawn st m) →
    ∀ m ∈ (handle_paint_loop fuel cur queue refresh drawn).2.2,
      GoodDrawn st m := by
  intro fuel
  induction fuel with
  | zero => intro cur queue refresh drawn _ hdrawn m hm; exact hdrawn m hm
  | succ fuel ih =>
    intro cur queue refresh drawn harea hdrawn m
    cases queue with
    | nil => exact hdrawn m
    | cons id rest =>
      have hareaStep : ∀ (b : Bool) (n : Nat),
          (lookupA (cur.set_redraw id b).widgets n).map (fun e => e.area_and_pos) =
          (lookupA st.widgets n).map (fun e => e.area_and_pos) := by
        intro b n
        unfold LayoutState.set_redraw
        rw [lookupA_modifyA]
        by_cases hn : n = id
        · subst hn
          rw [if_pos rfl, ← harea n]
          cases lookupA cur.widgets n <;> simp
        · rw [if_neg hn]
          exact harea n
      rw [handle_paint_loop]
      cases hid : lookupA cur.widgets id with
      | none =>
        simp only []
        exact ih cur _ _ drawn harea hdrawn m
      | some element =>
        have hst : ∃ e', lookupA st.widgets id = some e' ∧
            e'.area_and_pos = element.area_and_pos := by
          have h := harea id
          rw [hid] at h
          cases hs : lookupA st.widgets id with
          | none => rw [hs] at h; simp at h
          | some e' =>
            rw [hs] at h
            simp at h
            exact ⟨e', rfl, h.symm⟩
        simp only []
        cases ha : element.area_and_pos with
        | none =>
          simp only []
          exact ih (cur.set_redraw id false) _ _ drawn (hareaStep false)
            hdrawn m
        | some ap =>
          obtain ⟨area, pos⟩ := ap
          simp only []
          cases hemp : area.is_empty with
          | true =>
            rw [if_pos rfl]
            exact ih cur _ _ drawn harea hdrawn m
          | false =>
            rw [if_neg Bool.false_ne_true]
            refine ih (cur.set_redraw id false) _ _ (drawn ++ [id])
              (hareaStep false) ?_ m
            intro m' hm'
            rcases List.mem_append.mp hm' with h | h
            · exact hdrawn m' h
            · obtain ⟨e', he', hae'⟩ := hst
              have hmid : m' = id := by simpa using h
              subst hmid
              exact ⟨e', area, pos, he', by rw [hae', ha], hemp⟩

/-- C3 (amended): after the paint phase, a node with an absent placement is
    skipped but still traversed and its dirty flag cleared, while a node
    with an *empty* placement rect short-circuits: it is not drawn, its
    dirty flag is NOT cleared, and its subtree is NOT walked. The cleared
    nodes are exactly `clearedT`, and every node whose draw callback ran has
    a present, non-empty placement. -/
theorem claim_C3 {W : Type} (st : LayoutState W) (t : NTree) (fuel : Nat)
    (hrep : RepTree st t) (hroot : t.rootId = ROOT_LAYOUT_ID)
    (hfuel : t.sizeT ≤ fuel) :
    (∀ n, lookupA (handle_paint fuel st).1.widgets n =
      if n ∈ clearedT st t then
        (lookupA st.widgets n).map (fun e => { e with redraw_request := false })
      else lookupA st.widgets n) ∧
    (∀ m ∈ (handle_paint fuel st).2.2, GoodDrawn st m) := by
  constructor
  · intro n
    have h := handle_paint_loop_clears st fuel st [t] [] none []
      (by intro m; simp) rfl (by simp [RepForest, hrep])
      (by simpa [NTree.sizeF] using hfuel) n
    rw [handle_paint, ← hroot]
    have hq : [t.rootId] = [t].map NTree.rootId := by simp
    rw [hq]
    rw [h]
    simp [clearedF]
  · intro m hm
    refine handle_paint_loop_drawn st fuel st [ROOT_LAYOUT_ID] none []
      (by intro n; rfl) (by simp) m hm

/-- witness for C3 at a concrete layout: the root's placement rect is empty
    (negative size), so its dirty flag survives the paint phase and its
    child is never walked. -/
theorem claim_C3_witness :
    lookupA (handle_paint 10 stC3).1.widgets 0 = lookupA stC3.widgets 0 ∧
    lookupA (handle_paint 10 stC3).1.widgets 1 = lookupA stC3.widgets 1 := by
  have hrep : RepTree stC3 (NTree.node 0 [NTree.node 1 []]) := by
    refine ⟨by decide, Or.inl (by decide), ?_, ⟨by decide, Or.inr ?_, ?_, ?_⟩, ?_⟩
    · intro c hc
      simp at hc
      subst hc
      decide
    · exact ⟨rfl, by decide⟩
    · intro c hc
      simp at hc
    · exact trivial
    · exact trivial
  have h := claim_C3 stC3 (NTree.node 0 [NTree.node 1 []]) 10 hrep rfl
    (by decide)
  constructor
  · have := h.1 0
    rw [this]
    norm_num [clearedT, clearedF, stC3, lookupA_cons, lookupA_nil, Rect.mk',
      Rect.is_empty, F.flt]
  · have := h.1 1
    rw [this]
    norm_num [clearedT, clearedF, stC3, lookupA_cons, lookupA_nil, Rect.mk',
      Rect.is_empty, F.flt]

/-- counterexample to C3 as stated: with a dirty root whose placement rect
    is empty, the paint phase leaves the root's `redraw_request` flag set —
    the subtree is not traversed and the flag is not cleared, so not every
    reachable node ends clean. -/
theorem claim_C3_counterexample :
    (handle_paint 10 stC3).1.widgets.any (fun p => p.2.redraw_request) = true := by
  decide


theorem rootId_mem_nodesT (t : NTree) : t.rootId ∈ NTree.nodesT t := by
  cases t with
  | node i cs => simp [NTree.rootId, NTree.nodesT]

theorem rootId_mem_nodesF (t : NTree) (ts : List NTree) (h : t ∈ ts) :
    t.rootId ∈ NTree.nodesF ts := by
  induction ts with
  | nil => simp at h
  | cons u ts ih =>
    rcases List.mem_cons.mp h with h | h
    · subst h
      simp [NTree.nodesF, rootId_mem_nodesT]
    · simp [NTree.nodesF, ih h]

theorem post_sub_nodes :
    ∀ k : Nat,
    (∀ t : NTree, NTree.sizeT t ≤ k →
      ∀ m ∈ NTree.postT t, m ∈ NTree.nodesT t) ∧
    (∀ ts : List NTree, NTree.sizeF ts ≤ k →
      ∀ m ∈ NTree.postF ts, m ∈ NTree.nodesF ts) := by
  intro k
  induction k with
  | zero =>
    constructor
    · intro t ht
      have := sizeT_pos t
      omega
    · intro ts hts m hm
      cases ts with
      | nil => simp [NTree.postF] at hm
      | cons t ts =>
        have := sizeT_pos t
        simp [NTree.sizeF] at hts
        omega
  | succ k ih =>
    have htree : ∀ t : NTree, NTree.sizeT t ≤ k + 1 →
        ∀ m ∈ NTree.postT t, m ∈ NTree.nodesT t := by
      intro t ht m hm
      cases t with
      | node i cs =>
        simp [NTree.postT] at hm
        simp [NTree.nodesT]
        rcases hm with hm | hm
        · right
          exact ih.2 cs (by simp [NTree.sizeT] at ht; omega) m hm
        · left; exact hm
    refine ⟨htree, ?_⟩
    intro ts hts m hm
    induction ts with
    | nil => simp [NTree.postF] at hm
    | cons t ts ihl =>
      simp [NTree.postF] at hm
      simp [NTree.nodesF]
      have h1 := sizeT_pos t
      rcases hm with hm | hm
      · exact Or.inl (htree t (by simp [NTree.sizeF] at hts; omega) m hm)
      · exact Or.inr (ihl (by simp [NTree.sizeF] at hts; omega) hm)

theorem mem_nodesT_of_postT {t : NTree} {m : Nat} (hm : m ∈ NTree.postT t) :
    m ∈ NTree.nodesT t :=
  (post_sub_nodes t.sizeT).1 t le_rfl m hm

theorem mem_nodesF_of_postF {ts : List NTree} {m : Nat}
    (hm : m ∈ NTree.postF ts) : m ∈ NTree.nodesF ts :=
  (post_sub_nodes (NTree.sizeF ts)).2 ts le_rfl m hm

theorem inner_sub_nodes :
    ∀ k : Nat,
    (∀ t : NTree, NTree.sizeT t ≤ k →
      ∀ m ∈ NTree.innerT t, m ∈ NTree.nodesT t) ∧
    (∀ ts : List NTree, NTree.sizeF ts ≤ k →
      ∀ m ∈ NTree.innerF ts, m ∈ NTree.nodesF ts) := by
  intro k
  induction k with
  | zero =>
    constructor
    · intro t ht
      have := sizeT_pos t
      omega
    · intro ts hts m hm
      cases ts with
      | nil => simp [NTree.innerF] at hm
      | cons t ts =>
        have := sizeT_pos t
        simp [NTree.sizeF] at hts
        omega
  | succ k ih =>
    have htree : ∀ t : NTree, NTree.sizeT t ≤ k + 1 →
        ∀ m ∈ NTree.innerT t, m ∈ NTree.nodesT t := by
      intro t ht m hm
      cases t with
      | node i cs =>
        simp [NTree.innerT] at hm
        simp [NTree.nodesT]
        rcases hm with ⟨-, hm⟩ | hm
        · left; exact hm
        · right
          exact ih.2 cs (by simp [NTree.sizeT] at ht; omega) m hm
    refine ⟨htree, ?_⟩
    intro ts hts m hm
    induction ts with
    | nil => simp [NTree.innerF] at hm
    | cons t ts ihl =>
      simp [NTree.innerF] at hm
      simp [NTree.nodesF]
      have h1 := sizeT_pos t
      rcases hm with hm | hm
      · exact Or.inl (htree t (by simp [NTree.sizeF] at hts; omega) m hm)
      · exact Or.inr (ihl (by simp [NTree.sizeF] at hts; omega) hm)

theorem mem_nodesT_of_innerT {t : NTree} {m : Nat} (hm : m ∈ NTree.innerT t) :
    m ∈ NTree.nodesT t :=
  (inner_sub_nodes t.sizeT).1 t le_rfl m hm

theorem mem_nodesF_of_innerF {ts : List NTree} {m : Nat}
    (hm : m ∈ NTree.innerF ts) : m ∈ NTree.nodesF ts :=
  (inner_sub_nodes (NTree.sizeF ts)).2 ts le_rfl m hm

theorem RepTree_ext_k {W : Type} (st st2 : LayoutState W) :
    ∀ k : Nat, ∀ t : NTree, NTree.sizeT t ≤ k →
      (∀ n ∈ NTree.nodesT t,
        lookupA st2.widgets n = lookupA st.widgets n ∧
        lookupA st2.tree n = lookupA st.tree n ∧
        lookupA st2.inverse_tree n = lookupA st.inverse_tree n) →
      RepTree st t → RepTree st2 t := by
  intro k
  induction k with
  | zero =>
    intro t ht
    have := sizeT_pos t
    omega
  | succ k ih =>
    intro t ht h hrep
    cases t with
    | node i cs =>
      obtain ⟨hw, htr, hic, hf⟩ := hrep
      have hi := h i (by simp [NTree.nodesT])
      refine ⟨?_, ?_, ?_, ?_⟩
      · simpa [containsA, hi.1] using hw
      · rw [hi.2.1]; exact htr
      · intro c hc
        have := h c.rootId (by
          simp [NTree.nodesT]
          exact Or.inr (rootId_mem_nodesF c cs hc))
        rw [this.2.2]
        exact hic c hc
      · have hforest : ∀ l : List NTree, NTree.sizeF l ≤ k →
            (∀ n ∈ NTree.nodesF l,
              lookupA st2.widgets n = lookupA st.widgets n ∧
              lookupA st2.tree n = lookupA st.tree n ∧
              lookupA st2.inverse_tree n = lookupA st.inverse_tree n) →
            RepForest st l → RepForest st2 l := by
          intro l
          induction l with
          | nil => intro _ _ _; trivial
          | cons c l ihl =>
            intro hsz hmem hrepf
            obtain ⟨h1, h2⟩ := hrepf
            have hc := sizeT_pos c
            refine ⟨ih c (by simp [NTree.sizeF] at hsz; omega)
              (fun n hn => hmem n (by simp [NTree.nodesF, hn])) h1,
              ihl (by simp [NTree.sizeF] at hsz; omega)
                (fun n hn => hmem n (by simp [NTree.nodesF, hn])) h2⟩
        exact hforest cs (by simp [NTree.sizeT] at ht; omega)
          (fun n hn => h n (by simp [NTree.nodesT, hn])) hf

theorem RepTree_ext {W : Type} (st st2 : LayoutState W) (t : NTree)
    (h : ∀ n ∈ NTree.nodesT t,
      lookupA st2.widgets n = lookupA st.widgets n ∧
      lookupA st2.tree n = lookupA st.tree n ∧
      lookupA st2.inverse_tree n = lookupA st.inverse_tree n)
    (hrep : RepTree st t) : RepTree st2 t :=
  RepTree_ext_k st st2 t.sizeT t le_rfl h hrep

theorem RepForest_ext {W : Type} (st st2 : LayoutState W) (ts : List NTree)
    (h : ∀ n ∈ NTree.nodesF ts,
      lookupA st2.widgets n = lookupA st.widgets n ∧
      lookupA st2.tree n = lookupA st.tree n ∧
      lookupA st2.inverse_tree n = lookupA st.inverse_tree n)
    (hrep : RepForest st ts) : RepForest st2 ts := by
  induction ts with
  | nil => trivial
  | cons t ts ih =>
    obtain ⟨h1, h2⟩ := hrep
    refine ⟨RepTree_ext st st2 t
      (fun n hn => h n (by simp [NTree.nodesF, hn])) h1, ?_⟩
    exact ih (fun n hn => h n (by simp [NTree.nodesF, hn])) h2

theorem filterMap_congr_mem {α β : Type} (f g : α → Option β) :
    ∀ l : List α, (∀ x ∈ l, f x = g x) → l.filterMap f = l.filterMap g := by
  intro l
  induction l with
  | nil => intro _; rfl
  | cons x l ih =>
    intro h
    have hx := h x (by simp)
    have hl := ih (fun y hy => h y (by simp [hy]))
    simp [List.filterMap_cons, hx, hl]

theorem remove_children_loop_spec {W : Type} (fuel : Nat)
    (htree : ∀ (st : LayoutState W) (t : NTree),
      RepTree st t → (NTree.nodesT t).Nodup →
      (∀ p, lookupA st.inverse_tree t.rootId = some p → p ∉ NTree.nodesT t) →
      NTree.sizeT t ≤ fuel → RemovedTreeSpec fuel st t) :
    ∀ (ts : List NTree) (st : LayoutState W) (q : Nat),
      RepForest st ts → (NTree.nodesF ts).Nodup →
      (∀ u ∈ ts, lookupA st.inverse_tree u.rootId = some q) →
      q ∉ NTree.nodesF ts →
      lookupA st.widgets q = none →
      (lookupA st.tree q = none ∨ lookupA st.tree q = some []) →
      NTree.sizeF ts ≤ fuel →
      RemovedForestSpec fuel st ts q := by
  intro ts
  induction ts with
  | nil =>
    intro st q _ _ _ _ _ _ _
    unfold RemovedForestSpec
    simp [remove_children_loop, NTree.postF, NTree.nodesF, NTree.innerF]
  | cons t1 ts2 ih =>
    intro st q hrep hnd hq hqn hqw hqt hfuel
    obtain ⟨hrt1, hrts⟩ := hrep
    have hnd' : (NTree.nodesT t1 ++ NTree.nodesF ts2).Nodup := by
      simpa [NTree.nodesF] using hnd
    rw [List.nodup_append] at hnd'
    obtain ⟨hnd1, hnd2, hdisj⟩ := hnd'
    have hq1 : lookupA st.inverse_tree t1.rootId = some q := hq t1 (by simp)
    have hqn1 : q ∉ NTree.nodesT t1 := fun h => hqn (by simp [NTree.nodesF, h])
    have hqn2 : q ∉ NTree.nodesF ts2 := fun h => hqn (by simp [NTree.nodesF, h])
    have hszp := sizeT_pos t1
    simp only [NTree.sizeF] at hfuel
    have h1 := htree st t1 hrt1 hnd1
      (fun p hp => by
        rw [hq1] at hp
        injection hp with hh
        rw [← hh]
        exact hqn1)
      (by omega)
    unfold RemovedTreeSpec at h1
    obtain ⟨hA1, hB1, hC1, hD1⟩ := h1
    have hkeep : ∀ n ∈ NTree.nodesF ts2,
        lookupA (remove_widget fuel st t1.rootId).1.widgets n =
          lookupA st.widgets n ∧
        lookupA (remove_widget fuel st t1.rootId).1.tree n =
          lookupA st.tree n ∧
        lookupA (remove_widget fuel st t1.rootId).1.inverse_tree n =
          lookupA st.inverse_tree n := by
      intro n hn
      have hn1 : n ∉ NTree.nodesT t1 := fun h => hdisj h hn
      have hnq : n ≠ q := fun h => hqn2 (h ▸ hn)
      have hcond : ¬ lookupA st.inverse_tree t1.rootId = some n := by
        intro hc
        rw [hq1] at hc
        injection hc with hh
        exact hnq hh.symm
      refine ⟨?_, ?_, ?_⟩
      · rw [hB1 n, if_neg hn1, if_neg hcond]
      · rw [hD1 n, if_neg (fun h => hn1 (mem_nodesT_of_innerT h)),
          if_neg hn1, if_neg hcond]
      · rw [hC1 n, if_neg hn1]
    have hrep2 : RepForest (remove_widget fuel st t1.rootId).1 ts2 :=
      RepForest_ext st (remove_widget fuel st t1.rootId).1 ts2 hkeep hrts
    have hq2 : ∀ u ∈ ts2,
        lookupA (remove_widget fuel st t1.rootId).1.inverse_tree u.rootId =
          some q := by
      intro u hu
      rw [(hkeep u.rootId (rootId_mem_nodesF u ts2 hu)).2.2]
      exact hq u (by simp [hu])
    have hqw2 : lookupA (remove_widget fuel st t1.rootId).1.widgets q = none := by
      rw [hB1 q, if_neg hqn1, if_pos hq1, hqw]
      rfl
    have hqt2 : lookupA (remove_widget fuel st t1.rootId).1.tree q = none ∨
        lookupA (remove_widget fuel st t1.rootId).1.tree q = some [] := by
      right
      rw [hD1 q, if_neg (fun h => hqn1 (mem_nodesT_of_innerT h)),
        if_neg hqn1, if_pos hq1]
      rcases hqt with h | h <;> simp [h]
    have h2 := ih (remove_widget fuel st t1.rootId).1 q hrep2 hnd2 hq2 hqn2
      hqw2 hqt2 (by omega)
    unfold RemovedForestSpec at h2
    obtain ⟨hA2, hB2, hC2, hD2⟩ := h2
    have hstep : remove_children_loop fuel st ((t1 :: ts2).map NTree.rootId) =
        ((remove_children_loop fuel (remove_widget fuel st t1.rootId).1
            (ts2.map NTree.rootId)).1,
          (remove_widget fuel st t1.rootId).2 ++
            (remove_children_loop fuel (remove_widget fuel st t1.rootId).1
              (ts2.map NTree.rootId)).2) := by
      simp [remove_children_loop]
    unfold RemovedForestSpec
    refine ⟨?_, ?_, ?_, ?_⟩
    · have hcongr := filterMap_congr_mem
        (fun j => (lookupA (remove_widget fuel st t1.rootId).1.widgets j).map
          (fun e => e.widget))
        (fun j => (lookupA st.widgets j).map (fun e => e.widget))
        (NTree.postF ts2)
        (fun j hj => by
          simp only [(hkeep j (mem_nodesF_of_postF hj)).1])
      simp only [hstep]
      rw [hA1, hA2, hcongr]
      simp [NTree.postF, List.filterMap_append]
    · intro n
      simp only [hstep]
      rw [hB2 n]
      by_cases h2m : n ∈ NTree.nodesF ts2
      · simp [h2m, NTree.nodesF]
      · rw [if_neg h2m, hB1 n]
        by_cases h1m : n ∈ NTree.nodesT t1
        · simp [h1m, NTree.nodesF]
        · rw [if_neg h1m,
            if_neg (show ¬ n ∈ NTree.nodesF (t1 :: ts2) by
              simp [NTree.nodesF, h1m, h2m])]
          by_cases hqm : lookupA st.inverse_tree t1.rootId = some n
          · have hnq : n = q := by
              rw [hq1] at hqm
              injection hqm with hh
              exact hh.symm
            subst hnq
            rw [if_pos hqm, hqw]
            rfl
          · rw [if_neg hqm]
    · intro n
      simp only [hstep]
      rw [hC2 n]
      by_cases h2m : n ∈ NTree.nodesF ts2
      · simp [h2m, NTree.nodesF]
      · rw [if_neg h2m, hC1 n]
        by_cases h1m : n ∈ NTree.nodesT t1
        · simp [h1m, NTree.nodesF]
        · rw [if_neg h1m,
            if_neg (show ¬ n ∈ NTree.nodesF (t1 :: ts2) by
              simp [NTree.nodesF, h1m, h2m])]
    · intro n
      simp only [hstep]
      rw [hD2 n]
      by_cases hi2 : n ∈ NTree.innerF ts2
      · rw [if_pos hi2,
          if_pos (show n ∈ NTree.innerF (t1 :: ts2) by
            simp [NTree.innerF, hi2])]
      · rw [if_neg hi2]
        by_cases h2m : n ∈ NTree.nodesF ts2
        · rw [if_pos h2m]
          have hni : ¬ n ∈ NTree.innerF (t1 :: ts2) := by
            simp only [NTree.innerF, List.mem_append]
            rintro (h | h)
            · exact hdisj (mem_nodesT_of_innerT h) h2m
            · exact hi2 h
          rw [if_neg hni,
            if_pos (show n ∈ NTree.nodesF (t1 :: ts2) by
              simp [NTree.nodesF, h2m])]
        · rw [if_neg h2m]
          by_cases hq3 : n = q ∧ (ts2 : List NTree).isEmpty = false
          · rw [if_pos hq3]
            obtain ⟨hq3a, -⟩ := hq3
            subst hq3a
            have hni : ¬ n ∈ NTree.innerF (t1 :: ts2) :=
              fun h => hqn (mem_nodesF_of_innerF h)
            rw [if_neg hni, if_neg hqn, if_pos ⟨rfl, by simp⟩]
          · rw [if_neg hq3, hD1 n]
            by_cases hi1 : n ∈ NTree.innerT t1
            · rw [if_pos hi1,
                if_pos (show n ∈ NTree.innerF (t1 :: ts2) by
                  simp [NTree.innerF, hi1])]
            · rw [if_neg hi1]
              by_cases h1m : n ∈ NTree.nodesT t1
              · rw [if_pos h1m]
                have hni : ¬ n ∈ NTree.innerF (t1 :: ts2) := by
                  simp only [NTree.innerF, List.mem_append]
                  rintro (h | h)
                  · exact hi1 h
                  · exact hi2 h
                rw [if_neg hni,
                  if_pos (show n ∈ NTree.nodesF (t1 :: ts2) by
                    simp [NTree.nodesF, h1m])]
              · rw [if_neg h1m]
                by_cases hq4 : lookupA st.inverse_tree t1.rootId = some n
                · have hnq : n = q := by
                    rw [hq1] at hq4
                    injection hq4 with hh
                    exact hh.symm
                  subst hnq
                  have hts2 : ts2 = [] := by
                    cases ts2 with
                    | nil => rfl
                    | cons a b => exact absurd ⟨rfl, by simp⟩ hq3
                  subst hts2
                  rw [if_pos hq4]
                  have hfe : ((lookupA st.tree n).getD []).filter
                      (fun y => y != t1.rootId) = [] := by
                    rcases hqt with h | h <;> simp [h]
                  rw [hfe]
                  have hni : ¬ n ∈ NTree.innerF (t1 :: ([] : List NTree)) :=
                    fun h => hqn (mem_nodesF_of_innerF h)
                  rw [if_neg hni, if_neg hqn, if_pos ⟨rfl, by simp⟩]
                · rw [if_neg hq4]
                  have hnq : n ≠ q := fun h => hq4 (by rw [h]; exact hq1)
                  have hni : ¬ n ∈ NTree.innerF (t1 :: ts2) := by
                    simp only [NTree.innerF, List.mem_append]
                    rintro (h | h)
                    · exact hi1 h
                    · exact hi2 h
                  have hnn : ¬ n ∈ NTree.nodesF (t1 :: ts2) := by
                    simp [NTree.nodesF, h1m, h2m]
                  rw [if_neg hni, if_neg hnn, if_neg (fun hcc => hnq hcc.1)]

theorem remove_widget_spec {W : Type} :
    ∀ (fuel : Nat) (st : LayoutState W) (t : NTree),
      RepTree st t → (NTree.nodesT t).Nodup →
      (∀ p, lookupA st.inverse_tree t.rootId = some p → p ∉ NTree.nodesT t) →
      NTree.sizeT t ≤ fuel → RemovedTreeSpec fuel st t := by
  intro fuel
  induction fuel with
  | zero =>
    intro st t _ _ _ hfuel
    have := sizeT_pos t
    omega
  | succ fuel ih =>
    intro st t hrep hnd hpar hfuel
    cases t with
    | node i cs =>
      obtain ⟨hw, htr, hic, hf⟩ := hrep
      obtain ⟨e0, he0⟩ := Option.isSome_iff_exists.mp
        (by simpa [containsA] using hw)
      have hnd' : (i :: NTree.nodesF cs).Nodup := by
        simpa [NTree.nodesT] using hnd
      rw [List.nodup_cons] at hnd'
      obtain ⟨hinot, hndf⟩ := hnd'
      simp only [NTree.sizeT] at hfuel
      simp only [NTree.rootId, NTree.nodesT] at hpar
      unfold RemovedTreeSpec
      simp only [NTree.rootId, NTree.postT, NTree.nodesT, NTree.innerT]
      rcases htr with htr | ⟨hcs, htr⟩
      · obtain ⟨st3, out, hloop⟩ : ∃ a b,
            remove_children_loop fuel
              { st with widgets := eraseA st.widgets i, tree := eraseA st.tree i }
              (List.map NTree.rootId cs) =
              (a, b) := ⟨_, _, rfl⟩
        have hfs := remove_children_loop_spec fuel ih cs
            { st with widgets := eraseA st.widgets i, tree := eraseA st.tree i }
            i
          (RepForest_ext st _ cs
            (fun n hn => by
              have hni : n ≠ i := fun h => hinot (h ▸ hn)
              refine ⟨?_, ?_, ?_⟩ <;> simp [lookupA_eraseA, hni])
            hf)
          hndf
          (fun u hu => by simpa using hic u hu)
          hinot
          (by simp [lookupA_eraseA])
          (Or.inl (by simp [lookupA_eraseA]))
          (by omega)
        unfold RemovedForestSpec at hfs
        simp only [hloop] at hfs
        obtain ⟨hA2, hB2, hC2, hD2⟩ := hfs
        have hinv3 : lookupA st3.inverse_tree i = lookupA st.inverse_tree i := by
          rw [hC2 i, if_neg hinot]
        have hcongr := filterMap_congr_mem
          (fun j => (lookupA ({ st with widgets := eraseA st.widgets i, tree := eraseA st.tree i } : LayoutState W).widgets j).map
            (fun e => e.widget))
          (fun j => (lookupA st.widgets j).map (fun e => e.widget))
          (NTree.postF cs)
          (fun j hj => by
            have hji : j ≠ i := fun h => hinot (h ▸ mem_nodesF_of_postF hj)
            simp [lookupA_eraseA, hji])
        obtain hI | ⟨p, hI⟩ : lookupA st.inverse_tree i = none ∨
            ∃ p, lookupA st.inverse_tree i = some p := by
          rcases hh : lookupA st.inverse_tree i with _ | p
          · exact Or.inl rfl
          · exact Or.inr ⟨p, rfl⟩
        · have hmain : remove_widget (fuel + 1) st i = (st3, out ++ [e0.widget]) := by
            simp only [remove_widget, he0, htr, hloop, hinv3, hI]
          refine ⟨?_, ?_, ?_, ?_⟩
          · simp only [hmain]
            rw [hA2, hcongr]
            simp [List.filterMap_append, he0]
          · intro n
            simp only [hmain]
            rw [hB2 n]
            by_cases hncs : n ∈ NTree.nodesF cs
            · simp [hncs]
            · rw [if_neg hncs]
              by_cases hni : n = i
              · subst hni
                simp [lookupA_eraseA]
              · have hmem : ¬ n ∈ i :: NTree.nodesF cs := by simp [hni, hncs]
                simp [lookupA_eraseA, hni, hmem, hI]
          · intro n
            simp only [hmain]
            rw [hC2 n]
            by_cases hncs : n ∈ NTree.nodesF cs
            · simp [hncs]
            · rw [if_neg hncs]
              by_cases hni : n = i
              · subst hni
                simp [hI]
              · simp [hni, hncs]
          · intro n
            simp only [hmain]
            rw [hD2 n]
            by_cases hic2 : n ∈ NTree.innerF cs
            · simp [hic2]
            · rw [if_neg hic2]
              by_cases hncs : n ∈ NTree.nodesF cs
              · have hni : n ≠ i := fun h => hinot (h ▸ hncs)
                simp [hncs, hic2, hni]
              · rw [if_neg hncs]
                by_cases hni2 : n = i ∧ cs.isEmpty = false
                · obtain ⟨hni, hne⟩ := hni2
                  subst hni
                  rw [if_pos ⟨rfl, hne⟩]
                  simp [hne]
                · rw [if_neg hni2]
                  by_cases hni : n = i
                  · subst hni
                    have hne : cs.isEmpty = true := by
                      by_contra hh
                      exact hni2 ⟨rfl, by simpa using hh⟩
                    simp [lookupA_eraseA, hne, hic2]
                  · have hmem : ¬ n ∈ i :: NTree.nodesF cs := by
                      simp [hni, hncs]
                    simp [lookupA_eraseA, hni, hncs, hic2, hmem, hI]
        · have hp2 := hpar p hI
          simp only [List.mem_cons, not_or] at hp2
          obtain ⟨hpi, hpcs⟩ := hp2
          have hpn : ∀ n : Nat, n ≠ p → ¬ (p = n) := fun n h hh => h hh.symm
          have hmain : remove_widget (fuel + 1) st i =
              (LayoutState.set_redraw
                { st3 with inverse_tree := eraseA st3.inverse_tree i, tree := entryModify st3.tree p (List.filter (fun x => x != i)) }
                p true,
                out ++ [e0.widget]) := by
            simp only [remove_widget, he0, htr, hloop, hinv3, hI]
          refine ⟨?_, ?_, ?_, ?_⟩
          · simp only [hmain]
            rw [hA2, hcongr]
            simp [List.filterMap_append, he0]
          · intro n
            simp only [hmain, LayoutState.set_redraw]
            rw [lookupA_modifyA]
            by_cases hnp : n = p
            · subst hnp
              rw [if_pos rfl, hB2 n, if_neg hpcs]
              simp [lookupA_eraseA, hpi, hpcs, hI]
            · rw [if_neg hnp, hB2 n]
              by_cases hncs : n ∈ NTree.nodesF cs
              · simp [hncs]
              · rw [if_neg hncs]
                by_cases hni : n = i
                · subst hni
                  simp [lookupA_eraseA]
                · have hmem : ¬ n ∈ i :: NTree.nodesF cs := by
                    simp [hni, hncs]
                  simp [lookupA_eraseA, hni, hmem, hI, hpn n hnp]
          · intro n
            simp only [hmain, LayoutState.set_redraw]
            rw [lookupA_eraseA]
            by_cases hni : n = i
            · simp [hni]
            · rw [if_neg hni, hC2 n]
              by_cases hncs : n ∈ NTree.nodesF cs
              · simp [hncs]
              · simp [hncs, hni]
          · intro n
            simp only [hmain, LayoutState.set_redraw]
            rw [lookupA_entryModify]
            by_cases hnp : n = p
            · subst hnp
              rw [if_pos rfl, hD2 n,
                if_neg (fun h => hpcs (mem_nodesF_of_innerF h)),
                if_neg hpcs, if_neg (fun hcc => hpi hcc.1)]
              have hpinner : ¬ n ∈ (if cs.isEmpty then ([] : List Nat)
                  else [i]) ++ NTree.innerF cs := by
                rw [List.mem_append]
                rintro (h | h)
                · by_cases he : cs.isEmpty <;> simp [he] at h
                  exact hpi h
                · exact hpcs (mem_nodesF_of_innerF h)
              have hpmem : ¬ n ∈ i :: NTree.nodesF cs := by
                simp [hpi, hpcs]
              rw [if_neg hpinner, if_neg hpmem, if_pos hI]
              simp [lookupA_eraseA, hpi]
            · rw [if_neg hnp, hD2 n]
              by_cases hic2 : n ∈ NTree.innerF cs
              · simp [hic2]
              · rw [if_neg hic2]
                by_cases hncs : n ∈ NTree.nodesF cs
                · have hni : n ≠ i := fun h => hinot (h ▸ hncs)
                  simp [hncs, hic2, hni]
                · rw [if_neg hncs]
                  by_cases hni2 : n = i ∧ cs.isEmpty = false
                  · obtain ⟨hni, hne⟩ := hni2
                    subst hni
                    rw [if_pos ⟨rfl, hne⟩]
                    simp [hne]
                  · rw [if_neg hni2]
                    by_cases hni : n = i
                    · subst hni
                      have hne : cs.isEmpty = true := by
                        by_contra hh
                        exact hni2 ⟨rfl, by simpa using hh⟩
                      simp [lookupA_eraseA, hne, hic2]
                    · have hmem : ¬ n ∈ i :: NTree.nodesF cs := by
                        simp [hni, hncs]
                      simp [lookupA_eraseA, hni, hncs, hic2, hmem, hI,
                        hpn n hnp]
      · subst hcs
        obtain hI | ⟨p, hI⟩ : lookupA st.inverse_tree i = none ∨
            ∃ p, lookupA st.inverse_tree i = some p := by
          rcases hh : lookupA st.inverse_tree i with _ | p
          · exact Or.inl rfl
          · exact Or.inr ⟨p, rfl⟩
        · have hmain : remove_widget (fuel + 1) st i =
              ({ st with widgets := eraseA st.widgets i }, [e0.widget]) := by
            simp only [remove_widget, he0, htr, hI, List.nil_append]
          refine ⟨?_, ?_, ?_, ?_⟩
          · simp only [hmain]
            simp [NTree.postF, he0]
          · intro n
            simp only [hmain]
            by_cases hni : n = i
            · subst hni
              simp [lookupA_eraseA]
            · simp [lookupA_eraseA, hni, NTree.nodesF, hI]
          · intro n
            simp only [hmain]
            by_cases hni : n = i
            · subst hni
              simp [NTree.nodesF, hI]
            · simp [hni, NTree.nodesF]
          · intro n
            simp only [hmain]
            by_cases hni : n = i
            · subst hni
              simp [NTree.nodesF, NTree.innerF, htr]
            · simp [hni, NTree.nodesF, NTree.innerF, hI]
        · have hp2 := hpar p hI
          simp only [List.mem_cons, not_or] at hp2
          obtain ⟨hpi, hpcs⟩ := hp2
          have hpn : ∀ n : Nat, n ≠ p → ¬ (p = n) := fun n h hh => h hh.symm
          have hmain : remove_widget (fuel + 1) st i =
              (LayoutState.set_redraw
                { st with widgets := eraseA st.widgets i, inverse_tree := eraseA st.inverse_tree i, tree := entryModify st.tree p (List.filter (fun x => x != i)) }
                p true,
                [e0.widget]) := by
            simp only [remove_widget, he0, htr, hI, List.nil_append]
          refine ⟨?_, ?_, ?_, ?_⟩
          · simp only [hmain]
            simp [NTree.postF, he0]
          · intro n
            simp only [hmain, LayoutState.set_redraw]
            rw [lookupA_modifyA]
            by_cases hnp : n = p
            · subst hnp
              rw [if_pos rfl]
              simp [lookupA_eraseA, hpi, NTree.nodesF, hI]
            · rw [if_neg hnp]
              by_cases hni : n = i
              · subst hni
                simp [lookupA_eraseA]
              · simp [lookupA_eraseA, hni, NTree.nodesF, hI, hpn n hnp]
          · intro n
            simp only [hmain, LayoutState.set_redraw]
            rw [lookupA_eraseA]
            by_cases hni : n = i
            · simp [hni]
            · simp [hni, NTree.nodesF]
          · intro n
            simp only [hmain, LayoutState.set_redraw]
            rw [lookupA_entryModify]
            by_cases hnp : n = p
            · subst hnp
              have hpmem : ¬ n ∈ i :: NTree.nodesF ([] : List NTree) := by
                simp [NTree.nodesF, hpi]
              rw [if_neg (by simp [NTree.innerF] : ¬ n ∈ (if
                  (List.isEmpty ([] : List NTree)) then ([] : List Nat)
                  else [i]) ++ NTree.innerF ([] : List NTree)),
                if_neg hpmem, if_pos hI, if_pos rfl]
            · rw [if_neg hnp]
              by_cases hni : n = i
              · subst hni
                simp [NTree.nodesF, NTree.innerF, htr]
              · simp [hni, NTree.nodesF, NTree.innerF, hI, hpn n hnp]

/-- C4 (amended): `remove_widget(x)` on an id present in the layout returns
    exactly the widgets of the subtree rooted at x, each exactly once, in
    post-order (children before their parent); it erases the widget record
    and parent-map entry of every removed node and marks x's parent dirty;
    but the children-list map is NOT left clean: every removed node that
    had children keeps a dangling, recreated empty children-list entry
    (the parent's own list does lose x); on an unknown id it is a no-op
    returning the empty vector. -/
theorem claim_C4 {W : Type} (st : LayoutState W) (t : NTree) (fuel : Nat)
    (hrep : RepTree st t) (hnd : (NTree.nodesT t).Nodup)
    (hpar : ∀ p, lookupA st.inverse_tree t.rootId = some p → p ∉ NTree.nodesT t)
    (hfuel : NTree.sizeT t ≤ fuel) :
    ((remove_widget fuel st t.rootId).2 =
      (NTree.postT t).filterMap
        (fun j => (lookupA st.widgets j).map (fun e => e.widget))) ∧
    (∀ n, lookupA (remove_widget fuel st t.rootId).1.widgets n =
      if n ∈ NTree.nodesT t then none
      else if lookupA st.inverse_tree t.rootId = some n then
        (lookupA st.widgets n).map (fun e => { e with redraw_request := true })
      else lookupA st.widgets n) ∧
    (∀ n, lookupA (remove_widget fuel st t.rootId).1.inverse_tree n =
      if n ∈ NTree.nodesT t then none else lookupA st.inverse_tree n) ∧
    (∀ n, lookupA (remove_widget fuel st t.rootId).1.tree n =
      if n ∈ NTree.innerT t then some []
      else if n ∈ NTree.nodesT t then none
      else if lookupA st.inverse_tree t.rootId = some n then
        some (((lookupA st.tree n).getD []).filter (fun y => y != t.rootId))
      else lookupA st.tree n) ∧
    (∀ id2 g, lookupA st.widgets id2 = none →
      remove_widget (g + 1) st id2 = (st, [])) := by
  have h := remove_widget_spec fuel st t hrep hnd hpar hfuel
  unfold RemovedTreeSpec at h
  refine ⟨h.1, h.2.1, h.2.2.1, h.2.2.2, ?_⟩
  intro id2 g hid2
  simp only [remove_widget, hid2]

/-- witness for C4 on the chain 0 → 1 → 2, removing the subtree rooted
    at 1: both widgets come back child-first, all removed records are gone,
    and an unknown id is a no-op. -/
theorem claim_C4_witness :
    (remove_widget 2 stC4 1).2 = [(), ()] ∧
    lookupA (remove_widget 2 stC4 1).1.widgets 1 = none ∧
    lookupA (remove_widget 2 stC4 1).1.widgets 2 = none ∧
    lookupA (remove_widget 2 stC4 1).1.inverse_tree 2 = none ∧
    lookupA (remove_widget 2 stC4 1).1.tree 2 = none ∧
    remove_widget 1 stC4 7 = (stC4, []) := by
  have hrep : RepTree stC4 (NTree.node 1 [NTree.node 2 []]) := by
    refine ⟨by decide, Or.inl (by decide), ?_,
      ⟨by decide, Or.inr ⟨rfl, by decide⟩, ?_, ?_⟩, ?_⟩
    · intro c hc
      simp at hc
      subst hc
      decide
    · intro c hc
      simp at hc
    · exact trivial
    · exact trivial
  have hpar : ∀ p, lookupA stC4.inverse_tree
      (NTree.node 1 [NTree.node 2 []]).rootId = some p →
      p ∉ NTree.nodesT (NTree.node 1 [NTree.node 2 []]) := by
    intro p hp
    have h0 : lookupA stC4.inverse_tree
        (NTree.node 1 [NTree.node 2 []]).rootId = some 0 := by decide
    rw [h0] at hp
    injection hp with hh
    subst hh
    decide
  have h := claim_C4 stC4 (NTree.node 1 [NTree.node 2 []]) 2 hrep (by decide)
    hpar (by decide)
  obtain ⟨hA, hB, hC, hD, hE⟩ := h
  simp only [NTree.rootId] at hA hB hC hD
  refine ⟨?_, ?_, ?_, ?_, ?_, ?_⟩
  · rw [hA]
    decide
  · rw [hB 1]
    rfl
  · rw [hB 2]
    rfl
  · rw [hC 2]
    decide
  · rw [hD 2]
    decide
  · exact hE 7 0 (by rfl)

/-- counterexample to C4 as stated: after `remove_widget(1)` on the chain
    0 → 1 → 2, the children-list map still holds an entry for the removed
    node 1 (recreated empty by `tree.entry(parent_id).or_default()` while
    removing 1's child 2), so adjacency entries of removed nodes dangle. -/
theorem claim_C4_counterexample :
    lookupA (remove_widget 2 stC4 1).1.tree 1 = some [] := by
  have hrep : RepTree stC4 (NTree.node 1 [NTree.node 2 []]) := by
    refine ⟨by decide, Or.inl (by decide), ?_,
      ⟨by decide, Or.inr ⟨rfl, by decide⟩, ?_, ?_⟩, ?_⟩
    · intro c hc
      simp at hc
      subst hc
      decide
    · intro c hc
      simp at hc
    · exact trivial
    · exact trivial
  have hpar : ∀ p, lookupA stC4.inverse_tree
      (NTree.node 1 [NTree.node 2 []]).rootId = some p →
      p ∉ NTree.nodesT (NTree.node 1 [NTree.node 2 []]) := by
    intro p hp
    have h0 : lookupA stC4.inverse_tree
        (NTree.node 1 [NTree.node 2 []]).rootId = some 0 := by decide
    rw [h0] at hp
    injection hp with hh
    subst hh
    decide
  have h := remove_widget_spec 2 stC4 (NTree.node 1 [NTree.node 2 []]) hrep
    (by decide) hpar (by decide)
  unfold RemovedTreeSpec at h
  have hD := h.2.2.2
  simp only [NTree.rootId] at hD
  rw [hD 1]
  decide

theorem AllClean_of_not_dirty {W : Type} (st : LayoutState W)
    (h : any_widget_dirty st = false) : AllClean st := by
  intro p hp
  unfold any_widget_dirty at h
  rw [List.any_eq_false] at h
  simpa using h p hp

theorem AllClean_set_area {W : Type} (st : LayoutState W) (id : Nat)
    (a : Option (Rect × Vec2)) (h : AllClean st) : AllClean (st.set_area id a) := by
  intro p hp
  unfold LayoutState.set_area modifyA at hp
  rcases List.mem_map.mp hp with ⟨q, hq, rfl⟩
  by_cases hb : (q.1 == id) = true
  · rw [if_pos hb]
    exact h q hq
  · rw [if_neg hb]
    exact h q hq

theorem AllClean_set_redraw_false {W : Type} (st : LayoutState W) (id : Nat)
    (h : AllClean st) : AllClean (st.set_redraw id false) := by
  intro p hp
  unfold LayoutState.set_redraw modifyA at hp
  rcases List.mem_map.mp hp with ⟨q, hq, rfl⟩
  by_cases hb : (q.1 == id) = true
  · rw [if_pos hb]
  · rw [if_neg hb]
    exact h q hq

theorem sweep_hidden_clean {W : Type} :
    ∀ (fuel : Nat) (st : LayoutState W) (cset : List Nat),
    AllClean st → AllClean (sweep_hidden fuel st cset) := by
  intro fuel
  induction fuel with
  | zero => intro st cset h; simpa [sweep_hidden] using h
  | succ fuel ih =>
    intro st cset h
    cases cset with
    | nil => simpa [sweep_hidden] using h
    | cons id rest =>
      simp only [sweep_hidden]
      exact ih _ _ (AllClean_set_area st id none h)

theorem sperate_dirty_widgets_clean {W : Type} (fuel : Nat)
    (st : LayoutState W) (h : AllClean st) :
    sperate_dirty_widgets fuel st = st := by
  unfold sperate_dirty_widgets
  have hseed : ∀ l : List (Nat × LayoutElement W),
      (∀ p ∈ l, p.2.redraw_request = false) →
      l.filterMap (fun p => if p.2.redraw_request then some p.2.id
        else none) = [] := by
    intro l
    induction l with
    | nil => intro _; rfl
    | cons p l ih =>
      intro hl
      rw [List.filterMap_cons]
      have hp := hl p (by simp)
      simp only [hp, Bool.false_eq_true, if_false]
      exact ih (fun q hq => hl q (by simp [hq]))
  rw [hseed st.widgets h]
  cases fuel <;> rfl

theorem reanrrage_children_clean {W : Type} (ops : WidgetOps W) (fuel : Nat)
    (hw : ∀ (st : LayoutState W) (pw : Rect) (pp : Vec2) (lid : Nat)
        (wtr : List Nat),
      AllClean st →
      AllClean (reanrrage_widgets ops fuel st pw pp lid wtr).1 ∧
      (reanrrage_widgets ops fuel st pw pp lid wtr).2 = wtr) :
    ∀ (entries : List (Nat × Option Rect)) (st : LayoutState W) (pw : Rect)
      (pp : Vec2) (wtr cset : List Nat),
      AllClean st → (∀ e ∈ entries, e.2 ≠ none) →
      AllClean (reanrrage_children ops fuel st pw pp wtr cset entries).1 ∧
      (reanrrage_children ops fuel st pw pp wtr cset entries).2.1 = wtr := by
  intro entries
  induction entries with
  | nil =>
    intro st pw pp wtr cset h _
    exact ⟨by simpa [reanrrage_children] using h, by simp [reanrrage_children]⟩
  | cons e rest ih =>
    intro st pw pp wtr cset h hne
    obtain ⟨cid, entry⟩ := e
    cases entry with
    | none => exact absurd rfl (hne (cid, none) (by simp))
    | some cw =>
      simp only [reanrrage_children]
      by_cases hc : containsA st.widgets cid
      · simp only [hc, if_true]
        obtain ⟨hres1, hres2⟩ := hw
          ((st.set_area cid (some ((cw.move_by pp).intersection pw,
            pp.add cw.lt))))
          ((cw.move_by pp).intersection pw) (pp.add cw.lt) cid wtr
          (AllClean_set_area st cid _ h)
        obtain ⟨hih1, hih2⟩ := ih
          (reanrrage_widgets ops fuel
            (st.set_area cid (some ((cw.move_by pp).intersection pw,
              pp.add cw.lt)))
            ((cw.move_by pp).intersection pw) (pp.add cw.lt) cid wtr).1
          pw pp
          (reanrrage_widgets ops fuel
            (st.set_area cid (some ((cw.move_by pp).intersection pw,
              pp.add cw.lt)))
            ((cw.move_by pp).intersection pw) (pp.add cw.lt) cid wtr).2
          (cset.filter (fun x => x ≠ cid)) hres1
          (fun e he => hne e (by simp [he]))
        exact ⟨hih1, hih2.trans hres2⟩
      · simp only [hc, Bool.false_eq_true, if_false]
        exact ih st pw pp wtr cset h (fun e he => hne e (by simp [he]))

theorem reanrrage_widgets_clean {W : Type} (ops : WidgetOps W)
    (hresp : ∀ w sizes rect lid e,
      e ∈ ops.handle_child_layout w sizes rect lid → e.2 ≠ none) :
    ∀ (fuel : Nat) (st : LayoutState W) (pw : Rect) (pp : Vec2) (lid : Nat)
      (wtr : List Nat),
      AllClean st →
      AllClean (reanrrage_widgets ops fuel st pw pp lid wtr).1 ∧
      (reanrrage_widgets ops fuel st pw pp lid wtr).2 = wtr := by
  intro fuel
  induction fuel with
  | zero =>
    intro st pw pp lid wtr h
    exact ⟨by simpa [reanrrage_widgets] using h, by simp [reanrrage_widgets]⟩
  | succ fuel ih =>
    intro st pw pp lid wtr h
    rw [reanrrage_widgets]
    cases hT : lookupA st.tree lid with
    | none => exact ⟨h, rfl⟩
    | some children =>
      simp only []
      cases hW : lookupA st.widgets lid with
      | none => exact ⟨h, rfl⟩
      | some parent =>
        simp only []
        cases hA : parent.area_and_pos with
        | none => exact ⟨h, rfl⟩
        | some rp =>
          obtain ⟨rect, rpos⟩ := rp
          simp only []
          obtain ⟨hcl1, hcl2⟩ := reanrrage_children_clean ops fuel ih
            ((ops.handle_child_layout parent.widget
              (children.filterMap (fun cid => (lookupA st.widgets cid).map
                (fun c => (cid, ops.size cid c.widget)))) rect lid).filter
              (fun p => p.1 != lid))
            st
            (match lookupA (ops.handle_child_layout parent.widget
                (children.filterMap (fun cid => (lookupA st.widgets cid).map
                  (fun c => (cid, ops.size cid c.widget)))) rect lid) lid with
              | some (some r) => r.move_by pp
              | _ => pw)
            pp wtr (children.foldl insertAbsent []) h
            (fun e he => hresp parent.widget _ rect lid e
              (List.mem_of_mem_filter he))
          refine ⟨sweep_hidden_clean fuel _ _ hcl1, hcl2⟩

theorem handle_paint_loop_none {W : Type} :
    ∀ (fuel : Nat) (st : LayoutState W) (queue drawn : List Nat),
    AllClean st →
    (handle_paint_loop fuel st queue none drawn).2.1 = none := by
  intro fuel
  induction fuel with
  | zero => intro st queue drawn _; rfl
  | succ fuel ih =>
    intro st queue drawn h
    cases queue with
    | nil => rfl
    | cons id rest =>
      rw [handle_paint_loop]
      cases hid : lookupA st.widgets id with
      | none =>
        simp only []
        exact ih st _ drawn h
      | some element =>
        have hflag : element.redraw_request = false :=
          h (id, element) (mem_of_lookupA hid)
        simp only []
        cases ha : element.area_and_pos with
        | none =>
          simp only []
          exact ih (st.set_redraw id false) _ drawn
            (AllClean_set_redraw_false st id h)
        | some ap =>
          obtain ⟨area, pos⟩ := ap
          simp only [hflag, Bool.false_eq_true, if_false]
          cases hemp : area.is_empty with
          | true =>
            rw [if_pos rfl]
            exact ih st _ drawn h
          | false =>
            rw [if_neg Bool.false_ne_true]
            exact ih (st.set_redraw id false) _ _
              (AllClean_set_redraw_false st id h)

/-- C8 (amended): a frame that starts with no dirty widget AND whose
    child-layout responses drop no child (no `None` placement entries, so
    no mid-frame removal re-dirties a parent) makes `handle_draw` return
    `None`, and then the (non-`force_redraw_per_frame`) caller returns
    before producing any GPU command. -/
theorem claim_C8 {W : Type} (ops : WidgetOps W) (st : LayoutState W)
    (fuel : Nat) (ws : Vec2)
    (hclean : any_widget_dirty st = false)
    (hresp : ∀ w sizes rect lid e,
      e ∈ ops.handle_child_layout w sizes rect lid → e.2 ≠ none) :
    (handle_draw ops fuel st ws).2.1 = none ∧
    manager_refresh_area false (handle_draw ops fuel st ws).2.1 = none := by
  have h := AllClean_of_not_dirty st hclean
  have hmain : (handle_draw ops fuel st ws).2.1 = none := by
    unfold handle_draw
    rw [sperate_dirty_widgets_clean fuel st h]
    simp only []
    obtain ⟨hr1, hr2⟩ := reanrrage_widgets_clean ops hresp fuel st
      (Rect.from_size ws) Vec2.ZERO ROOT_LAYOUT_ID [] h
    rw [hr2]
    simp only [List.foldl_nil]
    unfold handle_paint
    exact handle_paint_loop_none fuel _ _ [] hr1
  rw [hmain]
  exact ⟨rfl, rfl⟩

/-- witness for C8: a clean single-widget layout with empty child-layout
    responses paints nothing and the manager skips the render pass. -/
theorem claim_C8_witness :
    (handle_draw opsC8b 3 stC8b Vec2.ZERO).2.1 = none ∧
    manager_refresh_area false (handle_draw opsC8b 3 stC8b Vec2.ZERO).2.1 =
      none := by
  have h := claim_C8 opsC8b stC8b 3 Vec2.ZERO (by decide)
    (by
      intro w sizes rect lid e he
      simp [opsC8b] at he)
  exact h

/-- counterexample to C8 as stated: an all-clean two-node layout whose
    parent's child-layout response drops child 1; `handle_draw` removes the
    child mid-frame, `remove_widget` re-dirties the parent, and the paint
    phase returns `Some`, not `None`. -/
theorem claim_C8_counterexample :
    any_widget_dirty stC8 = false ∧
    (handle_draw opsC8 4 stC8 Vec2.ZERO).2.1 = some Rect.WINDOW := by
  constructor
  · decide
  · simp [handle_draw, sperate_dirty_widgets, sperate_loop, stC8, opsC8,
      reanrrage_widgets, reanrrage_children, sweep_hidden, insertAbsent,
      remove_widget, remove_children_loop, handle_paint, handle_paint_loop,
      lookupA, containsA, eraseA, modifyA, insertA, entryModify,
      LayoutState.set_redraw, LayoutState.set_area, ROOT_LAYOUT_ID,
      Rect.is_empty, Rect.WINDOW, F.flt, List.find?, List.filter]

theorem fmax_fin (a b : ℚ) : F.fmax (.fin a) (.fin b) = .fin (max a b) := by
  unfold F.fmax F.fle F.flt F.beq F.isNaN
  by_cases h : a < b
  · simp [h, max_eq_right h.le]
  · by_cases he : a = b
    · simp [he]
    · have hb : b ≤ a := not_lt.mp h
      simp [h, he, max_eq_left hb]

theorem fmin_fin (a b : ℚ) : F.fmin (.fin a) (.fin b) = .fin (min a b) := by
  unfold F.fmin F.fle F.flt F.beq F.isNaN
  by_cases h : a < b
  · simp [h, min_eq_left h.le]
  · by_cases he : a = b
    · simp [he]
    · have hb : b ≤ a := not_lt.mp h
      simp [h, he, min_eq_right hb]

theorem fadd_fin (a b : ℚ) : F.add (.fin a) (.fin b) = .fin (a + b) := rfl

theorem fsub_fin (a b : ℚ) : F.sub (.fin a) (.fin b) = .fin (a - b) := by
  simp [F.sub, F.neg, F.add, sub_eq_add_neg]

theorem fbeq_fin (a b : ℚ) : F.beq (.fin a) (.fin b) = (a == b) := rfl

theorem fmin_fin_posInf (a : ℚ) : F.fmin (.fin a) .posInf = .fin a := by
  simp [F.fmin, F.isNaN, F.fle, F.flt]

theorem fadd_fin_posInf (a : ℚ) : F.add (.fin a) .posInf = .posInf := rfl

theorem isFiniteRect_fin (x y w h : ℚ) :
    Rect.isFiniteRect ⟨.fin x, .fin y, .fin w, .fin h⟩ = true := rfl

theorem isFiniteRect_elim {r : Rect} (h : r.isFiniteRect = true) :
    ∃ x y w h2 : ℚ, r = ⟨.fin x, .fin y, .fin w, .fin h2⟩ := by
  obtain ⟨rx, ry, rw2, rh⟩ := r
  cases rx <;> cases ry <;> cases rw2 <;> cases rh <;>
    simp [Rect.isFiniteRect, F.isFinite] at h ⊢

theorem isFiniteV_elim {v : Vec2} (h : Vec2.isFiniteV v = true) :
    ∃ x y : ℚ, v = ⟨.fin x, .fin y⟩ := by
  obtain ⟨vx, vy⟩ := v
  cases vx <;> cases vy <;> simp [Vec2.isFiniteV, F.isFinite] at h ⊢

theorem inter_fin (ax ay aw ah bx bh2 bw bh : ℚ) :
    Rect.intersection ⟨.fin ax, .fin ay, .fin aw, .fin ah⟩
      ⟨.fin bx, .fin bh2, .fin bw, .fin bh⟩ =
    ⟨.fin (max ax bx), .fin (max ay bh2),
     .fin (min (ax + aw) (bx + bw) - max ax bx),
     .fin (min (ay + ah) (bh2 + bh) - max ay bh2)⟩ := by
  simp [Rect.intersection, fmax_fin, fmin_fin, fadd_fin, fsub_fin]

theorem inter_finite {a b : Rect} (ha : a.isFiniteRect = true)
    (hb : b.isFiniteRect = true) :
    (a.intersection b).isFiniteRect = true := by
  obtain ⟨ax, ay, aw, ah, rfl⟩ := isFiniteRect_elim ha
  obtain ⟨bx, by2, bw, bh, rfl⟩ := isFiniteRect_elim hb
  rw [inter_fin]
  exact isFiniteRect_fin _ _ _ _

theorem move_by_finite {r : Rect} {v : Vec2} (hr : r.isFiniteRect = true)
    (hv : Vec2.isFiniteV v = true) :
    (r.move_by v).isFiniteRect = true := by
  obtain ⟨x, y, w, h, rfl⟩ := isFiniteRect_elim hr
  obtain ⟨vx, vy, rfl⟩ := isFiniteV_elim hv
  simp [Rect.move_by, fadd_fin, Rect.isFiniteRect, F.isFinite]

theorem inter_absorb {a b : Rect} (ha : a.isFiniteRect = true)
    (hb : b.isFiniteRect = true) :
    ((a.intersection b).intersection b).beq (a.intersection b) = true := by
  obtain ⟨ax, ay, aw, ah, rfl⟩ := isFiniteRect_elim ha
  obtain ⟨bx, by2, bw, bh, rfl⟩ := isFiniteRect_elim hb
  rw [inter_fin, inter_fin]
  have hx : max (max ax bx) bx = max ax bx := by
    rw [max_assoc, max_self]
  have hy : max (max ay by2) by2 = max ay by2 := by
    rw [max_assoc, max_self]
  have hwx : max ax bx + (min (ax + aw) (bx + bw) - max ax bx) =
      min (ax + aw) (bx + bw) := by ring
  have hwy : max ay by2 + (min (ay + ah) (by2 + bh) - max ay by2) =
      min (ay + ah) (by2 + bh) := by ring
  rw [hwx, hwy, hx, hy]
  have hminx : min (min (ax + aw) (bx + bw)) (bx + bw) =
      min (ax + aw) (bx + bw) := by
    rw [min_assoc, min_self]
  have hminy : min (min (ay + ah) (by2 + bh)) (by2 + bh) =
      min (ay + ah) (by2 + bh) := by
    rw [min_assoc, min_self]
  rw [hminx, hminy]
  simp [Rect.beq, fbeq_fin]

theorem inter_window_of_nonneg {a : Rect} (ha : a.isFiniteRect = true)
    (hx : ∃ q : ℚ, a.x = .fin q ∧ 0 ≤ q) (hy : ∃ q : ℚ, a.y = .fin q ∧ 0 ≤ q) :
    (a.intersection Rect.WINDOW).beq a = true := by
  obtain ⟨ax, ay, aw, ah, rfl⟩ := isFiniteRect_elim ha
  obtain ⟨qx, hqx, hqx0⟩ := hx
  obtain ⟨qy, hqy, hqy0⟩ := hy
  simp only [] at hqx hqy
  injection hqx with hqx
  injection hqy with hqy
  have hax0 : 0 ≤ ax := by rw [hqx]; exact hqx0
  have hay0 : 0 ≤ ay := by rw [hqy]; exact hqy0
  show Rect.beq (Rect.intersection _ _) _ = true
  rw [show Rect.intersection ⟨.fin ax, .fin ay, .fin aw, .fin ah⟩ Rect.WINDOW =
      ⟨.fin (max ax 0), .fin (max ay 0),
       .fin (ax + aw - max ax 0), .fin (ay + ah - max ay 0)⟩ by
    simp [Rect.intersection, Rect.WINDOW, fmax_fin, fadd_fin,
      fadd_fin_posInf, fmin_fin_posInf, fsub_fin]]
  rw [max_eq_left hax0, max_eq_left hay0]
  simp [Rect.beq, fbeq_fin]

theorem inter_from_size_window {x : Rect} {ws : Vec2}
    (hx : x.isFiniteRect = true) (hws : Vec2.isFiniteV ws = true) :
    ((x.intersection (Rect.from_size ws)).intersection Rect.WINDOW).beq
      (x.intersection (Rect.from_size ws)) = true := by
  obtain ⟨ax, ay, aw, ah, rfl⟩ := isFiniteRect_elim hx
  obtain ⟨wx, wy, rfl⟩ := isFiniteV_elim hws
  rw [show Rect.from_size ⟨.fin wx, .fin wy⟩ =
      ⟨.fin 0, .fin 0, .fin wx, .fin wy⟩ from rfl, inter_fin]
  refine inter_window_of_nonneg (isFiniteRect_fin _ _ _ _) ⟨_, rfl, ?_⟩
    ⟨_, rfl, ?_⟩
  · exact le_max_right ax 0
  · exact le_max_right ay 0

theorem RepTree_fields {W : Type} (st st2 : LayoutState W)
    (ht : st2.tree = st.tree) (hi : st2.inverse_tree = st.inverse_tree)
    (hc : ∀ n, containsA st2.widgets n = containsA st.widgets n) :
    ∀ k : Nat, ∀ t : NTree, NTree.sizeT t ≤ k → RepTree st t → RepTree st2 t := by
  intro k
  induction k with
  | zero =>
    intro t hk
    have := sizeT_pos t
    omega
  | succ k ih =>
    intro t hk hrep
    cases t with
    | node i cs =>
      obtain ⟨hw, htr, hic, hf⟩ := hrep
      refine ⟨by rw [hc i]; exact hw, by rw [ht]; exact htr,
        fun c hcm => by rw [hi]; exact hic c hcm, ?_⟩
      have hforest : ∀ l : List NTree, NTree.sizeF l ≤ k →
          RepForest st l → RepForest st2 l := by
        intro l
        induction l with
        | nil => intro _ _; trivial
        | cons c l ihl =>
          intro hsz hrepf
          obtain ⟨h1, h2⟩ := hrepf
          have hcp := sizeT_pos c
          exact ⟨ih c (by simp [NTree.sizeF] at hsz; omega) h1,
            ihl (by simp [NTree.sizeF] at hsz; omega) h2⟩
      exact hforest cs (by simp [NTree.sizeT] at hk; omega) hf

theorem RepForest_fields {W : Type} (st st2 : LayoutState W)
    (ht : st2.tree = st.tree) (hi : st2.inverse_tree = st.inverse_tree)
    (hc : ∀ n, containsA st2.widgets n = containsA st.widgets n)
    (ts : List NTree) (h : RepForest st ts) : RepForest st2 ts := by
  induction ts with
  | nil => trivial
  | cons t ts ih =>
    exact ⟨RepTree_fields st st2 ht hi hc t.sizeT t le_rfl h.1, ih h.2⟩

theorem ClipT_shrink {W : Type} (st st2 : LayoutState W)
    (h : ∀ n, areaOf st2 n = areaOf st n ∨ areaOf st2 n = none) :
    ∀ k : Nat, ∀ t : NTree, NTree.sizeT t ≤ k → ClipT st t → ClipT st2 t := by
  intro k
  induction k with
  | zero =>
    intro t hk
    have := sizeT_pos t
    omega
  | succ k ih =>
    intro t hk hclip
    cases t with
    | node i cs =>
      obtain ⟨hedge, hrest⟩ := hclip
      constructor
      · intro c hcm Rc pc Ri pi hc2 hi2
        have hcc : areaOf st c.rootId = some (Rc, pc) := by
          rcases h c.rootId with hh | hh
          · rw [← hh]; exact hc2
          · rw [hc2] at hh; cases hh
        have hii : areaOf st i = some (Ri, pi) := by
          rcases h i with hh | hh
          · rw [← hh]; exact hi2
          · rw [hi2] at hh; cases hh
        exact hedge c hcm Rc pc Ri pi hcc hii
      · have hforest : ∀ l : List NTree, NTree.sizeF l ≤ k →
            ClipF st l → ClipF st2 l := by
          intro l
          induction l with
          | nil => intro _ _; trivial
          | cons c l ihl =>
            intro hsz hcf
            have hcp := sizeT_pos c
            exact ⟨ih c (by simp [NTree.sizeF] at hsz; omega) hcf.1,
              ihl (by simp [NTree.sizeF] at hsz; omega) hcf.2⟩
        exact hforest cs (by simp [NTree.sizeT] at hk; omega) hrest

theorem ClipF_shrink {W : Type} (st st2 : LayoutState W)
    (h : ∀ n, areaOf st2 n = areaOf st n ∨ areaOf st2 n = none)
    (ts : List NTree) (hc : ClipF st ts) : ClipF st2 ts := by
  induction ts with
  | nil => trivial
  | cons t ts ih =>
    exact ⟨ClipT_shrink st st2 h t.sizeT t le_rfl hc.1, ih hc.2⟩

theorem ClipT_of_none {W : Type} (st : LayoutState W) :
    ∀ k : Nat, ∀ t : NTree, NTree.sizeT t ≤ k →
    (∀ n ∈ NTree.nodesT t, areaOf st n = none) → ClipT st t := by
  intro k
  induction k with
  | zero =>
    intro t hk
    have := sizeT_pos t
    omega
  | succ k ih =>
    intro t hk hnone
    cases t with
    | node i cs =>
      constructor
      · intro c hcm Rc pc Ri pi hc2 _
        rw [hnone c.rootId (by
          simp [NTree.nodesT]
          exact Or.inr (rootId_mem_nodesF c cs hcm))] at hc2
        cases hc2
      · have hforest : ∀ l : List NTree, NTree.sizeF l ≤ k →
            (∀ n ∈ NTree.nodesF l, areaOf st n = none) → ClipF st l := by
          intro l
          induction l with
          | nil => intro _ _; trivial
          | cons c l ihl =>
            intro hsz hn
            have hcp := sizeT_pos c
            refine ⟨ih c (by simp [NTree.sizeF] at hsz; omega)
              (fun n hnm => hn n (by simp [NTree.nodesF, hnm])), ?_⟩
            exact ihl (by simp [NTree.sizeF] at hsz; omega)
              (fun n hnm => hn n (by simp [NTree.nodesF, hnm]))
        exact hforest cs (by simp [NTree.sizeT] at hk; omega)
          (fun n hnm => hnone n (by simp [NTree.nodesT, hnm]))

theorem ClipF_of_none {W : Type} (st : LayoutState W) (ts : List NTree)
    (h : ∀ n ∈ NTree.nodesF ts, areaOf st n = none) : ClipF st ts := by
  induction ts with
  | nil => trivial
  | cons t ts ih =>
    refine ⟨ClipT_of_none st t.sizeT t le_rfl
      (fun n hn => h n (by simp [NTree.nodesF, hn])), ?_⟩
    exact ih (fun n hn => h n (by simp [NTree.nodesF, hn]))

theorem lookupA_set_area {W : Type} (st : LayoutState W) (id : Nat)
    (a : Option (Rect × Vec2)) (n : Nat) :
    lookupA (st.set_area id a).widgets n =
      if n = id then
        (lookupA st.widgets n).map (fun e => { e with area_and_pos := a })
      else lookupA st.widgets n := by
  unfold LayoutState.set_area
  rw [lookupA_modifyA]
  by_cases hn : n = id
  · subst hn
    simp
  · rw [if_neg hn, if_neg hn]

theorem containsA_set_area {W : Type} (st : LayoutState W) (id : Nat)
    (a : Option (Rect × Vec2)) (n : Nat) :
    containsA (st.set_area id a).widgets n = containsA st.widgets n := by
  unfold containsA
  rw [lookupA_set_area]
  by_cases hn : n = id
  · rw [if_pos hn]
    cases lookupA st.widgets n <;> rfl
  · rw [if_neg hn]

theorem areaOf_set_area_ne {W : Type} (st : LayoutState W) (id : Nat)
    (a : Option (Rect × Vec2)) (n : Nat) (hn : n ≠ id) :
    areaOf (st.set_area id a) n = areaOf st n := by
  unfold areaOf
  rw [lookupA_set_area, if_neg hn]

theorem areaOf_set_area_self {W : Type} (st : LayoutState W) (id : Nat)
    (a : Option (Rect × Vec2)) (h : containsA st.widgets id = true) :
    areaOf (st.set_area id a) id = a := by
  unfold areaOf
  rw [lookupA_set_area, if_pos rfl]
  obtain ⟨e, he⟩ := Option.isSome_iff_exists.mp (by simpa [containsA] using h)
  rw [he]
  rfl

theorem sweep_fields {W : Type} :
    ∀ (fuel : Nat) (st : LayoutState W) (l : List Nat),
    (sweep_hidden fuel st l).tree = st.tree ∧
    (sweep_hidden fuel st l).inverse_tree = st.inverse_tree := by
  intro fuel
  induction fuel with
  | zero => intro st l; exact ⟨rfl, rfl⟩
  | succ fuel ih =>
    intro st l
    cases l with
    | nil => exact ⟨rfl, rfl⟩
    | cons id rest =>
      simp only [sweep_hidden]
      exact ih _ _

theorem sweep_contains {W : Type} :
    ∀ (fuel : Nat) (st : LayoutState W) (l : List Nat) (n : Nat),
    containsA (sweep_hidden fuel st l).widgets n = containsA st.widgets n := by
  intro fuel
  induction fuel with
  | zero => intro st l n; rfl
  | succ fuel ih =>
    intro st l n
    cases l with
    | nil => rfl
    | cons id rest =>
      simp only [sweep_hidden]
      rw [ih _ _ n, containsA_set_area]

theorem sweep_shrink {W : Type} :
    ∀ (fuel : Nat) (st : LayoutState W) (l : List Nat) (n : Nat),
    areaOf (sweep_hidden fuel st l) n = areaOf st n ∨
    areaOf (sweep_hidden fuel st l) n = none := by
  intro fuel
  induction fuel with
  | zero => intro st l n; exact Or.inl rfl
  | succ fuel ih =>
    intro st l n
    cases l with
    | nil => exact Or.inl rfl
    | cons id rest =>
      simp only [sweep_hidden]
      rcases ih (st.set_area id none)
        (((lookupA (st.set_area id none).tree id).getD []).foldl insertAbsent
          rest) n with hh | hh
      · by_cases hn : n = id
        · subst hn
          right
          rw [hh]
          unfold areaOf
          rw [lookupA_set_area, if_pos rfl]
          cases lookupA st.widgets n <;> rfl
        · left
          rw [hh, areaOf_set_area_ne st id none n hn]
      · right
        exact hh

theorem lookupA_none_of_keys {α : Type} {l : List (Nat × α)} {k : Nat}
    (h : ∀ e ∈ l, e.1 ≠ k) : lookupA l k = none := by
  induction l with
  | nil => rfl
  | cons p l ih =>
    rw [lookupA_cons, if_neg (h p (by simp))]
    exact ih (fun e he => h e (by simp [he]))

theorem sizemap_keys {W : Type} (ops : WidgetOps W) (st : LayoutState W)
    (children : List Nat) :
    ∀ e ∈ children.filterMap (fun cid => (lookupA st.widgets cid).map
      (fun c => (cid, ops.size cid c.widget))), e.1 ∈ children := by
  induction children with
  | nil => intro e he; simp at he
  | cons c l ih =>
    intro e he
    rw [List.filterMap_cons] at he
    cases hl : (lookupA st.widgets c).map (fun cc => (c, ops.size c cc.widget)) with
    | none =>
      rw [hl] at he
      exact List.mem_cons_of_mem c (ih e he)
    | some v =>
      rw [hl] at he
      rcases List.mem_cons.mp he with he | he
      · subst he
        cases hw : lookupA st.widgets c with
        | none => rw [hw] at hl; cases hl
        | some cc =>
          rw [hw] at hl
          injection hl with hl
          rw [← hl]
          simp
      · exact List.mem_cons_of_mem c (ih e he)

theorem nodup_keys_filter {α : Type} (l : List (Nat × α)) (p : Nat × α → Bool)
    (h : (l.map Prod.fst).Nodup) : ((l.filter p).map Prod.fst).Nodup :=
  h.sublist ((List.filter_sublist l).map Prod.fst)

theorem lt_finiteV {r : Rect} (h : r.isFiniteRect = true) :
    Vec2.isFiniteV r.lt = true := by
  obtain ⟨x, y, w, h2, rfl⟩ := isFiniteRect_elim h
  rfl

theorem addV_finite {a b : Vec2} (ha : Vec2.isFiniteV a = true)
    (hb : Vec2.isFiniteV b = true) : Vec2.isFiniteV (a.add b) = true := by
  obtain ⟨ax, ay, rfl⟩ := isFiniteV_elim ha
  obtain ⟨bx, by2, rfl⟩ := isFiniteV_elim hb
  rfl

theorem mem_foldl_insertAbsent :
    ∀ (l acc : List Nat) (x : Nat), x ∈ l.foldl insertAbsent acc →
    x ∈ acc ∨ x ∈ l := by
  intro l
  induction l with
  | nil => intro acc x h; exact Or.inl h
  | cons a l ih =>
    intro acc x h
    rw [List.foldl_cons] at h
    rcases ih (insertAbsent acc a) x h with hh | hh
    · unfold insertAbsent at hh
      by_cases hc : acc.contains a
      · rw [if_pos hc] at hh
        exact Or.inl hh
      · rw [if_neg hc] at hh
        rcases List.mem_append.mp hh with hh | hh
        · exact Or.inl hh
        · simp at hh
          subst hh
          exact Or.inr (by simp)
    · exact Or.inr (by simp [hh])

theorem tree_closed :
    ∀ (k : Nat) {W : Type} (st : LayoutState W),
    (∀ t : NTree, NTree.sizeT t ≤ k → RepTree st t →
      ∀ n ∈ NTree.nodesT t, ∀ m ∈ (lookupA st.tree n).getD [],
        m ∈ NTree.nodesT t) ∧
    (∀ ts : List NTree, NTree.sizeF ts ≤ k → RepForest st ts →
      ∀ n ∈ NTree.nodesF ts, ∀ m ∈ (lookupA st.tree n).getD [],
        m ∈ NTree.nodesF ts) := by
  intro k
  induction k with
  | zero =>
    intro W st
    constructor
    · intro t hk
      have := sizeT_pos t
      omega
    · intro ts hk hrep n hn
      cases ts with
      | nil => simp [NTree.nodesF] at hn
      | cons t ts =>
        have := sizeT_pos t
        simp [NTree.sizeF] at hk
        omega
  | succ k ih =>
    intro W st
    have htree : ∀ t : NTree, NTree.sizeT t ≤ k + 1 → RepTree st t →
        ∀ n ∈ NTree.nodesT t, ∀ m ∈ (lookupA st.tree n).getD [],
          m ∈ NTree.nodesT t := by
      intro t hk hrep n hn m hm
      cases t with
      | node i cs =>
        obtain ⟨hw, htr, hic, hf⟩ := hrep
        simp only [NTree.nodesT, List.mem_cons] at hn
        rcases hn with hn | hn
        · subst hn
          rcases htr with htr | ⟨hcs, htr⟩
          · rw [htr] at hm
            simp at hm
            obtain ⟨c, hc, hcm⟩ := hm
            simp [NTree.nodesT]
            exact Or.inr (hcm ▸ rootId_mem_nodesF c cs hc)
          · rw [htr] at hm
            simp at hm
        · have := (ih st).2 cs (by simp [NTree.sizeT] at hk; omega) hf n hn m hm
          simp [NTree.nodesT, this]
    refine ⟨htree, ?_⟩
    intro ts hk hrep n hn m hm
    induction ts with
    | nil => simp [NTree.nodesF] at hn
    | cons t ts ihl =>
      simp only [NTree.nodesF, List.mem_append] at hn ⊢
      have hcp := sizeT_pos t
      rcases hn with hn | hn
      · exact Or.inl (htree t (by simp [NTree.sizeF] at hk; omega) hrep.1
          n hn m hm)
      · exact Or.inr (ihl (by simp [NTree.sizeF] at hk; omega) hrep.2 hn)

theorem sweep_outside {W : Type} (S : List Nat) :
    ∀ (fuel : Nat) (st : LayoutState W) (l : List Nat),
    (∀ m ∈ l, m ∈ S) →
    (∀ m ∈ S, ∀ c ∈ (lookupA st.tree m).getD [], c ∈ S) →
    ∀ n, n ∉ S →
    lookupA (sweep_hidden fuel st l).widgets n = lookupA st.widgets n := by
  intro fuel
  induction fuel with
  | zero => intro st l _ _ n _; rfl
  | succ fuel ih =>
    intro st l hl hcl n hn
    cases l with
    | nil => rfl
    | cons id rest =>
      simp only [sweep_hidden]
      have hid : id ∈ S := hl id (by simp)
      have hni : n ≠ id := fun h => hn (h ▸ hid)
      rw [ih (st.set_area id none) _ ?hsub ?hcl2 n hn]
      · rw [lookupA_set_area, if_neg hni]
      case hsub =>
        intro m hm
        rcases mem_foldl_insertAbsent _ _ _ hm with hh | hh
        · exact hl m (by simp [hh])
        · have : (st.set_area id none).tree = st.tree := rfl
          rw [this] at hh
          exact hcl id hid m hh
      case hcl2 =>
        intro m hm c hc
        have : (st.set_area id none).tree = st.tree := rfl
        rw [this] at hc
        exact hcl m hm c hc

theorem ClipT_ext_mem {W : Type} (st st2 : LayoutState W) :
    ∀ k : Nat, ∀ t : NTree, NTree.sizeT t ≤ k →
    (∀ n ∈ NTree.nodesT t, areaOf st2 n = areaOf st n) →
    ClipT st t → ClipT st2 t := by
  intro k
  induction k with
  | zero =>
    intro t hk
    have := sizeT_pos t
    omega
  | succ k ih =>
    intro t hk hmem hclip
    cases t with
    | node i cs =>
      obtain ⟨hedge, hrest⟩ := hclip
      constructor
      · intro c hcm Rc pc Ri pi hc2 hi2
        rw [hmem c.rootId (by
            simp [NTree.nodesT]
            exact Or.inr (rootId_mem_nodesF c cs hcm))] at hc2
        rw [hmem i (by simp [NTree.nodesT])] at hi2
        exact hedge c hcm Rc pc Ri pi hc2 hi2
      · have hforest : ∀ l : List NTree, NTree.sizeF l ≤ k →
            (∀ n ∈ NTree.nodesF l, areaOf st2 n = areaOf st n) →
            ClipF st l → ClipF st2 l := by
          intro l
          induction l with
          | nil => intro _ _ _; trivial
          | cons c l ihl =>
            intro hsz hm2 hcf
            have hcp := sizeT_pos c
            refine ⟨ih c (by simp [NTree.sizeF] at hsz; omega)
              (fun n hnm => hm2 n (by simp [NTree.nodesF, hnm])) hcf.1, ?_⟩
            exact ihl (by simp [NTree.sizeF] at hsz; omega)
              (fun n hnm => hm2 n (by simp [NTree.nodesF, hnm])) hcf.2
        exact hforest cs (by simp [NTree.sizeT] at hk; omega)
          (fun n hnm => hmem n (by simp [NTree.nodesT, hnm])) hrest

theorem nodesT_sub_nodesF {t : NTree} {ts : List NTree} (h : t ∈ ts) :
    ∀ n ∈ NTree.nodesT t, n ∈ NTree.nodesF ts := by
  induction ts with
  | nil => simp at h
  | cons u ts ih =>
    intro n hn
    rcases List.mem_cons.mp h with hh | hh
    · subst hh
      simp [NTree.nodesF, hn]
    · simp [NTree.nodesF, ih hh n hn]

theorem tree_eq_of_rootId {ts : List NTree} (hnd : (NTree.nodesF ts).Nodup)
    {c c0 : NTree} (hc : c ∈ ts) (hc0 : c0 ∈ ts)
    (h : c.rootId = c0.rootId) : c = c0 := by
  induction ts with
  | nil => simp at hc
  | cons u ts ih =>
    have hnd' : (NTree.nodesT u ++ NTree.nodesF ts).Nodup := by
      simpa [NTree.nodesF] using hnd
    rw [List.nodup_append] at hnd'
    obtain ⟨_, hnd2, hdisj⟩ := hnd'
    rcases List.mem_cons.mp hc with h1 | h1 <;>
      rcases List.mem_cons.mp hc0 with h2 | h2
    · rw [h1, h2]
    · subst h1
      exfalso
      exact hdisj (rootId_mem_nodesT c) (h ▸ rootId_mem_nodesF c0 ts h2)
    · subst h2
      exfalso
      exact hdisj (rootId_mem_nodesT c0) (h ▸ rootId_mem_nodesF c ts h1)
    · exact ih hnd2 h1 h2

theorem nodes_disjoint {ts : List NTree} (hnd : (NTree.nodesF ts).Nodup)
    {c c0 : NTree} (hc : c ∈ ts) (hc0 : c0 ∈ ts)
    (hne : c.rootId ≠ c0.rootId) :
    ∀ n ∈ NTree.nodesT c, n ∉ NTree.nodesT c0 := by
  induction ts with
  | nil => simp at hc
  | cons u ts ih =>
    have hnd' : (NTree.nodesT u ++ NTree.nodesF ts).Nodup := by
      simpa [NTree.nodesF] using hnd
    rw [List.nodup_append] at hnd'
    obtain ⟨_, hnd2, hdisj⟩ := hnd'
    rcases List.mem_cons.mp hc with h1 | h1 <;>
      rcases List.mem_cons.mp hc0 with h2 | h2
    · subst h1
      subst h2
      exact absurd rfl hne
    · subst h1
      intro n hn hn0
      exact hdisj hn (nodesT_sub_nodesF h2 n hn0)
    · subst h2
      intro n hn hn0
      exact hdisj hn0 (nodesT_sub_nodesF h1 n hn)
    · exact ih hnd2 h1 h2

theorem ClipF_of_forall {W : Type} (st : LayoutState W) (ts : List NTree)
    (h : ∀ c ∈ ts, ClipT st c) : ClipF st ts := by
  induction ts with
  | nil => trivial
  | cons t ts ih =>
    exact ⟨h t (by simp), ih (fun c hc => h c (by simp [hc]))⟩

theorem RepTree_of_forest {W : Type} {st : LayoutState W} {ts : List NTree}
    (h : RepForest st ts) {c : NTree} (hc : c ∈ ts) : RepTree st c := by
  induction ts with
  | nil => simp at hc
  | cons t ts ih =>
    rcases List.mem_cons.mp hc with hh | hh
    · rw [hh]; exact h.1
    · exact ih h.2 hh

theorem nodup_nodesT_of_mem {ts : List NTree}
    (hnd : (NTree.nodesF ts).Nodup) {c : NTree} (hc : c ∈ ts) :
    (NTree.nodesT c).Nodup := by
  induction ts with
  | nil => simp at hc
  | cons t ts ih =>
    have hnd' : (NTree.nodesT t ++ NTree.nodesF ts).Nodup := by
      simpa [NTree.nodesF] using hnd
    rw [List.nodup_append] at hnd'
    rcases List.mem_cons.mp hc with hh | hh
    · rw [hh]; exact hnd'.1
    · exact ih hnd'.2.1 hh

theorem reanrrage_children_spec {W : Type} (ops : WidgetOps W) (fuel : Nat)
    (hW : ∀ (st : LayoutState W) (i : Nat) (cs : List NTree) (pw : Rect)
        (pos : Vec2) (wtr : List Nat),
      RepTree st (NTree.node i cs) →
      (NTree.nodesT (NTree.node i cs)).Nodup →
      (∀ n ∈ NTree.nodesF cs, areaOf st n = none) →
      pw.isFiniteRect = true → Vec2.isFiniteV pos = true →
      ReanrrageOut st (reanrrage_widgets ops fuel st pw pos i wtr).1 cs pw) :
    ∀ (entries : List (Nat × Option Rect)) (ts : List NTree)
      (st : LayoutState W) (pw : Rect) (pp : Vec2) (wtr cset : List Nat),
      RepForest st ts →
      (NTree.nodesF ts).Nodup →
      (∀ e ∈ entries, e.1 ∈ ts.map NTree.rootId) →
      (entries.map Prod.fst).Nodup →
      (∀ e ∈ entries, ∀ r : Rect, e.2 = some r → r.isFiniteRect = true) →
      pw.isFiniteRect = true →
      Vec2.isFiniteV pp = true →
      (∀ c ∈ ts, c.rootId ∈ entries.map Prod.fst →
        ∀ n ∈ NTree.nodesT c, areaOf st n = none) →
      (∀ c ∈ ts, TreeDone st c pw ∨
        (∀ n ∈ NTree.nodesT c, areaOf st n = none)) →
      (reanrrage_children ops fuel st pw pp wtr cset entries).1.tree =
        st.tree ∧
      (reanrrage_children ops fuel st pw pp wtr cset entries).1.inverse_tree =
        st.inverse_tree ∧
      (∀ n, containsA
          (reanrrage_children ops fuel st pw pp wtr cset entries).1.widgets n =
        containsA st.widgets n) ∧
      (∀ n, n ∉ NTree.nodesF ts →
        lookupA
          (reanrrage_children ops fuel st pw pp wtr cset entries).1.widgets n =
        lookupA st.widgets n) ∧
      (∀ c ∈ ts, TreeDone
        (reanrrage_children ops fuel st pw pp wtr cset entries).1 c pw) ∧
      (∀ m ∈ (reanrrage_children ops fuel st pw pp wtr cset entries).2.2,
        m ∈ cset) := by
  intro entries
  induction entries with
  | nil =>
    intro ts st pw pp wtr cset _ _ _ _ _ _ _ _ hInv
    have hnil : reanrrage_children ops fuel st pw pp wtr cset
        ([] : List (Nat × Option Rect)) = (st, wtr, cset) := by
      simp [reanrrage_children]
    rw [hnil]
    refine ⟨rfl, rfl, fun n => rfl, fun n _ => rfl, ?_, fun m hm => hm⟩
    intro c hc
    rcases hInv c hc with hd | hn
    · exact hd
    · refine ⟨ClipT_of_none st c.sizeT c le_rfl hn, fun Rc pc hRc => ?_⟩
      rw [hn c.rootId (rootId_mem_nodesT c)] at hRc
      cases hRc
  | cons e rest ih =>
    intro ts st pw pp wtr cset hrep hnd hkeys hndk hfin hpw hpp hPend hInv
    obtain ⟨cid, entry⟩ := e
    cases entry with
    | none =>
      simp only [reanrrage_children]
      exact ih ts st pw pp (wtr ++ [cid]) cset hrep hnd
        (fun e he => hkeys e (by simp [he]))
        hndk.of_cons
        (fun e he r hr => hfin e (by simp [he]) r hr)
        hpw hpp
        (fun c hc hk => hPend c hc (by simp [hk]))
        hInv
    | some cw =>
      simp only [reanrrage_children]
      by_cases hc : containsA st.widgets cid
      · simp only [hc, if_true]
        obtain ⟨c0, hc0mem, hc0root⟩ := List.mem_map.mp
          (hkeys (cid, some cw) (by simp))
        have hcwf : cw.isFiniteRect = true :=
          hfin (cid, some cw) (by simp) cw rfl
        have hCWf : ((cw.move_by pp).intersection pw).isFiniteRect = true :=
          inter_finite (move_by_finite hcwf hpp) hpw
        have hCPf : Vec2.isFiniteV (pp.add cw.lt) = true :=
          addV_finite hpp (lt_finiteV hcwf)
        obtain ⟨ci0, ccs0⟩ := c0
        simp only [NTree.rootId] at hc0root
        have hc0root2 : cid = ci0 := hc0root.symm
        subst hc0root2
        have hnone0 : ∀ n ∈ NTree.nodesT (NTree.node cid ccs0),
            areaOf st n = none :=
          hPend (NTree.node cid ccs0) hc0mem (by simp [NTree.rootId])
        have hnd0 : (NTree.nodesT (NTree.node cid ccs0)).Nodup :=
          nodup_nodesT_of_mem hnd hc0mem
        have hcidF : cid ∉ NTree.nodesF ccs0 := by
          have h2 : (cid :: NTree.nodesF ccs0).Nodup := by
            simpa [NTree.nodesT] using hnd0
          exact (List.nodup_cons.mp h2).1
        have hrep1 : RepTree
            (st.set_area cid (some ((cw.move_by pp).intersection pw,
              pp.add cw.lt)))
            (NTree.node cid ccs0) :=
          RepTree_fields st
            (st.set_area cid (some ((cw.move_by pp).intersection pw,
              pp.add cw.lt)))
            rfl rfl
            (fun n => containsA_set_area st cid _ n)
            (NTree.node cid ccs0).sizeT _ le_rfl
            (RepTree_of_forest hrep hc0mem)
        have hnone1 : ∀ n ∈ NTree.nodesF ccs0,
            areaOf (st.set_area cid (some ((cw.move_by pp).intersection pw,
              pp.add cw.lt))) n = none := by
          intro n hn
          have hni : n ≠ cid := fun h => hcidF (h ▸ hn)
          rw [areaOf_set_area_ne st cid _ n hni]
          exact hnone0 n (by simp [NTree.nodesT, hn])
        have hOut := hW
          (st.set_area cid (some ((cw.move_by pp).intersection pw,
            pp.add cw.lt)))
          cid ccs0 ((cw.move_by pp).intersection pw) (pp.add cw.lt) wtr
          hrep1 hnd0 hnone1 hCWf hCPf
        unfold ReanrrageOut at hOut
        obtain ⟨hO1, hO2, hO3, hO4, hO5⟩ := hOut
        have harea_cid : areaOf
            (reanrrage_widgets ops fuel
              (st.set_area cid (some ((cw.move_by pp).intersection pw,
                pp.add cw.lt)))
              ((cw.move_by pp).intersection pw) (pp.add cw.lt) cid wtr).1
            cid = some ((cw.move_by pp).intersection pw, pp.add cw.lt) := by
          unfold areaOf
          rw [hO4 cid hcidF]
          have h2 := areaOf_set_area_self st cid
            (some ((cw.move_by pp).intersection pw, pp.add cw.lt)) hc
          unfold areaOf at h2
          exact h2
        have harea_out : ∀ n, n ∉ NTree.nodesT (NTree.node cid ccs0) →
            areaOf (reanrrage_widgets ops fuel
              (st.set_area cid (some ((cw.move_by pp).intersection pw,
                pp.add cw.lt)))
              ((cw.move_by pp).intersection pw) (pp.add cw.lt) cid wtr).1
              n = areaOf st n := by
          intro n hn
          have hni : n ≠ cid := fun h => hn (by simp [NTree.nodesT, h])
          have hnf : n ∉ NTree.nodesF ccs0 := fun h =>
            hn (by simp [NTree.nodesT, h])
          unfold areaOf
          rw [hO4 n hnf, lookupA_set_area, if_neg hni]
        have hdone0 : TreeDone
            (reanrrage_widgets ops fuel
              (st.set_area cid (some ((cw.move_by pp).intersection pw,
                pp.add cw.lt)))
              ((cw.move_by pp).intersection pw) (pp.add cw.lt) cid wtr).1
            (NTree.node cid ccs0) pw := by
          refine ⟨⟨?_, ?_⟩, ?_⟩
          · intro c hcm Rc pc Ri pi hc2 hi2
            rw [harea_cid] at hi2
            injection hi2 with hi2
            injection hi2 with hi2a hi2b
            obtain ⟨X, hXf, hXE⟩ := (hO5 c hcm).2 Rc pc hc2
            rw [hXE, ← hi2a]
            exact inter_absorb hXf hCWf
          · exact ClipF_of_forall _ _ (fun c hcm => (hO5 c hcm).1)
          · intro Rc pc hR
            simp only [NTree.rootId] at hR
            rw [harea_cid] at hR
            injection hR with hR
            injection hR with hR1 hR2
            exact ⟨cw.move_by pp, move_by_finite hcwf hpp, hR1.symm⟩
        have hcidrest : cid ∉ rest.map Prod.fst :=
          (List.nodup_cons.mp (by simpa using hndk)).1
        obtain ⟨hT1, hT2, hT3, hT4, hT5, hT6⟩ := ih ts
          (reanrrage_widgets ops fuel
            (st.set_area cid (some ((cw.move_by pp).intersection pw,
              pp.add cw.lt)))
            ((cw.move_by pp).intersection pw) (pp.add cw.lt) cid wtr).1
          pw pp
          (reanrrage_widgets ops fuel
            (st.set_area cid (some ((cw.move_by pp).intersection pw,
              pp.add cw.lt)))
            ((cw.move_by pp).intersection pw) (pp.add cw.lt) cid wtr).2
          (cset.filter (fun x => x ≠ cid))
          (RepForest_fields st _ hO1 hO2
            (fun n => (hO3 n).trans (containsA_set_area st cid _ n)) ts hrep)
          hnd
          (fun e he => hkeys e (by simp [he]))
          hndk.of_cons
          (fun e he r hr => hfin e (by simp [he]) r hr)
          hpw hpp
          (fun c hcm hk n hn => by
            have hroot : c.rootId ≠ cid := by
              intro hh
              exact hcidrest (hh ▸ hk)
            have hdisj2 := nodes_disjoint hnd hcm hc0mem
              (by simpa [NTree.rootId] using hroot)
            rw [harea_out n (hdisj2 n hn)]
            exact hPend c hcm (by simp [hk]) n hn)
          (fun c hcm => by
            by_cases hroot : c.rootId = cid
            · have hceq : c = NTree.node cid ccs0 :=
                tree_eq_of_rootId hnd hcm hc0mem
                  (by simpa [NTree.rootId] using hroot)
              rw [hceq]
              exact Or.inl hdone0
            · have hdisj2 := nodes_disjoint hnd hcm hc0mem
                (by simpa [NTree.rootId] using hroot)
              have hEq : ∀ n ∈ NTree.nodesT c,
                  areaOf (reanrrage_widgets ops fuel
                    (st.set_area cid (some ((cw.move_by pp).intersection pw,
                      pp.add cw.lt)))
                    ((cw.move_by pp).intersection pw) (pp.add cw.lt) cid
                    wtr).1 n = areaOf st n :=
                fun n hn => harea_out n (hdisj2 n hn)
              rcases hInv c hcm with hd | hn
              · left
                refine ⟨ClipT_ext_mem st _ c.sizeT c le_rfl hEq hd.1,
                  fun Rc pc hR => ?_⟩
                rw [hEq c.rootId (rootId_mem_nodesT c)] at hR
                exact hd.2 Rc pc hR
              · right
                intro n hn2
                rw [hEq n hn2]
                exact hn n hn2)
        refine ⟨?_, ?_, ?_, ?_, hT5, ?_⟩
        · exact hT1.trans hO1
        · exact hT2.trans hO2
        · exact fun n =>
            (hT3 n).trans ((hO3 n).trans (containsA_set_area st cid _ n))
        · intro n hn
          rw [hT4 n hn]
          have hn0 : n ∉ NTree.nodesT (NTree.node cid ccs0) := fun h =>
            hn (nodesT_sub_nodesF hc0mem n h)
          have hni : n ≠ cid := fun h => hn0 (by simp [NTree.nodesT, h])
          have hnf : n ∉ NTree.nodesF ccs0 := fun h =>
            hn0 (by simp [NTree.nodesT, h])
          rw [hO4 n hnf, lookupA_set_area, if_neg hni]
        · intro m hm
          exact List.mem_of_mem_filter (hT6 m hm)
      · simp only [hc, Bool.false_eq_true, if_false]
        exact ih ts st pw pp wtr cset hrep hnd
          (fun e he => hkeys e (by simp [he]))
          hndk.of_cons
          (fun e he r hr => hfin e (by simp [he]) r hr)
          hpw hpp
          (fun c hcm hk => hPend c hcm (by simp [hk]))
          hInv

theorem reanrrage_widgets_spec {W : Type} (ops : WidgetOps W)
    (hSelf : ∀ w sizes rect lid,
      ∀ e ∈ ops.handle_child_layout w sizes rect lid, e.1 ≠ lid)
    (hKeys : ∀ w sizes rect lid,
      ∀ e ∈ ops.handle_child_layout w sizes rect lid, e.1 ∈ sizes.map Prod.fst)
    (hNdR : ∀ w sizes rect lid,
      ((ops.handle_child_layout w sizes rect lid).map Prod.fst).Nodup)
    (hFinR : ∀ w sizes rect lid,
      ∀ e ∈ ops.handle_child_layout w sizes rect lid,
      ∀ r : Rect, e.2 = some r → r.isFiniteRect = true) :
    ∀ (fuel : Nat) (st : LayoutState W) (i : Nat) (cs : List NTree)
      (pw : Rect) (pos : Vec2) (wtr : List Nat),
      RepTree st (NTree.node i cs) →
      (NTree.nodesT (NTree.node i cs)).Nodup →
      (∀ n ∈ NTree.nodesF cs, areaOf st n = none) →
      pw.isFiniteRect = true → Vec2.isFiniteV pos = true →
      ReanrrageOut st (reanrrage_widgets ops fuel st pw pos i wtr).1 cs pw := by
  intro fuel
  induction fuel with
  | zero =>
    intro st i cs pw pos wtr _ _ h3 _ _
    have h0 : reanrrage_widgets ops 0 st pw pos i wtr = (st, wtr) := by
      simp [reanrrage_widgets]
    rw [h0]
    refine ⟨rfl, rfl, fun n => rfl, fun n _ => rfl, fun c hc =>
      ⟨ClipT_of_none st c.sizeT c le_rfl
        (fun n hn => h3 n (nodesT_sub_nodesF hc n hn)), fun Rc pc hR => ?_⟩⟩
    rw [h3 c.rootId (nodesT_sub_nodesF hc c.rootId (rootId_mem_nodesT c))]
      at hR
    cases hR
  | succ fuel ih =>
    intro st i cs pw pos wtr hrep hnd h3 hpw hpos
    obtain ⟨hw, htr, hic, hf⟩ := hrep
    have htriv : ReanrrageOut st st cs pw := by
      refine ⟨rfl, rfl, fun n => rfl, fun n _ => rfl, fun c hc =>
        ⟨ClipT_of_none st c.sizeT c le_rfl
          (fun n hn => h3 n (nodesT_sub_nodesF hc n hn)), fun Rc pc hR => ?_⟩⟩
      rw [h3 c.rootId (nodesT_sub_nodesF hc c.rootId (rootId_mem_nodesT c))]
        at hR
      cases hR
    have hndc : (i :: NTree.nodesF cs).Nodup := by
      simpa [NTree.nodesT] using hnd
    rw [List.nodup_cons] at hndc
    obtain ⟨hinot, hndf⟩ := hndc
    rw [reanrrage_widgets]
    cases hT : lookupA st.tree i with
    | none =>
      simp only []
      exact htriv
    | some children =>
      have hch : children = cs.map NTree.rootId := by
        rcases htr with htr | ⟨hcs, htr⟩
        · rw [htr] at hT
          injection hT with h
          exact h.symm
        · rw [htr] at hT
          cases hT
      subst hch
      simp only []
      cases hW2 : lookupA st.widgets i with
      | none =>
        simp only []
        exact htriv
      | some parent =>
        simp only []
        cases hA : parent.area_and_pos with
        | none =>
          simp only []
          exact htriv
        | some rp =>
          obtain ⟨rect, rpos⟩ := rp
          simp only []
          have hnoneSelf : lookupA (ops.handle_child_layout parent.widget
              ((cs.map NTree.rootId).filterMap
                (fun cid => (lookupA st.widgets cid).map
                  (fun c => (cid, ops.size cid c.widget)))) rect i) i = none :=
            lookupA_none_of_keys
              (fun e he => hSelf parent.widget _ rect i e he)
          simp only [hnoneSelf]
          obtain ⟨hC1, hC2, hC3, hC4, hC5, hC6⟩ :=
            reanrrage_children_spec ops fuel ih
              ((ops.handle_child_layout parent.widget
                ((cs.map NTree.rootId).filterMap
                  (fun cid => (lookupA st.widgets cid).map
                    (fun c => (cid, ops.size cid c.widget)))) rect i).filter
                (fun p => p.1 != i))
              cs st pw pos wtr
              ((cs.map NTree.rootId).foldl insertAbsent [])
              hf hndf
              (fun e he => by
                obtain ⟨e2, he2, he2eq⟩ := List.mem_map.mp
                  (hKeys parent.widget _ rect i e (List.mem_of_mem_filter he))
                rw [← he2eq]
                exact sizemap_keys ops st (cs.map NTree.rootId) e2 he2)
              (nodup_keys_filter _ _ (hNdR parent.widget _ rect i))
              (fun e he r hr => hFinR parent.widget _ rect i e
                (List.mem_of_mem_filter he) r hr)
              hpw hpos
              (fun c hc _ n hn => h3 n (nodesT_sub_nodesF hc n hn))
              (fun c hc => Or.inr (fun n hn => h3 n (nodesT_sub_nodesF hc n hn)))
          refine ⟨?_, ?_, ?_, ?_, ?_⟩
          · exact (sweep_fields fuel _ _).1.trans hC1
          · exact (sweep_fields fuel _ _).2.trans hC2
          · exact fun n => (sweep_contains fuel _ _ n).trans (hC3 n)
          · intro n hn
            rw [sweep_outside (NTree.nodesF cs) fuel _ _ ?hsub ?hcl n hn,
              hC4 n hn]
            case hsub =>
              intro m hm
              rcases mem_foldl_insertAbsent _ _ _ (hC6 m hm) with h | h
              · simp at h
              · obtain ⟨c, hcm, hceq⟩ := List.mem_map.mp h
                rw [← hceq]
                exact rootId_mem_nodesF c cs hcm
            case hcl =>
              intro m hm c2 hc2
              rw [hC1] at hc2
              exact ((tree_closed (NTree.sizeF cs) st).2 cs le_rfl hf) m hm
                c2 hc2
          · intro c hc
            refine ⟨ClipT_shrink _ _ (fun n => sweep_shrink fuel _ _ n)
              c.sizeT c le_rfl (hC5 c hc).1, fun Rc pc hR => ?_⟩
            rcases sweep_shrink fuel
              (reanrrage_children ops fuel st pw pos wtr
                ((cs.map NTree.rootId).foldl insertAbsent [])
                ((ops.handle_child_layout parent.widget
                  ((cs.map NTree.rootId).filterMap
                    (fun cid => (lookupA st.widgets cid).map
                      (fun c => (cid, ops.size cid c.widget)))) rect i).filter
                  (fun p => p.1 != i))).1
              (reanrrage_children ops fuel st pw pos wtr
                ((cs.map NTree.rootId).foldl insertAbsent [])
                ((ops.handle_child_layout parent.widget
                  ((cs.map NTree.rootId).filterMap
                    (fun cid => (lookupA st.widgets cid).map
                      (fun c => (cid, ops.size cid c.widget)))) rect i).filter
                  (fun p => p.1 != i))).2.2
              c.rootId with hh | hh
            · rw [hh] at hR
              exact (hC5 c hc).2 Rc pc hR
            · rw [hh] at hR
              cases hR

theorem from_size_finite {ws : Vec2} (h : Vec2.isFiniteV ws = true) :
    (Rect.from_size ws).isFiniteRect = true := by
  obtain ⟨x, y, rfl⟩ := isFiniteV_elim h
  rfl

/-- C2 (amended): after a layout pass over a represented tree starting at
    its root — with fresh (unplaced) descendants, the root stored at the
    full window, finite window size, and widget callbacks whose child
    placements name only real children, name each at most once, use finite
    rects, and contain NO self-entry — every tree edge whose two ends hold
    placement rects satisfies `intersection(rect(c), rect(p)) == rect(c)`.
    With self-entries the property fails: a self-entry only rebinds the
    local clipping window, not the parent's stored rect. -/
theorem claim_C2 {W : Type} (ops : WidgetOps W) (st : LayoutState W)
    (t : NTree) (fuel : Nat) (ws : Vec2) (wtr : List Nat) (pos0 : Vec2)
    (hSelf : ∀ w sizes rect lid,
      ∀ e ∈ ops.handle_child_layout w sizes rect lid, e.1 ≠ lid)
    (hKeys : ∀ w sizes rect lid,
      ∀ e ∈ ops.handle_child_layout w sizes rect lid,
        e.1 ∈ sizes.map Prod.fst)
    (hNdR : ∀ w sizes rect lid,
      ((ops.handle_child_layout w sizes rect lid).map Prod.fst).Nodup)
    (hFinR : ∀ w sizes rect lid,
      ∀ e ∈ ops.handle_child_layout w sizes rect lid,
      ∀ r : Rect, e.2 = some r → r.isFiniteRect = true)
    (hrep : RepTree st t)
    (hnd : (NTree.nodesT t).Nodup)
    (hfresh : ∀ n ∈ NTree.nodesT t, n ≠ t.rootId → areaOf st n = none)
    (hrootArea : areaOf st t.rootId = some (Rect.WINDOW, pos0))
    (hws : Vec2.isFiniteV ws = true) :
    ClipT (reanrrage_widgets ops fuel st (Rect.from_size ws) Vec2.ZERO
      t.rootId wtr).1 t := by
  cases t with
  | node i cs =>
    simp only [NTree.rootId] at hfresh hrootArea ⊢
    have hndc : (i :: NTree.nodesF cs).Nodup := by
      simpa [NTree.nodesT] using hnd
    rw [List.nodup_cons] at hndc
    obtain ⟨hinot, hndf⟩ := hndc
    have h3 : ∀ n ∈ NTree.nodesF cs, areaOf st n = none := by
      intro n hn
      exact hfresh n (by simp [NTree.nodesT, hn]) (fun h => hinot (h ▸ hn))
    obtain ⟨hO1, hO2, hO3, hO4, hO5⟩ :=
      reanrrage_widgets_spec ops hSelf hKeys hNdR hFinR fuel st i cs
        (Rect.from_size ws) Vec2.ZERO wtr hrep hnd h3
        (from_size_finite hws) rfl
    have hrootKeep : areaOf (reanrrage_widgets ops fuel st
        (Rect.from_size ws) Vec2.ZERO i wtr).1 i =
        some (Rect.WINDOW, pos0) := by
      unfold areaOf
      rw [hO4 i hinot]
      unfold areaOf at hrootArea
      exact hrootArea
    constructor
    · intro c hc Rc pc Ri pi hc2 hi2
      rw [hrootKeep] at hi2
      injection hi2 with hi2
      injection hi2 with hi2a hi2b
      obtain ⟨X, hXf, hXE⟩ := (hO5 c hc).2 Rc pc hc2
      rw [hXE, ← hi2a]
      exact inter_from_size_window hXf hws
    · exact ClipF_of_forall _ _ (fun c hc => (hO5 c hc).1)

/-- witness for C2 on a two-node layout with a well-behaved placement
    callback: the pass yields a clip-consistent tree. -/
theorem claim_C2_witness :
    ClipT (reanrrage_widgets opsC2b 2 stC2b
      (Rect.from_size (Vec2.mk' 100 100)) Vec2.ZERO
      (NTree.node 0 [NTree.node 1 []]).rootId []).1
      (NTree.node 0 [NTree.node 1 []]) := by
  have hSelf : ∀ w sizes rect lid,
      ∀ e ∈ opsC2b.handle_child_layout w sizes rect lid, e.1 ≠ lid := by
    intro w sizes rect lid e he
    simp only [opsC2b] at he
    cases hf : sizes.find? (fun p => p.1 != lid) with
    | none => rw [hf] at he; simp at he
    | some p =>
      rw [hf] at he
      simp at he
      subst he
      have := List.find?_some hf
      simp at this
      exact this
  have hKeys : ∀ w sizes rect lid,
      ∀ e ∈ opsC2b.handle_child_layout w sizes rect lid,
        e.1 ∈ sizes.map Prod.fst := by
    intro w sizes rect lid e he
    simp only [opsC2b] at he
    cases hf : sizes.find? (fun p => p.1 != lid) with
    | none => rw [hf] at he; simp at he
    | some p =>
      rw [hf] at he
      simp at he
      subst he
      exact List.mem_map_of_mem Prod.fst (List.mem_of_find?_eq_some hf)
  have hNdR : ∀ w sizes rect lid,
      ((opsC2b.handle_child_layout w sizes rect lid).map Prod.fst).Nodup := by
    intro w sizes rect lid
    simp only [opsC2b]
    cases hf : sizes.find? (fun p => p.1 != lid) <;> simp
  have hFinR : ∀ w sizes rect lid,
      ∀ e ∈ opsC2b.handle_child_layout w sizes rect lid,
      ∀ r : Rect, e.2 = some r → r.isFiniteRect = true := by
    intro w sizes rect lid e he r hr
    simp only [opsC2b] at he
    cases hf : sizes.find? (fun p => p.1 != lid) with
    | none => rw [hf] at he; simp at he
    | some p =>
      rw [hf] at he
      simp at he
      subst he
      have hr2 : some (Rect.mk' 0 0 5 5) = some r := hr
      injection hr2 with hr2
      rw [← hr2]
      rfl
  have hrep : RepTree stC2b (NTree.node 0 [NTree.node 1 []]) := by
    refine ⟨by decide, Or.inl (by decide), ?_,
      ⟨by decide, Or.inr ⟨rfl, by decide⟩, ?_, ?_⟩, ?_⟩
    · intro c hc
      simp at hc
      subst hc
      decide
    · intro c hc
      simp at hc
    · exact trivial
    · exact trivial
  exact claim_C2 opsC2b stC2b (NTree.node 0 [NTree.node 1 []]) 2
    (Vec2.mk' 100 100) [] Vec2.ZERO hSelf hKeys hNdR hFinR hrep (by decide)
    (by
      intro n hn hne
      simp [NTree.nodesT, NTree.nodesF] at hn
      simp [NTree.rootId] at hne
      rcases hn with hn | hn
      · exact absurd hn hne
      · subst hn
        rfl)
    rfl rfl

set_option maxHeartbeats 1000000 in
/-- counterexample to C2 as stated: widget 1 resizes itself via a
    self-entry (claiming a 50×50 box), which only rebinds the local
    clipping window; its stored rect stays the 10×10 box its parent gave
    it, while its child 2 is clipped against the 50×50 box and ends up
    40×40 — not contained in its parent's stored rect. -/
theorem claim_C2_counterexample :
    lookupA stC2.inverse_tree 2 = some 1 ∧
    areaOf (reanrrage_widgets opsC2 3 stC2
      (Rect.from_size (Vec2.mk' 100 100)) Vec2.ZERO 0 []).1 1 =
      some (Rect.mk' 0 0 10 10, Vec2.mk' 0 0) ∧
    areaOf (reanrrage_widgets opsC2 3 stC2
      (Rect.from_size (Vec2.mk' 100 100)) Vec2.ZERO 0 []).1 2 =
      some (Rect.mk' 0 0 40 40, Vec2.mk' 0 0) ∧
    Rect.beq ((Rect.mk' 0 0 40 40).intersection (Rect.mk' 0 0 10 10))
      (Rect.mk' 0 0 40 40) = false := by
  refine ⟨by decide, ?_, ?_, ?_⟩
  · simp +decide [reanrrage_widgets, reanrrage_children, sweep_hidden,
      insertAbsent, stC2, opsC2, areaOf, lookupA, containsA, modifyA,
      LayoutState.set_area, List.find?, List.filter, List.filterMap,
      Rect.from_size, Rect.move_by, Rect.intersection, Rect.lt, Rect.mk',
      Vec2.mk', Vec2.ZERO, Vec2.add, F.add, F.sub, F.neg, F.fmin, F.fmax,
      F.fle, F.flt, F.beq, F.isNaN, Rect.WINDOW]
  · simp +decide [reanrrage_widgets, reanrrage_children, sweep_hidden,
      insertAbsent, stC2, opsC2, areaOf, lookupA, containsA, modifyA,
      LayoutState.set_area, List.find?, List.filter, List.filterMap,
      Rect.from_size, Rect.move_by, Rect.intersection, Rect.lt, Rect.mk',
      Vec2.mk', Vec2.ZERO, Vec2.add, F.add, F.sub, F.neg, F.fmin, F.fmax,
      F.fle, F.flt, F.beq, F.isNaN, Rect.WINDOW]
  · norm_num [Rect.intersection, Rect.mk', Rect.beq, fmax_fin, fmin_fin,
      fadd_fin, fsub_fin, fbeq_fin, min_def, max_def]

end Nablo
